import Mathlib

/-!
# Sprite rasterizers of the maze simulator (`MouseGraphic`, `CheeseGraphic`)

A shallow embedding of `src/MouseGraphic.cpp` and `src/CheeseGraphic.cpp`.

Conventions of the embedding:

* `qreal` (and the `float` of a vertex) is an exact field `K`, so that no operation rounds
  and `static_cast<float>` is the identity; the theorems that need trigonometry or square
  roots are stated over `ℝ`.  `std::cos`, `std::sin` and `M_PI` are parameters `cos`,
  `sin`, `pi`, instantiated with `Real.cos`, `Real.sin`, `Real.pi` in those theorems.
* The statements about the exact values of coordinates are made on a second copy of the
  geometric routines (`*Rounded`), in which every `double` operation is followed by a
  rounding `toDouble` and `static_cast<float>` is a rounding `toFloat`.  With
  `roundDouble` and `roundFloat` (IEEE 754 round to nearest, ties to even, on `ℚ`) this is
  the arithmetic of the program; with both the identity it is the exact one.
* `int` is `Int` for channel values and sums, and `Nat` for the image sizes and
  the loop counters, which start at `0`, only grow, and stay below a `QImage` size.
* `QVector<TriangleGraphic> &buffer` is passed explicitly: every routine takes the
  buffer and returns the buffer after its appends.
-/

namespace mms

/-! ## Data model -/

/-- A sampled pixel: the four channels read by `qRed`, `qGreen`, `qBlue`, `qAlpha`. -/
structure QRgb where
  red : Int
  green : Int
  blue : Int
  alpha : Int
deriving DecidableEq

/-- Red channel of a sample. -/
def qRed (p : QRgb) : Int := p.red

/-- Green channel of a sample. -/
def qGreen (p : QRgb) : Int := p.green

/-- Blue channel of a sample. -/
def qBlue (p : QRgb) : Int := p.blue

/-- Alpha channel of a sample. -/
def qAlpha (p : QRgb) : Int := p.alpha

/-- A bitmap: its size and the stored sample at every position. -/
structure QImage where
  width : Nat
  height : Nat
  bits : Nat → Nat → QRgb

/-- A null image: nothing was decoded, both sizes are zero. -/
def QImage.null : QImage := ⟨0, 0, fun _ _ => ⟨0, 0, 0, 0⟩⟩

/-- An image is null exactly when it holds no pixel. -/
def QImage.isNull (img : QImage) : Bool := img.width == 0 || img.height == 0

/-- Sample returned by `QImage::pixel` for a coordinate outside the image
(the value `12345`, that is `0x00003039`). -/
def QImage.outOfRange : QRgb := ⟨0, 48, 57, 0⟩

/-- Total pixel lookup `QImage::pixel(x, y)`. -/
def QImage.pixel (img : QImage) (x y : Nat) : QRgb :=
  if x < img.width ∧ y < img.height then img.bits x y else QImage.outOfRange

/-- Color triple of a vertex. -/
structure RGB where
  r : Int
  g : Int
  b : Int
deriving DecidableEq

/-- A world-space point, in meters (`Coordinate::Cartesian(Distance::Meters x, Distance::Meters y)`). -/
structure Coordinate (K : Type) where
  x : K
  y : K

/-- A local-space point. -/
structure QPointF (K : Type) where
  x : K
  y : K

/-- A vertex handed to the renderer. -/
structure VertexGraphic (K : Type) where
  x : K
  y : K
  rgb : RGB
  a : Int

/-- Three vertices. -/
structure TriangleGraphic (K : Type) where
  p1 : VertexGraphic K
  p2 : VertexGraphic K
  p3 : VertexGraphic K

/-- The three vertices of a triangle, in order. -/
def TriangleGraphic.vertices {K : Type} (t : TriangleGraphic K) : List (VertexGraphic K) :=
  [t.p1, t.p2, t.p3]

/-- The eight discretized headings. -/
inductive SemiDirection where
  | EAST
  | NORTHEAST
  | NORTH
  | NORTHWEST
  | WEST
  | SOUTHWEST
  | SOUTH
  | SOUTHEAST
deriving DecidableEq

/-- The named color used by the mouse fallback (only this enumerator is used here). -/
inductive Color where
  | GRAY
deriving DecidableEq

/-- A polygon, given by its vertices. -/
structure Polygon (K : Type) where
  vertices : List (Coordinate K)

/-- Polygon accessor. -/
def Polygon.getVertices {K : Type} (p : Polygon K) : List (Coordinate K) := p.vertices

/-- The state of the mouse that the sprite reads. -/
structure Mouse (K : Type) where
  currentBodyPolygon : Polygon K
  currentDiscretizedRotation : SemiDirection

/-- Body outline of the mouse. -/
def Mouse.getCurrentBodyPolygon {K : Type} (m : Mouse K) : Polygon K := m.currentBodyPolygon

/-- Heading of the mouse. -/
def Mouse.getCurrentDiscretizedRotation {K : Type} (m : Mouse K) : SemiDirection :=
  m.currentDiscretizedRotation

/-- The mouse sprite. -/
structure MouseGraphic (K : Type) where
  m_mouse : Mouse K
  m_imageLoaded : Bool
  m_image : QImage
  m_imageWidth : Nat
  m_imageHeight : Nat

/-- The cheese sprite. -/
structure CheeseGraphic (K : Type) where
  m_position : Coordinate K
  m_scale : K
  m_imageLoaded : Bool
  m_image : QImage
  m_imageWidth : Nat
  m_imageHeight : Nat

/-- Constructor of the mouse sprite; `img` is what loading the icon gave.  When loading
failed the image and its sizes are left unset in the source and are never read; they are
the null image and `0` here. -/
def MouseGraphic.new {K : Type} (mouse : Mouse K) (img : QImage) : MouseGraphic K :=
  if img.isNull then
    { m_mouse := mouse, m_imageLoaded := false, m_image := QImage.null,
      m_imageWidth := 0, m_imageHeight := 0 }
  else
    { m_mouse := mouse, m_imageLoaded := true, m_image := img,
      m_imageWidth := img.width, m_imageHeight := img.height }

/-- Constructor of the cheese sprite; `img` is what loading the icon gave. -/
def CheeseGraphic.new {K : Type} (position : Coordinate K) (scale : K) (img : QImage) :
    CheeseGraphic K :=
  if img.isNull then
    { m_position := position, m_scale := scale, m_imageLoaded := false,
      m_image := QImage.null, m_imageWidth := 0, m_imageHeight := 0 }
  else
    { m_position := position, m_scale := scale, m_imageLoaded := true,
      m_image := img, m_imageWidth := img.width, m_imageHeight := img.height }

/-! ## Vertex and triangle packing -/

section Code

variable {K : Type} [Field K]

/-- `CheeseGraphic::createTriangle`. -/
def CheeseGraphic.createTriangle (v1 v2 v3 : Coordinate K) (color : RGB) (alpha : Int) :
    TriangleGraphic K :=
  let makeVertex := fun (c : Coordinate K) =>
    ({ x := c.x, y := c.y, rgb := color, a := alpha } : VertexGraphic K)
  { p1 := makeVertex v1, p2 := makeVertex v2, p3 := makeVertex v3 }

/-- `MouseGraphic::createTriangle`. -/
def MouseGraphic.createTriangle (v1 v2 v3 : Coordinate K) (color : RGB) (alpha : Int) :
    TriangleGraphic K :=
  let makeVertex := fun (c : Coordinate K) =>
    ({ x := c.x, y := c.y, rgb := color, a := alpha } : VertexGraphic K)
  { p1 := makeVertex v1, p2 := makeVertex v2, p3 := makeVertex v3 }

/-- Indexing `worldCorners[i]` of a corner vector. -/
def cornerAt (worldCorners : List (Coordinate K)) (i : Nat) : Coordinate K :=
  worldCorners.getD i ⟨0, 0⟩

/-- Indexing of a local corner vector. -/
def pointAt (corners : List (QPointF K)) (i : Nat) : QPointF K :=
  corners.getD i ⟨0, 0⟩

/-! ## Per-pixel mode, unrotated (`CheeseGraphic::drawAllPixels`) -/

/-- The local quad of pixel `(x, y)`: top-left, top-right, bottom-right, bottom-left. -/
def CheeseGraphic.pixelCorners (g : CheeseGraphic K) (pixelWidth pixelHeight : K)
    (x y : Nat) : List (QPointF K) :=
  let localX := ((x : K) - (g.m_imageWidth : K) / 2) * pixelWidth
  let localY := ((y : K) - (g.m_imageHeight : K) / 2) * pixelHeight
  [⟨localX, localY⟩,
   ⟨localX + pixelWidth, localY⟩,
   ⟨localX + pixelWidth, localY + pixelHeight⟩,
   ⟨localX, localY + pixelHeight⟩]

/-- Translation of the corners to world position (the loop over `pixelCorners`). -/
def CheeseGraphic.worldCorners (centerX centerY : K) (pixelCorners : List (QPointF K)) :
    List (Coordinate K) :=
  pixelCorners.map fun corner => ⟨corner.x + centerX, corner.y + centerY⟩

/-- Body of the two nested loops of `CheeseGraphic::drawAllPixels` at pixel `(x, y)`. -/
def CheeseGraphic.drawPixel (g : CheeseGraphic K) (centerX centerY pixelWidth pixelHeight : K)
    (y : Nat) (buffer : List (TriangleGraphic K)) (x : Nat) : List (TriangleGraphic K) :=
  let pixel := g.m_image.pixel x y
  let alpha := qAlpha pixel
  if alpha = 0 then buffer
  else
    let pixelCorners := CheeseGraphic.pixelCorners g pixelWidth pixelHeight x y
    let worldCorners := CheeseGraphic.worldCorners centerX centerY pixelCorners
    let color : RGB := ⟨qRed pixel, qGreen pixel, qBlue pixel⟩
    let buffer := buffer ++ [CheeseGraphic.createTriangle (cornerAt worldCorners 0)
      (cornerAt worldCorners 1) (cornerAt worldCorners 2) color alpha]
    buffer ++ [CheeseGraphic.createTriangle (cornerAt worldCorners 0)
      (cornerAt worldCorners 2) (cornerAt worldCorners 3) color alpha]

/-- `CheeseGraphic::drawAllPixels`. -/
def CheeseGraphic.drawAllPixels (g : CheeseGraphic K) (buffer : List (TriangleGraphic K))
    (centerX centerY pixelWidth pixelHeight : K) : List (TriangleGraphic K) :=
  (List.range g.m_imageHeight).foldl
    (fun buffer y =>
      (List.range g.m_imageWidth).foldl
        (CheeseGraphic.drawPixel g centerX centerY pixelWidth pixelHeight y) buffer)
    buffer

/-- `CheeseGraphic::draw`. -/
def CheeseGraphic.draw (g : CheeseGraphic K) : List (TriangleGraphic K) :=
  let buffer : List (TriangleGraphic K) := []
  if !g.m_imageLoaded then
    let size := (0.05 : K) * g.m_scale
    let topLeft : Coordinate K := ⟨g.m_position.x - size / 2, g.m_position.y - size / 2⟩
    let topRight : Coordinate K := ⟨g.m_position.x + size / 2, g.m_position.y - size / 2⟩
    let bottomRight : Coordinate K := ⟨g.m_position.x + size / 2, g.m_position.y + size / 2⟩
    let bottomLeft : Coordinate K := ⟨g.m_position.x - size / 2, g.m_position.y + size / 2⟩
    let yellow : RGB := ⟨255, 255, 0⟩
    let buffer := buffer ++ [CheeseGraphic.createTriangle topLeft topRight bottomRight yellow 255]
    buffer ++ [CheeseGraphic.createTriangle topLeft bottomRight bottomLeft yellow 255]
  else
    let centerX := g.m_position.x
    let centerY := g.m_position.y
    let METERS_PER_PIXEL := (0.005 : K) * g.m_scale
    let pixelWidth := METERS_PER_PIXEL
    let pixelHeight := METERS_PER_PIXEL
    CheeseGraphic.drawAllPixels g buffer centerX centerY pixelWidth pixelHeight

/-! ## Per-pixel mode, rotated (`MouseGraphic::drawAllPixels`) -/

/-- The local quad of pixel `(x, y)`: top-left, top-right, bottom-right, bottom-left. -/
def MouseGraphic.pixelCorners (g : MouseGraphic K) (pixelWidth pixelHeight : K)
    (x y : Nat) : List (QPointF K) :=
  let localX := ((x : K) - (g.m_imageWidth : K) / 2) * pixelWidth
  let localY := ((y : K) - (g.m_imageHeight : K) / 2) * pixelHeight
  [⟨localX, localY⟩,
   ⟨localX + pixelWidth, localY⟩,
   ⟨localX + pixelWidth, localY + pixelHeight⟩,
   ⟨localX, localY + pixelHeight⟩]

/-- Rotation and translation of the corners (the loop over the local corners, shared by
`drawAllPixels` and `drawOptimized`). -/
def MouseGraphic.worldCorners (cos sin : K → K) (rotationRad centerX centerY : K)
    (corners : List (QPointF K)) : List (Coordinate K) :=
  corners.map fun corner =>
    let x_rot := corner.x * cos rotationRad - corner.y * sin rotationRad
    let y_rot := corner.x * sin rotationRad + corner.y * cos rotationRad
    ⟨x_rot + centerX, y_rot + centerY⟩

/-- Body of the two nested loops of `MouseGraphic::drawAllPixels` at pixel `(x, y)`. -/
def MouseGraphic.drawPixel (cos sin : K → K) (g : MouseGraphic K)
    (centerX centerY pixelWidth pixelHeight rotationRad : K)
    (y : Nat) (buffer : List (TriangleGraphic K)) (x : Nat) : List (TriangleGraphic K) :=
  let pixel := g.m_image.pixel x y
  let alpha := qAlpha pixel
  if alpha = 0 then buffer
  else
    let pixelCorners := MouseGraphic.pixelCorners g pixelWidth pixelHeight x y
    let worldCorners := MouseGraphic.worldCorners cos sin rotationRad centerX centerY pixelCorners
    let color : RGB := ⟨qRed pixel, qGreen pixel, qBlue pixel⟩
    let buffer := buffer ++ [MouseGraphic.createTriangle (cornerAt worldCorners 0)
      (cornerAt worldCorners 1) (cornerAt worldCorners 2) color alpha]
    buffer ++ [MouseGraphic.createTriangle (cornerAt worldCorners 0)
      (cornerAt worldCorners 2) (cornerAt worldCorners 3) color alpha]

/-- `MouseGraphic::drawAllPixels`. -/
def MouseGraphic.drawAllPixels (cos sin : K → K) (g : MouseGraphic K)
    (buffer : List (TriangleGraphic K))
    (centerX centerY pixelWidth pixelHeight rotationRad : K) : List (TriangleGraphic K) :=
  (List.range g.m_imageHeight).foldl
    (fun buffer y =>
      (List.range g.m_imageWidth).foldl
        (MouseGraphic.drawPixel cos sin g centerX centerY pixelWidth pixelHeight rotationRad y)
        buffer)
    buffer

/-! ## Block-averaging mode (`MouseGraphic::drawOptimized`) -/

/-- Side of a block, in pixels. -/
def BLOCK_SIZE : Nat := 4

/-- The loop `for (int b = ...; b < bound; b += BLOCK_SIZE)`, entered with counter `b` and
state `s`. -/
def forBlocks {σ : Type} (bound : Nat) (body : σ → Nat → σ) (b : Nat) (s : σ) : σ :=
  if b < bound then forBlocks bound body (b + BLOCK_SIZE) (body s b) else s
termination_by bound - b
decreasing_by
  simp only [BLOCK_SIZE]
  omega

/-- The accumulators of one block. -/
structure BlockSums where
  hasVisiblePixels : Bool
  avgR : Int
  avgG : Int
  avgB : Int
  avgA : Int
  pixelCount : Int
deriving DecidableEq

/-- The accumulators at the start of a block. -/
def BlockSums.init : BlockSums :=
  { hasVisiblePixels := false, avgR := 0, avgG := 0, avgB := 0, avgA := 0, pixelCount := 0 }

/-- Body of the two inner loops of `drawOptimized` at pixel `(x, y)`. -/
def MouseGraphic.addPixel (g : MouseGraphic K) (y : Nat) (acc : BlockSums) (x : Nat) :
    BlockSums :=
  let pixel := g.m_image.pixel x y
  let alpha := qAlpha pixel
  if alpha > 0 then
    { hasVisiblePixels := true,
      avgR := acc.avgR + qRed pixel,
      avgG := acc.avgG + qGreen pixel,
      avgB := acc.avgB + qBlue pixel,
      avgA := acc.avgA + alpha,
      pixelCount := acc.pixelCount + 1 }
  else acc

/-- The two inner loops of `drawOptimized`: `y` from `blockY` below
`min (blockY + BLOCK_SIZE) height`, `x` from `blockX` below `min (blockX + BLOCK_SIZE) width`. -/
def MouseGraphic.blockSums (g : MouseGraphic K) (blockX blockY : Nat) : BlockSums :=
  (List.range' blockY (min (blockY + BLOCK_SIZE) g.m_imageHeight - blockY)).foldl
    (fun acc y =>
      (List.range' blockX (min (blockX + BLOCK_SIZE) g.m_imageWidth - blockX)).foldl
        (MouseGraphic.addPixel g y) acc)
    BlockSums.init

/-- The local quad of the block at `(blockX, blockY)`, clipped to the image. -/
def MouseGraphic.blockCorners (g : MouseGraphic K) (pixelWidth pixelHeight : K)
    (blockX blockY : Nat) : List (QPointF K) :=
  let localX := ((blockX : K) - (g.m_imageWidth : K) / 2) * pixelWidth
  let localY := ((blockY : K) - (g.m_imageHeight : K) / 2) * pixelHeight
  let blockWidth :=
    ((min (BLOCK_SIZE : Int) ((g.m_imageWidth : Int) - (blockX : Int)) : Int) : K) * pixelWidth
  let blockHeight :=
    ((min (BLOCK_SIZE : Int) ((g.m_imageHeight : Int) - (blockY : Int)) : Int) : K) * pixelHeight
  [⟨localX, localY⟩,
   ⟨localX + blockWidth, localY⟩,
   ⟨localX + blockWidth, localY + blockHeight⟩,
   ⟨localX, localY + blockHeight⟩]

/-- Body of the two outer loops of `drawOptimized` at block `(blockX, blockY)`. -/
def MouseGraphic.drawBlock (cos sin : K → K) (g : MouseGraphic K)
    (centerX centerY pixelWidth pixelHeight rotationRad : K)
    (blockY : Nat) (buffer : List (TriangleGraphic K)) (blockX : Nat) :
    List (TriangleGraphic K) :=
  let acc := MouseGraphic.blockSums g blockX blockY
  if !acc.hasVisiblePixels || acc.pixelCount == 0 then buffer
  else
    let avgR := Int.tdiv acc.avgR acc.pixelCount
    let avgG := Int.tdiv acc.avgG acc.pixelCount
    let avgB := Int.tdiv acc.avgB acc.pixelCount
    let avgA := Int.tdiv acc.avgA acc.pixelCount
    let blockCorners := MouseGraphic.blockCorners g pixelWidth pixelHeight blockX blockY
    let worldCorners := MouseGraphic.worldCorners cos sin rotationRad centerX centerY blockCorners
    let color : RGB := ⟨avgR, avgG, avgB⟩
    let buffer := buffer ++ [MouseGraphic.createTriangle (cornerAt worldCorners 0)
      (cornerAt worldCorners 1) (cornerAt worldCorners 2) color avgA]
    buffer ++ [MouseGraphic.createTriangle (cornerAt worldCorners 0)
      (cornerAt worldCorners 2) (cornerAt worldCorners 3) color avgA]

/-- `MouseGraphic::drawOptimized`. -/
def MouseGraphic.drawOptimized (cos sin : K → K) (g : MouseGraphic K)
    (buffer : List (TriangleGraphic K))
    (centerX centerY pixelWidth pixelHeight rotationRad : K) : List (TriangleGraphic K) :=
  forBlocks g.m_imageHeight
    (fun buffer blockY =>
      forBlocks g.m_imageWidth
        (MouseGraphic.drawBlock cos sin g centerX centerY pixelWidth pixelHeight rotationRad
          blockY)
        0 buffer)
    0 buffer

/-! ## The mouse draw entry point (`MouseGraphic::draw`) -/

/-- `qDegreesToRadians`. -/
def qDegreesToRadians (pi : K) (degrees : K) : K := degrees * (pi / 180)

/-- The `switch` of `MouseGraphic::draw`: the rotation, in degrees, of a heading. -/
def MouseGraphic.rotationDeg (dir : SemiDirection) : K :=
  match dir with
  | SemiDirection.EAST => 0
  | SemiDirection.NORTHEAST => 45
  | SemiDirection.NORTH => 90
  | SemiDirection.NORTHWEST => 135
  | SemiDirection.WEST => 180
  | SemiDirection.SOUTHWEST => 225
  | SemiDirection.SOUTH => 270
  | SemiDirection.SOUTHEAST => 315

/-- `MouseGraphic::draw`.  `polygonToTriangleGraphics` is `SimUtilities::polygonToTriangleGraphics`,
whose code is not part of these files. -/
def MouseGraphic.draw (cos sin : K → K) (pi : K)
    (polygonToTriangleGraphics : Polygon K → Color → Int → List (TriangleGraphic K))
    (g : MouseGraphic K) : List (TriangleGraphic K) :=
  let buffer : List (TriangleGraphic K) := []
  if !g.m_imageLoaded then
    buffer ++ polygonToTriangleGraphics g.m_mouse.getCurrentBodyPolygon Color.GRAY 255
  else
    let bodyPoly := g.m_mouse.getCurrentBodyPolygon
    let bodyVerts := bodyPoly.getVertices
    if bodyVerts.isEmpty then buffer
    else
      let sums := bodyVerts.foldl (fun (c : K × K) v => (c.1 + v.x, c.2 + v.y)) ((0 : K), (0 : K))
      let centerX := sums.1 / (bodyVerts.length : K)
      let centerY := sums.2 / (bodyVerts.length : K)
      let dir := g.m_mouse.getCurrentDiscretizedRotation
      let rotationDeg : K := MouseGraphic.rotationDeg dir
      let rad := qDegreesToRadians pi rotationDeg
      let METERS_PER_PIXEL : K := 0.008
      let pixelWidth := METERS_PER_PIXEL
      let pixelHeight := METERS_PER_PIXEL
      MouseGraphic.drawAllPixels cos sin g buffer centerX centerY pixelWidth pixelHeight rad

end Code

/-! ## The same routines with the faults made explicit

The routines above use a total pixel lookup and a total division.  Here the lookup outside
the image and the division by zero are faults, and every routine returns either a fault or
its result. -/

/-- The two faults a rasterizer could run into. -/
inductive Fault where
  | pixelOutOfRange
  | divisionByZero
deriving DecidableEq

/-- The lookup `QImage::pixel(x, y)`, with a coordinate outside the image as a fault. -/
def QImage.pixelChecked (img : QImage) (x y : Nat) : Except Fault QRgb :=
  if x < img.width ∧ y < img.height then Except.ok (img.bits x y)
  else Except.error Fault.pixelOutOfRange

/-- The integer division `a /= n`, with a zero divisor as a fault. -/
def divChecked (a n : Int) : Except Fault Int :=
  if n = 0 then Except.error Fault.divisionByZero else Except.ok (Int.tdiv a n)

/-- A loop over the list `l` whose body may fault; a fault ends the loop. -/
def foldChecked {σ α : Type} (body : σ → α → Except Fault σ) : List α → σ → Except Fault σ
  | [], s => Except.ok s
  | a :: l, s =>
    match body s a with
    | Except.ok s' => foldChecked body l s'
    | Except.error e => Except.error e

/-- The loop `for (int b = ...; b < bound; b += BLOCK_SIZE)` whose body may fault. -/
def forBlocksChecked {σ : Type} (bound : Nat) (body : σ → Nat → Except Fault σ) (b : Nat)
    (s : σ) : Except Fault σ :=
  if b < bound then
    match body s b with
    | Except.ok s' => forBlocksChecked bound body (b + BLOCK_SIZE) s'
    | Except.error e => Except.error e
  else Except.ok s
termination_by bound - b
decreasing_by
  simp only [BLOCK_SIZE]
  omega

section CheckedCode

variable {K : Type} [Field K]

/-- The division of a real sum by a vertex count, with a zero count as a fault. -/
def divByCountChecked (a : K) (n : Nat) : Except Fault K :=
  if n = 0 then Except.error Fault.divisionByZero else Except.ok (a / (n : K))

/-- Body of the loops of `CheeseGraphic::drawAllPixels` at pixel `(x, y)`, with faults. -/
def CheeseGraphic.drawPixelChecked (g : CheeseGraphic K)
    (centerX centerY pixelWidth pixelHeight : K)
    (y : Nat) (buffer : List (TriangleGraphic K)) (x : Nat) :
    Except Fault (List (TriangleGraphic K)) :=
  match g.m_image.pixelChecked x y with
  | Except.error e => Except.error e
  | Except.ok pixel =>
    let alpha := qAlpha pixel
    if alpha = 0 then Except.ok buffer
    else
      let pixelCorners := CheeseGraphic.pixelCorners g pixelWidth pixelHeight x y
      let worldCorners := CheeseGraphic.worldCorners centerX centerY pixelCorners
      let color : RGB := ⟨qRed pixel, qGreen pixel, qBlue pixel⟩
      let buffer := buffer ++ [CheeseGraphic.createTriangle (cornerAt worldCorners 0)
        (cornerAt worldCorners 1) (cornerAt worldCorners 2) color alpha]
      Except.ok (buffer ++ [CheeseGraphic.createTriangle (cornerAt worldCorners 0)
        (cornerAt worldCorners 2) (cornerAt worldCorners 3) color alpha])

/-- `CheeseGraphic::drawAllPixels`, with faults. -/
def CheeseGraphic.drawAllPixelsChecked (g : CheeseGraphic K)
    (buffer : List (TriangleGraphic K)) (centerX centerY pixelWidth pixelHeight : K) :
    Except Fault (List (TriangleGraphic K)) :=
  foldChecked
    (fun buffer y =>
      foldChecked (CheeseGraphic.drawPixelChecked g centerX centerY pixelWidth pixelHeight y)
        (List.range g.m_imageWidth) buffer)
    (List.range g.m_imageHeight) buffer

/-- Body of the loops of `MouseGraphic::drawAllPixels` at pixel `(x, y)`, with faults. -/
def MouseGraphic.drawPixelChecked (cos sin : K → K) (g : MouseGraphic K)
    (centerX centerY pixelWidth pixelHeight rotationRad : K)
    (y : Nat) (buffer : List (TriangleGraphic K)) (x : Nat) :
    Except Fault (List (TriangleGraphic K)) :=
  match g.m_image.pixelChecked x y with
  | Except.error e => Except.error e
  | Except.ok pixel =>
    let alpha := qAlpha pixel
    if alpha = 0 then Except.ok buffer
    else
      let pixelCorners := MouseGraphic.pixelCorners g pixelWidth pixelHeight x y
      let worldCorners :=
        MouseGraphic.worldCorners cos sin rotationRad centerX centerY pixelCorners
      let color : RGB := ⟨qRed pixel, qGreen pixel, qBlue pixel⟩
      let buffer := buffer ++ [MouseGraphic.createTriangle (cornerAt worldCorners 0)
        (cornerAt worldCorners 1) (cornerAt worldCorners 2) color alpha]
      Except.ok (buffer ++ [MouseGraphic.createTriangle (cornerAt worldCorners 0)
        (cornerAt worldCorners 2) (cornerAt worldCorners 3) color alpha])

/-- `MouseGraphic::drawAllPixels`, with faults. -/
def MouseGraphic.drawAllPixelsChecked (cos sin : K → K) (g : MouseGraphic K)
    (buffer : List (TriangleGraphic K))
    (centerX centerY pixelWidth pixelHeight rotationRad : K) :
    Except Fault (List (TriangleGraphic K)) :=
  foldChecked
    (fun buffer y =>
      foldChecked
        (MouseGraphic.drawPixelChecked cos sin g centerX centerY pixelWidth pixelHeight
          rotationRad y)
        (List.range g.m_imageWidth) buffer)
    (List.range g.m_imageHeight) buffer

/-- Body of the two inner loops of `drawOptimized` at pixel `(x, y)`, with faults. -/
def MouseGraphic.addPixelChecked (g : MouseGraphic K) (y : Nat) (acc : BlockSums) (x : Nat) :
    Except Fault BlockSums :=
  match g.m_image.pixelChecked x y with
  | Except.error e => Except.error e
  | Except.ok pixel =>
    let alpha := qAlpha pixel
    if alpha > 0 then
      Except.ok
        { hasVisiblePixels := true,
          avgR := acc.avgR + qRed pixel,
          avgG := acc.avgG + qGreen pixel,
          avgB := acc.avgB + qBlue pixel,
          avgA := acc.avgA + alpha,
          pixelCount := acc.pixelCount + 1 }
    else Except.ok acc

/-- The two inner loops of `drawOptimized`, with faults. -/
def MouseGraphic.blockSumsChecked (g : MouseGraphic K) (blockX blockY : Nat) :
    Except Fault BlockSums :=
  foldChecked
    (fun acc y =>
      foldChecked (MouseGraphic.addPixelChecked g y)
        (List.range' blockX (min (blockX + BLOCK_SIZE) g.m_imageWidth - blockX)) acc)
    (List.range' blockY (min (blockY + BLOCK_SIZE) g.m_imageHeight - blockY))
    BlockSums.init

/-- Body of the two outer loops of `drawOptimized` at block `(blockX, blockY)`, with
faults. -/
def MouseGraphic.drawBlockChecked (cos sin : K → K) (g : MouseGraphic K)
    (centerX centerY pixelWidth pixelHeight rotationRad : K)
    (blockY : Nat) (buffer : List (TriangleGraphic K)) (blockX : Nat) :
    Except Fault (List (TriangleGraphic K)) :=
  match MouseGraphic.blockSumsChecked g blockX blockY with
  | Except.error e => Except.error e
  | Except.ok acc =>
    if !acc.hasVisiblePixels || acc.pixelCount == 0 then Except.ok buffer
    else
      match divChecked acc.avgR acc.pixelCount, divChecked acc.avgG acc.pixelCount,
        divChecked acc.avgB acc.pixelCount, divChecked acc.avgA acc.pixelCount with
      | Except.ok avgR, Except.ok avgG, Except.ok avgB, Except.ok avgA =>
        let blockCorners := MouseGraphic.blockCorners g pixelWidth pixelHeight blockX blockY
        let worldCorners :=
          MouseGraphic.worldCorners cos sin rotationRad centerX centerY blockCorners
        let color : RGB := ⟨avgR, avgG, avgB⟩
        let buffer := buffer ++ [MouseGraphic.createTriangle (cornerAt worldCorners 0)
          (cornerAt worldCorners 1) (cornerAt worldCorners 2) color avgA]
        Except.ok (buffer ++ [MouseGraphic.createTriangle (cornerAt worldCorners 0)
          (cornerAt worldCorners 2) (cornerAt worldCorners 3) color avgA])
      | _, _, _, _ => Except.error Fault.divisionByZero

/-- `MouseGraphic::drawOptimized`, with faults. -/
def MouseGraphic.drawOptimizedChecked (cos sin : K → K) (g : MouseGraphic K)
    (buffer : List (TriangleGraphic K))
    (centerX centerY pixelWidth pixelHeight rotationRad : K) :
    Except Fault (List (TriangleGraphic K)) :=
  forBlocksChecked g.m_imageHeight
    (fun buffer blockY =>
      forBlocksChecked g.m_imageWidth
        (MouseGraphic.drawBlockChecked cos sin g centerX centerY pixelWidth pixelHeight
          rotationRad blockY)
        0 buffer)
    0 buffer

/-- `MouseGraphic::draw`, with faults. -/
def MouseGraphic.drawChecked (cos sin : K → K) (pi : K)
    (polygonToTriangleGraphics : Polygon K → Color → Int → List (TriangleGraphic K))
    (g : MouseGraphic K) : Except Fault (List (TriangleGraphic K)) :=
  let buffer : List (TriangleGraphic K) := []
  if !g.m_imageLoaded then
    Except.ok (buffer ++ polygonToTriangleGraphics g.m_mouse.getCurrentBodyPolygon Color.GRAY 255)
  else
    let bodyPoly := g.m_mouse.getCurrentBodyPolygon
    let bodyVerts := bodyPoly.getVertices
    if bodyVerts.isEmpty then Except.ok buffer
    else
      let sums := bodyVerts.foldl (fun (c : K × K) v => (c.1 + v.x, c.2 + v.y)) ((0 : K), (0 : K))
      match divByCountChecked sums.1 bodyVerts.length,
        divByCountChecked sums.2 bodyVerts.length with
      | Except.ok centerX, Except.ok centerY =>
        let dir := g.m_mouse.getCurrentDiscretizedRotation
        let rotationDeg : K := MouseGraphic.rotationDeg dir
        let rad := qDegreesToRadians pi rotationDeg
        let METERS_PER_PIXEL : K := 0.008
        let pixelWidth := METERS_PER_PIXEL
        let pixelHeight := METERS_PER_PIXEL
        MouseGraphic.drawAllPixelsChecked cos sin g buffer centerX centerY pixelWidth
          pixelHeight rad
      | _, _ => Except.error Fault.divisionByZero

end CheckedCode

/-! ## The same routines with the rounding made explicit

The routines above compute in an exact field.  The program computes in IEEE 754 double
precision and narrows each vertex coordinate to single precision.  Here every `double`
operation is followed by `toDouble` and every `static_cast<float>` is `toFloat`; with both
the identity these are the routines above, and with `roundDouble` and `roundFloat` they are
the program's arithmetic on finite values (overflow apart, each operation rounded on its
own, no fused multiply-add).  The conversion of an `int` to `double` is exact for the
image sizes and counters at hand and is not rounded. -/

/-- The number `⌊log₂ n⌋` for `n ≥ 1` (and `0` for `n = 0`), by halving at most `fuel`
times. -/
def floorLog2 : Nat → Nat → Nat
  | 0, _ => 0
  | fuel + 1, n => if n < 2 then 0 else floorLog2 fuel (n / 2) + 1

/-- The power `2 ^ k` for an integer `k`, as a rational. -/
def twoPow (k : Int) : ℚ :=
  if 0 ≤ k then ((2 ^ k.toNat : Nat) : ℚ) else 1 / ((2 ^ (-k).toNat : Nat) : ℚ)

/-- Rounding of a rational to the nearest binary floating-point number with `p` significand
bits and least exponent `emin`, ties to the even significand. -/
def roundNearestEven (p : Nat) (emin : Int) (x : ℚ) : ℚ :=
  if x = 0 then 0
  else
    let a : ℚ := if x < 0 then -x else x
    let e0 : Int :=
      (floorLog2 a.num.natAbs a.num.natAbs : Int) - (floorLog2 a.den a.den : Int)
    let e : Int := if a < twoPow e0 then e0 - 1 else e0
    let q : Int := max e emin - ((p : Int) - 1)
    let m : ℚ := a / twoPow q
    let f : Int := m.num / (m.den : Int)
    let r : ℚ := m - (f : ℚ)
    let n : Int :=
      if r < 1 / 2 then f
      else if 1 / 2 < r then f + 1
      else if f % 2 = 0 then f else f + 1
    let y : ℚ := (n : ℚ) * twoPow q
    if x < 0 then -y else y

/-- Rounding to IEEE 754 double precision (`binary64`: 53 significand bits, least exponent
`-1022`). -/
def roundDouble (x : ℚ) : ℚ := roundNearestEven 53 (-1022) x

/-- Rounding to IEEE 754 single precision (`binary32`: 24 significand bits, least exponent
`-126`), the value of `static_cast<float>`. -/
def roundFloat (x : ℚ) : ℚ := roundNearestEven 24 (-126) x

section RoundedCode

variable {K : Type} [Field K]

/-- `CheeseGraphic::createTriangle`, with the narrowing of the coordinates. -/
def CheeseGraphic.createTriangleRounded (toFloat : K → K) (v1 v2 v3 : Coordinate K)
    (color : RGB) (alpha : Int) : TriangleGraphic K :=
  let makeVertex := fun (c : Coordinate K) =>
    ({ x := toFloat c.x, y := toFloat c.y, rgb := color, a := alpha } : VertexGraphic K)
  { p1 := makeVertex v1, p2 := makeVertex v2, p3 := makeVertex v3 }

/-- `MouseGraphic::createTriangle`, with the narrowing of the coordinates. -/
def MouseGraphic.createTriangleRounded (toFloat : K → K) (v1 v2 v3 : Coordinate K)
    (color : RGB) (alpha : Int) : TriangleGraphic K :=
  let makeVertex := fun (c : Coordinate K) =>
    ({ x := toFloat c.x, y := toFloat c.y, rgb := color, a := alpha } : VertexGraphic K)
  { p1 := makeVertex v1, p2 := makeVertex v2, p3 := makeVertex v3 }

/-- The local quad of pixel `(x, y)` in `CheeseGraphic::drawAllPixels`, with rounding. -/
def CheeseGraphic.pixelCornersRounded (toDouble : K → K) (g : CheeseGraphic K)
    (pixelWidth pixelHeight : K) (x y : Nat) : List (QPointF K) :=
  let localX := toDouble (toDouble ((x : K) - toDouble ((g.m_imageWidth : K) / 2)) * pixelWidth)
  let localY :=
    toDouble (toDouble ((y : K) - toDouble ((g.m_imageHeight : K) / 2)) * pixelHeight)
  [⟨localX, localY⟩,
   ⟨toDouble (localX + pixelWidth), localY⟩,
   ⟨toDouble (localX + pixelWidth), toDouble (localY + pixelHeight)⟩,
   ⟨localX, toDouble (localY + pixelHeight)⟩]

/-- Translation of the corners to world position in `CheeseGraphic::drawAllPixels`, with
rounding. -/
def CheeseGraphic.worldCornersRounded (toDouble : K → K) (centerX centerY : K)
    (pixelCorners : List (QPointF K)) : List (Coordinate K) :=
  pixelCorners.map fun corner =>
    ⟨toDouble (corner.x + centerX), toDouble (corner.y + centerY)⟩

/-- Body of the loops of `CheeseGraphic::drawAllPixels` at pixel `(x, y)`, with rounding. -/
def CheeseGraphic.drawPixelRounded (toDouble toFloat : K → K) (g : CheeseGraphic K)
    (centerX centerY pixelWidth pixelHeight : K)
    (y : Nat) (buffer : List (TriangleGraphic K)) (x : Nat) : List (TriangleGraphic K) :=
  let pixel := g.m_image.pixel x y
  let alpha := qAlpha pixel
  if alpha = 0 then buffer
  else
    let pixelCorners := CheeseGraphic.pixelCornersRounded toDouble g pixelWidth pixelHeight x y
    let worldCorners := CheeseGraphic.worldCornersRounded toDouble centerX centerY pixelCorners
    let color : RGB := ⟨qRed pixel, qGreen pixel, qBlue pixel⟩
    let buffer := buffer ++ [CheeseGraphic.createTriangleRounded toFloat (cornerAt worldCorners 0)
      (cornerAt worldCorners 1) (cornerAt worldCorners 2) color alpha]
    buffer ++ [CheeseGraphic.createTriangleRounded toFloat (cornerAt worldCorners 0)
      (cornerAt worldCorners 2) (cornerAt worldCorners 3) color alpha]

/-- `CheeseGraphic::drawAllPixels`, with rounding. -/
def CheeseGraphic.drawAllPixelsRounded (toDouble toFloat : K → K) (g : CheeseGraphic K)
    (buffer : List (TriangleGraphic K)) (centerX centerY pixelWidth pixelHeight : K) :
    List (TriangleGraphic K) :=
  (List.range g.m_imageHeight).foldl
    (fun buffer y =>
      (List.range g.m_imageWidth).foldl
        (CheeseGraphic.drawPixelRounded toDouble toFloat g centerX centerY pixelWidth
          pixelHeight y)
        buffer)
    buffer

/-- `CheeseGraphic::draw`, with rounding. -/
def CheeseGraphic.drawRounded (toDouble toFloat : K → K) (g : CheeseGraphic K) :
    List (TriangleGraphic K) :=
  let buffer : List (TriangleGraphic K) := []
  if !g.m_imageLoaded then
    let size := toDouble (toDouble 0.05 * g.m_scale)
    let topLeft : Coordinate K :=
      ⟨toDouble (g.m_position.x - toDouble (size / 2)),
       toDouble (g.m_position.y - toDouble (size / 2))⟩
    let topRight : Coordinate K :=
      ⟨toDouble (g.m_position.x + toDouble (size / 2)),
       toDouble (g.m_position.y - toDouble (size / 2))⟩
    let bottomRight : Coordinate K :=
      ⟨toDouble (g.m_position.x + toDouble (size / 2)),
       toDouble (g.m_position.y + toDouble (size / 2))⟩
    let bottomLeft : Coordinate K :=
      ⟨toDouble (g.m_position.x - toDouble (size / 2)),
       toDouble (g.m_position.y + toDouble (size / 2))⟩
    let yellow : RGB := ⟨255, 255, 0⟩
    let buffer := buffer ++
      [CheeseGraphic.createTriangleRounded toFloat topLeft topRight bottomRight yellow 255]
    buffer ++
      [CheeseGraphic.createTriangleRounded toFloat topLeft bottomRight bottomLeft yellow 255]
  else
    let centerX := g.m_position.x
    let centerY := g.m_position.y
    let METERS_PER_PIXEL := toDouble (toDouble 0.005 * g.m_scale)
    let pixelWidth := METERS_PER_PIXEL
    let pixelHeight := METERS_PER_PIXEL
    CheeseGraphic.drawAllPixelsRounded toDouble toFloat g buffer centerX centerY pixelWidth
      pixelHeight

/-- The local quad of pixel `(x, y)` in `MouseGraphic::drawAllPixels`, with rounding. -/
def MouseGraphic.pixelCornersRounded (toDouble : K → K) (g : MouseGraphic K)
    (pixelWidth pixelHeight : K) (x y : Nat) : List (QPointF K) :=
  let localX := toDouble (toDouble ((x : K) - toDouble ((g.m_imageWidth : K) / 2)) * pixelWidth)
  let localY :=
    toDouble (toDouble ((y : K) - toDouble ((g.m_imageHeight : K) / 2)) * pixelHeight)
  [⟨localX, localY⟩,
   ⟨toDouble (localX + pixelWidth), localY⟩,
   ⟨toDouble (localX + pixelWidth), toDouble (localY + pixelHeight)⟩,
   ⟨localX, toDouble (localY + pixelHeight)⟩]

/-- Rotation and translation of the corners in `MouseGraphic`, with rounding. -/
def MouseGraphic.worldCornersRounded (toDouble : K → K) (cos sin : K → K)
    (rotationRad centerX centerY : K) (corners : List (QPointF K)) : List (Coordinate K) :=
  corners.map fun corner =>
    let x_rot :=
      toDouble (toDouble (corner.x * cos rotationRad) - toDouble (corner.y * sin rotationRad))
    let y_rot :=
      toDouble (toDouble (corner.x * sin rotationRad) + toDouble (corner.y * cos rotationRad))
    ⟨toDouble (x_rot + centerX), toDouble (y_rot + centerY)⟩

/-- Body of the loops of `MouseGraphic::drawAllPixels` at pixel `(x, y)`, with rounding. -/
def MouseGraphic.drawPixelRounded (toDouble toFloat : K → K) (cos sin : K → K)
    (g : MouseGraphic K) (centerX centerY pixelWidth pixelHeight rotationRad : K)
    (y : Nat) (buffer : List (TriangleGraphic K)) (x : Nat) : List (TriangleGraphic K) :=
  let pixel := g.m_image.pixel x y
  let alpha := qAlpha pixel
  if alpha = 0 then buffer
  else
    let pixelCorners := MouseGraphic.pixelCornersRounded toDouble g pixelWidth pixelHeight x y
    let worldCorners := MouseGraphic.worldCornersRounded toDouble cos sin rotationRad centerX
      centerY pixelCorners
    let color : RGB := ⟨qRed pixel, qGreen pixel, qBlue pixel⟩
    let buffer := buffer ++ [MouseGraphic.createTriangleRounded toFloat (cornerAt worldCorners 0)
      (cornerAt worldCorners 1) (cornerAt worldCorners 2) color alpha]
    buffer ++ [MouseGraphic.createTriangleRounded toFloat (cornerAt worldCorners 0)
      (cornerAt worldCorners 2) (cornerAt worldCorners 3) color alpha]

/-- `MouseGraphic::drawAllPixels`, with rounding. -/
def MouseGraphic.drawAllPixelsRounded (toDouble toFloat : K → K) (cos sin : K → K)
    (g : MouseGraphic K) (buffer : List (TriangleGraphic K))
    (centerX centerY pixelWidth pixelHeight rotationRad : K) : List (TriangleGraphic K) :=
  (List.range g.m_imageHeight).foldl
    (fun buffer y =>
      (List.range g.m_imageWidth).foldl
        (MouseGraphic.drawPixelRounded toDouble toFloat cos sin g centerX centerY pixelWidth
          pixelHeight rotationRad y)
        buffer)
    buffer

/-- The local quad of the block at `(blockX, blockY)` in `MouseGraphic::drawOptimized`, with
rounding. -/
def MouseGraphic.blockCornersRounded (toDouble : K → K) (g : MouseGraphic K)
    (pixelWidth pixelHeight : K) (blockX blockY : Nat) : List (QPointF K) :=
  let localX :=
    toDouble (toDouble ((blockX : K) - toDouble ((g.m_imageWidth : K) / 2)) * pixelWidth)
  let localY :=
    toDouble (toDouble ((blockY : K) - toDouble ((g.m_imageHeight : K) / 2)) * pixelHeight)
  let blockWidth := toDouble
    (((min (BLOCK_SIZE : Int) ((g.m_imageWidth : Int) - (blockX : Int)) : Int) : K) * pixelWidth)
  let blockHeight := toDouble
    (((min (BLOCK_SIZE : Int) ((g.m_imageHeight : Int) - (blockY : Int)) : Int) : K)
      * pixelHeight)
  [⟨localX, localY⟩,
   ⟨toDouble (localX + blockWidth), localY⟩,
   ⟨toDouble (localX + blockWidth), toDouble (localY + blockHeight)⟩,
   ⟨localX, toDouble (localY + blockHeight)⟩]

/-- Body of the two outer loops of `drawOptimized` at block `(blockX, blockY)`, with
rounding. -/
def MouseGraphic.drawBlockRounded (toDouble toFloat : K → K) (cos sin : K → K)
    (g : MouseGraphic K) (centerX centerY pixelWidth pixelHeight rotationRad : K)
    (blockY : Nat) (buffer : List (TriangleGraphic K)) (blockX : Nat) :
    List (TriangleGraphic K) :=
  let acc := MouseGraphic.blockSums g blockX blockY
  if !acc.hasVisiblePixels || acc.pixelCount == 0 then buffer
  else
    let avgR := Int.tdiv acc.avgR acc.pixelCount
    let avgG := Int.tdiv acc.avgG acc.pixelCount
    let avgB := Int.tdiv acc.avgB acc.pixelCount
    let avgA := Int.tdiv acc.avgA acc.pixelCount
    let blockCorners :=
      MouseGraphic.blockCornersRounded toDouble g pixelWidth pixelHeight blockX blockY
    let worldCorners := MouseGraphic.worldCornersRounded toDouble cos sin rotationRad centerX
      centerY blockCorners
    let color : RGB := ⟨avgR, avgG, avgB⟩
    let buffer := buffer ++ [MouseGraphic.createTriangleRounded toFloat (cornerAt worldCorners 0)
      (cornerAt worldCorners 1) (cornerAt worldCorners 2) color avgA]
    buffer ++ [MouseGraphic.createTriangleRounded toFloat (cornerAt worldCorners 0)
      (cornerAt worldCorners 2) (cornerAt worldCorners 3) color avgA]

/-- `MouseGraphic::drawOptimized`, with rounding. -/
def MouseGraphic.drawOptimizedRounded (toDouble toFloat : K → K) (cos sin : K → K)
    (g : MouseGraphic K) (buffer : List (TriangleGraphic K))
    (centerX centerY pixelWidth pixelHeight rotationRad : K) : List (TriangleGraphic K) :=
  forBlocks g.m_imageHeight
    (fun buffer blockY =>
      forBlocks g.m_imageWidth
        (MouseGraphic.drawBlockRounded toDouble toFloat cos sin g centerX centerY pixelWidth
          pixelHeight rotationRad blockY)
        0 buffer)
    0 buffer

end RoundedCode

/-! ## Specification-side notions -/

/-- The pixels of the `W × H` grid whose alpha is not `0` (the visible pixels). -/
def visiblePixels (img : QImage) (W H : Nat) : Finset (Nat × Nat) :=
  (Finset.range W ×ˢ Finset.range H).filter fun p => qAlpha (img.pixel p.1 p.2) ≠ 0

/-- The block origins visited by a loop `for (b = 0; b < bound; b += BLOCK_SIZE)`, in order. -/
def blockStarts (bound : Nat) : List Nat :=
  (List.range ((bound + 3) / 4)).map fun k => BLOCK_SIZE * k

/-- The accumulators after adding the samples `ps`, all of them visible. -/
def BlockSums.addSamples (acc : BlockSums) (ps : List QRgb) : BlockSums :=
  { hasVisiblePixels := acc.hasVisiblePixels || !ps.isEmpty,
    avgR := acc.avgR + (ps.map qRed).sum,
    avgG := acc.avgG + (ps.map qGreen).sum,
    avgB := acc.avgB + (ps.map qBlue).sum,
    avgA := acc.avgA + (ps.map qAlpha).sum,
    pixelCount := acc.pixelCount + (ps.length : Int) }

/-- The samples with alpha `> 0` of the block at `(blockX, blockY)`, clipped to the image,
in scan order. -/
def visibleSamples {K : Type} (g : MouseGraphic K) (blockX blockY : Nat) : List QRgb :=
  (List.range' blockY (min (blockY + BLOCK_SIZE) g.m_imageHeight - blockY)).flatMap fun y =>
    ((List.range' blockX (min (blockX + BLOCK_SIZE) g.m_imageWidth - blockX)).map
      fun x => g.m_image.pixel x y).filter fun p => decide (qAlpha p > 0)

/-- The two triangles of the quad of a block whose visible samples are `ps`, with the
truncated means of the channels of `ps` as color and alpha. -/
def blockQuad {K : Type} [Field K] (cos sin : K → K) (g : MouseGraphic K)
    (centerX centerY pixelWidth pixelHeight rotationRad : K) (blockX blockY : Nat)
    (ps : List QRgb) : List (TriangleGraphic K) :=
  [MouseGraphic.createTriangle
      (cornerAt (MouseGraphic.worldCorners cos sin rotationRad centerX centerY
        (MouseGraphic.blockCorners g pixelWidth pixelHeight blockX blockY)) 0)
      (cornerAt (MouseGraphic.worldCorners cos sin rotationRad centerX centerY
        (MouseGraphic.blockCorners g pixelWidth pixelHeight blockX blockY)) 1)
      (cornerAt (MouseGraphic.worldCorners cos sin rotationRad centerX centerY
        (MouseGraphic.blockCorners g pixelWidth pixelHeight blockX blockY)) 2)
      ⟨Int.tdiv (ps.map qRed).sum ps.length, Int.tdiv (ps.map qGreen).sum ps.length,
        Int.tdiv (ps.map qBlue).sum ps.length⟩
      (Int.tdiv (ps.map qAlpha).sum ps.length),
    MouseGraphic.createTriangle
      (cornerAt (MouseGraphic.worldCorners cos sin rotationRad centerX centerY
        (MouseGraphic.blockCorners g pixelWidth pixelHeight blockX blockY)) 0)
      (cornerAt (MouseGraphic.worldCorners cos sin rotationRad centerX centerY
        (MouseGraphic.blockCorners g pixelWidth pixelHeight blockX blockY)) 2)
      (cornerAt (MouseGraphic.worldCorners cos sin rotationRad centerX centerY
        (MouseGraphic.blockCorners g pixelWidth pixelHeight blockX blockY)) 3)
      ⟨Int.tdiv (ps.map qRed).sum ps.length, Int.tdiv (ps.map qGreen).sum ps.length,
        Int.tdiv (ps.map qBlue).sum ps.length⟩
      (Int.tdiv (ps.map qAlpha).sum ps.length)]

/-- The two triangles of the quad of pixel `(x, y)` in the rotated per-pixel mode, flat
shaded with the sample of the pixel. -/
def pixelQuad {K : Type} [Field K] (cos sin : K → K) (g : MouseGraphic K)
    (centerX centerY pixelWidth pixelHeight rotationRad : K) (x y : Nat) :
    List (TriangleGraphic K) :=
  [MouseGraphic.createTriangle
      (cornerAt (MouseGraphic.worldCorners cos sin rotationRad centerX centerY
        (MouseGraphic.pixelCorners g pixelWidth pixelHeight x y)) 0)
      (cornerAt (MouseGraphic.worldCorners cos sin rotationRad centerX centerY
        (MouseGraphic.pixelCorners g pixelWidth pixelHeight x y)) 1)
      (cornerAt (MouseGraphic.worldCorners cos sin rotationRad centerX centerY
        (MouseGraphic.pixelCorners g pixelWidth pixelHeight x y)) 2)
      ⟨qRed (g.m_image.pixel x y), qGreen (g.m_image.pixel x y), qBlue (g.m_image.pixel x y)⟩
      (qAlpha (g.m_image.pixel x y)),
    MouseGraphic.createTriangle
      (cornerAt (MouseGraphic.worldCorners cos sin rotationRad centerX centerY
        (MouseGraphic.pixelCorners g pixelWidth pixelHeight x y)) 0)
      (cornerAt (MouseGraphic.worldCorners cos sin rotationRad centerX centerY
        (MouseGraphic.pixelCorners g pixelWidth pixelHeight x y)) 2)
      (cornerAt (MouseGraphic.worldCorners cos sin rotationRad centerX centerY
        (MouseGraphic.pixelCorners g pixelWidth pixelHeight x y)) 3)
      ⟨qRed (g.m_image.pixel x y), qGreen (g.m_image.pixel x y), qBlue (g.m_image.pixel x y)⟩
      (qAlpha (g.m_image.pixel x y))]

/-- A channel value lies in `[0, 255]`. -/
abbrev channelInRange (c : Int) : Prop := 0 ≤ c ∧ c ≤ 255

/-- All four channels of a sample lie in `[0, 255]`. -/
abbrev QRgb.inRange (p : QRgb) : Prop :=
  channelInRange (qRed p) ∧ channelInRange (qGreen p) ∧ channelInRange (qBlue p)
    ∧ channelInRange (qAlpha p)

/-- The alpha and the three color channels of a vertex lie in `[0, 255]`. -/
abbrev VertexGraphic.inRange {K : Type} (v : VertexGraphic K) : Prop :=
  channelInRange v.a ∧ channelInRange v.rgb.r ∧ channelInRange v.rgb.g
    ∧ channelInRange v.rgb.b

/-- The vertex that carries the coordinate of a corner together with the color and the
alpha of a sample (flat shading). -/
def flatVertex {K : Type} (c : Coordinate K) (p : QRgb) : VertexGraphic K :=
  { x := c.x, y := c.y, rgb := ⟨qRed p, qGreen p, qBlue p⟩, a := qAlpha p }

/-- The pixels of the block at `(blockX, blockY)`, that is of the `4 × 4` square clipped to
the image, whose alpha is `> 0`. -/
def blockVisiblePixels {K : Type} (g : MouseGraphic K) (blockX blockY : Nat) :
    Finset (Nat × Nat) :=
  (Finset.range g.m_imageWidth ×ˢ Finset.range g.m_imageHeight).filter fun p =>
    blockX ≤ p.1 ∧ p.1 < blockX + 4 ∧ blockY ≤ p.2 ∧ p.2 < blockY + 4
      ∧ 0 < qAlpha (g.m_image.pixel p.1 p.2)

/-- The blocks of the image, given by their origins (the pixel positions whose two
coordinates are multiples of `4`), that contain at least one pixel with alpha `> 0`. -/
def visibleBlocks {K : Type} (g : MouseGraphic K) : Finset (Nat × Nat) :=
  (Finset.range g.m_imageWidth ×ˢ Finset.range g.m_imageHeight).filter fun b =>
    b.1 % 4 = 0 ∧ b.2 % 4 = 0 ∧ (blockVisiblePixels g b.1 b.2).Nonempty

/-- The sum of a channel over the pixels of a block whose alpha is `> 0`. -/
def blockChannelSum {K : Type} (g : MouseGraphic K) (blockX blockY : Nat)
    (channel : QRgb → Int) : Int :=
  ∑ p in blockVisiblePixels g blockX blockY, channel (g.m_image.pixel p.1 p.2)

/-- The coordinates of the samples with alpha `> 0` of a block, in scan order. -/
def visibleCoordinates {K : Type} (g : MouseGraphic K) (blockX blockY : Nat) :
    List (Nat × Nat) :=
  (List.range' blockY (min (blockY + BLOCK_SIZE) g.m_imageHeight - blockY)).flatMap fun y =>
    ((List.range' blockX (min (blockX + BLOCK_SIZE) g.m_imageWidth - blockX)).filter
      fun x => decide (qAlpha (g.m_image.pixel x y) > 0)).map fun x => (x, y)

/-- The two triangles of the quad of a block whose visible samples are `ps`, with rounding:
the corners are computed with `toDouble` after each operation and narrowed by `toFloat`. -/
def blockQuadRounded {K : Type} [Field K] (toDouble toFloat : K → K) (cos sin : K → K)
    (g : MouseGraphic K) (centerX centerY pixelWidth pixelHeight rotationRad : K)
    (blockX blockY : Nat) (ps : List QRgb) : List (TriangleGraphic K) :=
  [MouseGraphic.createTriangleRounded toFloat
      (cornerAt (MouseGraphic.worldCornersRounded toDouble cos sin rotationRad centerX centerY
        (MouseGraphic.blockCornersRounded toDouble g pixelWidth pixelHeight blockX blockY)) 0)
      (cornerAt (MouseGraphic.worldCornersRounded toDouble cos sin rotationRad centerX centerY
        (MouseGraphic.blockCornersRounded toDouble g pixelWidth pixelHeight blockX blockY)) 1)
      (cornerAt (MouseGraphic.worldCornersRounded toDouble cos sin rotationRad centerX centerY
        (MouseGraphic.blockCornersRounded toDouble g pixelWidth pixelHeight blockX blockY)) 2)
      ⟨Int.tdiv (ps.map qRed).sum ps.length, Int.tdiv (ps.map qGreen).sum ps.length,
        Int.tdiv (ps.map qBlue).sum ps.length⟩
      (Int.tdiv (ps.map qAlpha).sum ps.length),
    MouseGraphic.createTriangleRounded toFloat
      (cornerAt (MouseGraphic.worldCornersRounded toDouble cos sin rotationRad centerX centerY
        (MouseGraphic.blockCornersRounded toDouble g pixelWidth pixelHeight blockX blockY)) 0)
      (cornerAt (MouseGraphic.worldCornersRounded toDouble cos sin rotationRad centerX centerY
        (MouseGraphic.blockCornersRounded toDouble g pixelWidth pixelHeight blockX blockY)) 2)
      (cornerAt (MouseGraphic.worldCornersRounded toDouble cos sin rotationRad centerX centerY
        (MouseGraphic.blockCornersRounded toDouble g pixelWidth pixelHeight blockX blockY)) 3)
      ⟨Int.tdiv (ps.map qRed).sum ps.length, Int.tdiv (ps.map qGreen).sum ps.length,
        Int.tdiv (ps.map qBlue).sum ps.length⟩
      (Int.tdiv (ps.map qAlpha).sum ps.length)]

/-- The vertex that carries the coordinate of a corner narrowed by `toFloat`, together with
the color and the alpha of a sample. -/
def narrowedVertex {K : Type} (toFloat : K → K) (c : Coordinate K) (p : QRgb) :
    VertexGraphic K :=
  { x := toFloat c.x, y := toFloat c.y, rgb := ⟨qRed p, qGreen p, qBlue p⟩, a := qAlpha p }

/-! ## Concrete inputs -/

/-- A fully opaque `2 × 3` image of one color. -/
def opaqueImage : QImage := ⟨2, 3, fun _ _ => ⟨10, 20, 30, 255⟩⟩

/-- A `2 × 2` image whose pixels all have alpha `0`. -/
def transparentImage : QImage := ⟨2, 2, fun _ _ => ⟨10, 20, 30, 0⟩⟩

/-- A mouse with a triangular body, heading east. -/
def sampleMouse : Mouse ℚ := ⟨⟨[⟨0, 0⟩, ⟨3, 0⟩, ⟨0, 3⟩]⟩, SemiDirection.EAST⟩

/-- Cosine and sine at the only angle the rational examples use, `0`. -/
def cosAtZero : ℚ → ℚ := fun _ => 1

/-- Sine at the only angle the rational examples use, `0`. -/
def sinAtZero : ℚ → ℚ := fun _ => 0

/-- The cheese sprite of the opaque example image, at `(10, 20)` with scale `1`. -/
def sampleCheese : CheeseGraphic ℚ := CheeseGraphic.new ⟨10, 20⟩ 1 opaqueImage

/-- The mouse sprite of the opaque example image. -/
def sampleMouseGraphic : MouseGraphic ℚ := MouseGraphic.new sampleMouse opaqueImage

/-- A `5 × 6` image (neither size a multiple of the block size) of one color, alpha `200`. -/
def uniformImage : QImage := ⟨5, 6, fun _ _ => ⟨10, 20, 30, 200⟩⟩

/-- The mouse sprite of the uniform example image. -/
def uniformMouseGraphic : MouseGraphic ℚ := MouseGraphic.new sampleMouse uniformImage

/-- A fully opaque `5 × 6` image whose color varies from pixel to pixel. -/
def gradientImage : QImage := ⟨5, 6, fun x y => ⟨(x : Int), (y : Int), 7, 255⟩⟩

/-- The mouse sprite of the gradient example image. -/
def gradientMouseGraphic : MouseGraphic ℚ := MouseGraphic.new sampleMouse gradientImage

/-- The cheese sprite whose icon failed to load, at `(10, 20)` with scale `2`. -/
def unloadedCheese : CheeseGraphic ℚ := CheeseGraphic.new ⟨10, 20⟩ 2 QImage.null

/-- The cheese sprite of the fully transparent example image. -/
def transparentCheese : CheeseGraphic ℚ := CheeseGraphic.new ⟨10, 20⟩ 1 transparentImage

/-- The mouse sprite of the fully transparent example image. -/
def transparentMouseGraphic : MouseGraphic ℚ := MouseGraphic.new sampleMouse transparentImage

/-- The mouse sprite of the opaque example image, for a mouse whose body polygon has no
vertex. -/
def bodilessMouseGraphic : MouseGraphic ℚ :=
  MouseGraphic.new ⟨⟨[]⟩, SemiDirection.EAST⟩ opaqueImage

/-- A stand-in for `SimUtilities::polygonToTriangleGraphics` in the examples: one triangle on
the first vertex of the polygon (on the origin when there is none). -/
def samplePolygonToTriangleGraphics (poly : Polygon ℚ) (_color : Color) (alpha : Int) :
    List (TriangleGraphic ℚ) :=
  let c : Coordinate ℚ := poly.vertices.headD ⟨0, 0⟩
  [⟨⟨c.x, c.y, ⟨128, 128, 128⟩, alpha⟩, ⟨c.x, c.y, ⟨128, 128, 128⟩, alpha⟩,
    ⟨c.x, c.y, ⟨128, 128, 128⟩, alpha⟩⟩]

/-- A rational stand-in for `M_PI` in the examples, which only use the angle `0`. -/
def piApprox : ℚ := 355 / 113

/-- The mouse sprite of the opaque example image over the reals. -/
def realMouseGraphic : MouseGraphic ℝ :=
  MouseGraphic.new ⟨⟨[]⟩, SemiDirection.EAST⟩ opaqueImage

/-- A `6 × 5` image whose four left columns are fully transparent (alpha `0`) and whose
other pixels have alpha `100` and a color that varies with the position. -/
def patchImage : QImage :=
  ⟨6, 5, fun x y => if x < 4 then ⟨0, 0, 0, 0⟩ else ⟨(x : Int), (y : Int), 9, 100⟩⟩

/-- The mouse sprite of the patch example image. -/
def patchMouseGraphic : MouseGraphic ℚ := MouseGraphic.new sampleMouse patchImage

/-- A sprite state that no constructor produces: the stored sizes `3 × 3` exceed the
`2 × 3` image. -/
def inconsistentMouseGraphic : MouseGraphic ℚ :=
  { m_mouse := sampleMouse, m_imageLoaded := true, m_image := opaqueImage,
    m_imageWidth := 3, m_imageHeight := 3 }

/-- A fully opaque `15 × 1` image. -/
def oddImage : QImage := ⟨15, 1, fun _ _ => ⟨10, 20, 30, 255⟩⟩

/-- The mouse sprite of the `15 × 1` image. -/
def oddMouseGraphic : MouseGraphic ℚ := MouseGraphic.new sampleMouse oddImage

/-! ## Loops as lists -/

theorem foldl_append_flatMap {α β : Type} (f : List β → α → List β) (q : α → List β)
    (h : ∀ b a, f b a = b ++ q a) (l : List α) (b : List β) :
    l.foldl f b = b ++ l.flatMap q := by
  induction l generalizing b with
  | nil => simp
  | cons a l ih => simp [ih, h, List.append_assoc]

theorem sum_map_range (f : Nat → Nat) (n : Nat) :
    ((List.range n).map f).sum = ∑ i in Finset.range n, f i := by
  induction n with
  | zero => simp
  | succ n ih => simp [List.range_succ, Finset.sum_range_succ, ih]

theorem length_flatMap_range {β : Type} (q : Nat → List β) (n : Nat) :
    ((List.range n).flatMap q).length = ∑ i in Finset.range n, (q i).length := by
  rw [List.length_flatMap, ← sum_map_range]
  simp [Function.comp_def]

theorem card_visiblePixels_of_opaque (img : QImage) (W H : Nat)
    (h : ∀ x y, x < W → y < H → qAlpha (img.pixel x y) = 255) :
    (visiblePixels img W H).card = W * H := by
  unfold visiblePixels
  rw [Finset.filter_true_of_mem, Finset.card_product, Finset.card_range, Finset.card_range]
  intro p hp
  rw [Finset.mem_product, Finset.mem_range, Finset.mem_range] at hp
  rw [h p.1 p.2 hp.1 hp.2]
  decide

theorem visiblePixels_eq_empty (img : QImage) (W H : Nat)
    (h : ∀ x y, x < W → y < H → qAlpha (img.pixel x y) = 0) :
    visiblePixels img W H = ∅ := by
  unfold visiblePixels
  rw [Finset.filter_eq_empty_iff]
  intro p hp
  rw [Finset.mem_product, Finset.mem_range, Finset.mem_range] at hp
  simp [h p.1 p.2 hp.1 hp.2]

theorem two_mul_card_visiblePixels (img : QImage) (W H : Nat) :
    2 * (visiblePixels img W H).card
      = ∑ y in Finset.range H, ∑ x in Finset.range W,
          if qAlpha (img.pixel x y) = 0 then 0 else 2 := by
  unfold visiblePixels
  rw [Finset.card_filter, Finset.sum_product_right, Finset.mul_sum]
  refine Finset.sum_congr rfl fun y _ => ?_
  rw [Finset.mul_sum]
  refine Finset.sum_congr rfl fun x _ => ?_
  by_cases h : qAlpha (img.pixel x y) = 0 <;> simp [h]

theorem infix_flatMap_mem {α β : Type} (q : α → List β) {a : α} {l : List α} (h : a ∈ l) :
    q a <:+: l.flatMap q := by
  rw [List.flatMap_def]
  exact List.infix_of_mem_flatten (List.mem_map_of_mem q h)

theorem infix_flatMap_range2 {β : Type} (q : Nat → Nat → List β) {W H x y : Nat}
    (hx : x < W) (hy : y < H) (buffer : List β) :
    q y x <:+: buffer ++ (List.range H).flatMap fun y => (List.range W).flatMap fun x => q y x := by
  have h1 : q y x <:+: (List.range W).flatMap fun x => q y x :=
    infix_flatMap_mem (fun x => q y x) (List.mem_range.2 hx)
  have h2 : ((List.range W).flatMap fun x => q y x)
      <:+: (List.range H).flatMap fun y => (List.range W).flatMap fun x => q y x :=
    infix_flatMap_mem (fun y => (List.range W).flatMap fun x => q y x) (List.mem_range.2 hy)
  exact (h1.trans h2).trans (List.suffix_append _ _).isInfix

/-! ## Per-pixel mode as a list of quads -/

section Lemmas

variable {K : Type} [Field K]

theorem cheese_drawPixel_append (g : CheeseGraphic K) (cx cy pw ph : K) (y : Nat)
    (buffer : List (TriangleGraphic K)) (x : Nat) :
    CheeseGraphic.drawPixel g cx cy pw ph y buffer x
      = buffer ++ CheeseGraphic.drawPixel g cx cy pw ph y [] x := by
  unfold CheeseGraphic.drawPixel
  by_cases h : qAlpha (g.m_image.pixel x y) = 0 <;> simp [h]

theorem mouse_drawPixel_append (cos sin : K → K) (g : MouseGraphic K)
    (cx cy pw ph rot : K) (y : Nat) (buffer : List (TriangleGraphic K)) (x : Nat) :
    MouseGraphic.drawPixel cos sin g cx cy pw ph rot y buffer x
      = buffer ++ MouseGraphic.drawPixel cos sin g cx cy pw ph rot y [] x := by
  unfold MouseGraphic.drawPixel
  by_cases h : qAlpha (g.m_image.pixel x y) = 0 <;> simp [h]

theorem cheese_drawAllPixels_eq (g : CheeseGraphic K)
    (buffer : List (TriangleGraphic K)) (cx cy pw ph : K) :
    CheeseGraphic.drawAllPixels g buffer cx cy pw ph
      = buffer ++ (List.range g.m_imageHeight).flatMap fun y =>
          (List.range g.m_imageWidth).flatMap fun x =>
            CheeseGraphic.drawPixel g cx cy pw ph y [] x := by
  unfold CheeseGraphic.drawAllPixels
  refine foldl_append_flatMap _ _ (fun b y => ?_) _ _
  exact foldl_append_flatMap _ _ (fun b x => cheese_drawPixel_append g cx cy pw ph y b x) _ _

theorem mouse_drawAllPixels_eq (cos sin : K → K) (g : MouseGraphic K)
    (buffer : List (TriangleGraphic K)) (cx cy pw ph rot : K) :
    MouseGraphic.drawAllPixels cos sin g buffer cx cy pw ph rot
      = buffer ++ (List.range g.m_imageHeight).flatMap fun y =>
          (List.range g.m_imageWidth).flatMap fun x =>
            MouseGraphic.drawPixel cos sin g cx cy pw ph rot y [] x := by
  unfold MouseGraphic.drawAllPixels
  refine foldl_append_flatMap _ _ (fun b y => ?_) _ _
  exact foldl_append_flatMap _ _
    (fun b x => mouse_drawPixel_append cos sin g cx cy pw ph rot y b x) _ _

theorem cheese_length_drawPixel (g : CheeseGraphic K) (cx cy pw ph : K) (y x : Nat) :
    (CheeseGraphic.drawPixel g cx cy pw ph y [] x).length
      = if qAlpha (g.m_image.pixel x y) = 0 then 0 else 2 := by
  unfold CheeseGraphic.drawPixel
  by_cases h : qAlpha (g.m_image.pixel x y) = 0 <;> simp [h]

theorem mouse_length_drawPixel (cos sin : K → K) (g : MouseGraphic K)
    (cx cy pw ph rot : K) (y x : Nat) :
    (MouseGraphic.drawPixel cos sin g cx cy pw ph rot y [] x).length
      = if qAlpha (g.m_image.pixel x y) = 0 then 0 else 2 := by
  unfold MouseGraphic.drawPixel
  by_cases h : qAlpha (g.m_image.pixel x y) = 0 <;> simp [h]

theorem cheese_length_drawAllPixels (g : CheeseGraphic K)
    (buffer : List (TriangleGraphic K)) (cx cy pw ph : K) :
    (CheeseGraphic.drawAllPixels g buffer cx cy pw ph).length
      = buffer.length + 2 * (visiblePixels g.m_image g.m_imageWidth g.m_imageHeight).card := by
  rw [cheese_drawAllPixels_eq, List.length_append, two_mul_card_visiblePixels,
    length_flatMap_range]
  congr 1
  refine Finset.sum_congr rfl fun y _ => ?_
  rw [length_flatMap_range]
  exact Finset.sum_congr rfl fun x _ => cheese_length_drawPixel g cx cy pw ph y x

theorem mouse_length_drawAllPixels (cos sin : K → K) (g : MouseGraphic K)
    (buffer : List (TriangleGraphic K)) (cx cy pw ph rot : K) :
    (MouseGraphic.drawAllPixels cos sin g buffer cx cy pw ph rot).length
      = buffer.length + 2 * (visiblePixels g.m_image g.m_imageWidth g.m_imageHeight).card := by
  rw [mouse_drawAllPixels_eq, List.length_append, two_mul_card_visiblePixels,
    length_flatMap_range]
  congr 1
  refine Finset.sum_congr rfl fun y _ => ?_
  rw [length_flatMap_range]
  exact Finset.sum_congr rfl fun x _ => mouse_length_drawPixel cos sin g cx cy pw ph rot y x

end Lemmas

/-! ## Triangle counts of per-pixel mode -/

/-- C1: for every image, center, pixel size and rotation angle, per-pixel mode (the rotated
rasterizer of the mouse and the unrotated one of the cheese) leaves the buffer it was given
in place and appends exactly `2 * N` triangles, where `N` is the number of pixels of the
image whose alpha is not `0`; when every pixel has alpha `0` nothing is appended. -/
theorem C1_perPixel_appends_two_per_visible_pixel {K : Type} [Field K] (cos sin : K → K)
    (gm : MouseGraphic K) (gc : CheeseGraphic K) (buffer : List (TriangleGraphic K))
    (centerX centerY pixelWidth pixelHeight rotationRad : K) :
    (∃ new, MouseGraphic.drawAllPixels cos sin gm buffer centerX centerY pixelWidth pixelHeight
          rotationRad = buffer ++ new
        ∧ new.length = 2 * (visiblePixels gm.m_image gm.m_imageWidth gm.m_imageHeight).card
        ∧ ((∀ x y, x < gm.m_imageWidth → y < gm.m_imageHeight →
              qAlpha (gm.m_image.pixel x y) = 0) → new = []))
    ∧ (∃ new, CheeseGraphic.drawAllPixels gc buffer centerX centerY pixelWidth pixelHeight
          = buffer ++ new
        ∧ new.length = 2 * (visiblePixels gc.m_image gc.m_imageWidth gc.m_imageHeight).card
        ∧ ((∀ x y, x < gc.m_imageWidth → y < gc.m_imageHeight →
              qAlpha (gc.m_image.pixel x y) = 0) → new = [])) := by
  constructor
  · refine ⟨_, mouse_drawAllPixels_eq cos sin gm buffer _ _ _ _ _, ?_⟩
    have hlen := mouse_length_drawAllPixels cos sin gm buffer centerX centerY pixelWidth
      pixelHeight rotationRad
    rw [mouse_drawAllPixels_eq, List.length_append] at hlen
    refine ⟨by omega, fun h0 => ?_⟩
    rw [visiblePixels_eq_empty _ _ _ h0] at hlen
    exact List.eq_nil_of_length_eq_zero (by simpa using hlen)
  · refine ⟨_, cheese_drawAllPixels_eq gc buffer _ _ _ _, ?_⟩
    have hlen := cheese_length_drawAllPixels gc buffer centerX centerY pixelWidth
      pixelHeight
    rw [cheese_drawAllPixels_eq, List.length_append] at hlen
    refine ⟨by omega, fun h0 => ?_⟩
    rw [visiblePixels_eq_empty _ _ _ h0] at hlen
    exact List.eq_nil_of_length_eq_zero (by simpa using hlen)

/-- C2: for a fully opaque image of size `W × H` (every pixel has alpha `255`), per-pixel
mode of the mouse and of the cheese appends exactly `2 * W * H` triangles. -/
theorem C2_perPixel_opaque_count {K : Type} [Field K] (cos sin : K → K)
    (gm : MouseGraphic K) (gc : CheeseGraphic K) (buffer : List (TriangleGraphic K))
    (centerX centerY pixelWidth pixelHeight rotationRad : K)
    (hm : ∀ x y, x < gm.m_imageWidth → y < gm.m_imageHeight →
      qAlpha (gm.m_image.pixel x y) = 255)
    (hc : ∀ x y, x < gc.m_imageWidth → y < gc.m_imageHeight →
      qAlpha (gc.m_image.pixel x y) = 255) :
    (∃ new, MouseGraphic.drawAllPixels cos sin gm buffer centerX centerY pixelWidth pixelHeight
          rotationRad = buffer ++ new
        ∧ new.length = 2 * gm.m_imageWidth * gm.m_imageHeight)
    ∧ (∃ new, CheeseGraphic.drawAllPixels gc buffer centerX centerY pixelWidth pixelHeight
          = buffer ++ new
        ∧ new.length = 2 * gc.m_imageWidth * gc.m_imageHeight) := by
  constructor
  · refine ⟨_, mouse_drawAllPixels_eq cos sin gm buffer _ _ _ _ _, ?_⟩
    have hlen := mouse_length_drawAllPixels cos sin gm buffer centerX centerY pixelWidth
      pixelHeight rotationRad
    rw [mouse_drawAllPixels_eq, List.length_append,
      card_visiblePixels_of_opaque _ _ _ hm] at hlen
    rw [Nat.mul_assoc]
    omega
  · refine ⟨_, cheese_drawAllPixels_eq gc buffer _ _ _ _, ?_⟩
    have hlen := cheese_length_drawAllPixels gc buffer centerX centerY pixelWidth
      pixelHeight
    rw [cheese_drawAllPixels_eq, List.length_append,
      card_visiblePixels_of_opaque _ _ _ hc] at hlen
    rw [Nat.mul_assoc]
    omega

/-- Witness of C2: the opaque `2 × 3` image gives `12` triangles in both rasterizers. -/
theorem C2_perPixel_opaque_count_witness :
    ((∀ x y, x < 2 → y < 3 → qAlpha (opaqueImage.pixel x y) = 255)
      ∧ (MouseGraphic.new sampleMouse opaqueImage).m_imageWidth = 2
      ∧ (MouseGraphic.new sampleMouse opaqueImage).m_imageHeight = 3)
    ∧ ((∃ new, MouseGraphic.drawAllPixels cosAtZero sinAtZero
            (MouseGraphic.new sampleMouse opaqueImage) [] 0 0 1 1 0 = [] ++ new
          ∧ new.length = 2 * 2 * 3)
      ∧ (∃ new, CheeseGraphic.drawAllPixels
            (CheeseGraphic.new (⟨0, 0⟩ : Coordinate ℚ) 1 opaqueImage) [] 0 0 1 1 = [] ++ new
          ∧ new.length = 2 * 2 * 3)) :=
  ⟨⟨by intro x y hx hy; simp [QImage.pixel, opaqueImage, qAlpha, hx, hy], rfl, rfl⟩,
    C2_perPixel_opaque_count cosAtZero sinAtZero (MouseGraphic.new sampleMouse opaqueImage)
      (CheeseGraphic.new (⟨0, 0⟩ : Coordinate ℚ) 1 opaqueImage) [] 0 0 1 1 0
      (by intro x y hx hy
          have hx2 : x < 2 := hx
          have hy3 : y < 3 := hy
          simp [MouseGraphic.new, QImage.isNull, QImage.pixel, opaqueImage, qAlpha, hx2, hy3])
      (by intro x y hx hy
          have hx2 : x < 2 := hx
          have hy3 : y < 3 := hy
          simp [CheeseGraphic.new, QImage.isNull, QImage.pixel, opaqueImage, qAlpha, hx2, hy3])⟩

/-! ## Geometry of per-pixel mode -/

theorem mouse_drawPixel_zero_rotation {K : Type} [Field K] (cos sin : K → K)
    (hcos : cos 0 = 1) (hsin : sin 0 = 0) (gm : MouseGraphic K) (gc : CheeseGraphic K)
    (himg : gm.m_image = gc.m_image) (hW : gm.m_imageWidth = gc.m_imageWidth)
    (hH : gm.m_imageHeight = gc.m_imageHeight) (cx cy pw ph : K) (y x : Nat) :
    MouseGraphic.drawPixel cos sin gm cx cy pw ph 0 y [] x
      = CheeseGraphic.drawPixel gc cx cy pw ph y [] x := by
  unfold MouseGraphic.drawPixel CheeseGraphic.drawPixel
  simp only [himg, hW, hH, MouseGraphic.worldCorners, CheeseGraphic.worldCorners,
    MouseGraphic.pixelCorners, CheeseGraphic.pixelCorners, MouseGraphic.createTriangle,
    CheeseGraphic.createTriangle, hcos, hsin, mul_one, mul_zero, sub_zero, zero_add]

/-- C4: rotation by `0` radians is the identity: on the same image, buffer, center and
pixel size, the rotated rasterizer of the mouse called with angle `0` returns exactly the
triangle sequence (vertices, colors, alphas, order) of the unrotated rasterizer of the
cheese. -/
theorem C4_zero_rotation_is_identity (mouse : Mouse ℝ) (position : Coordinate ℝ) (scale : ℝ)
    (loadedM loadedC : Bool) (img : QImage) (W H : Nat) (buffer : List (TriangleGraphic ℝ))
    (centerX centerY pixelWidth pixelHeight : ℝ) :
    MouseGraphic.drawAllPixels Real.cos Real.sin
        { m_mouse := mouse, m_imageLoaded := loadedM, m_image := img,
          m_imageWidth := W, m_imageHeight := H }
        buffer centerX centerY pixelWidth pixelHeight 0
      = CheeseGraphic.drawAllPixels
        { m_position := position, m_scale := scale, m_imageLoaded := loadedC, m_image := img,
          m_imageWidth := W, m_imageHeight := H }
        buffer centerX centerY pixelWidth pixelHeight := by
  rw [mouse_drawAllPixels_eq, cheese_drawAllPixels_eq]
  congr 1
  refine congrArg _ (funext fun y => congrArg _ (funext fun x => ?_))
  exact mouse_drawPixel_zero_rotation Real.cos Real.sin Real.cos_zero Real.sin_zero
    _ _ rfl rfl rfl centerX centerY pixelWidth pixelHeight y x

/-! ## Block-averaging mode as a list of quads -/

theorem forBlocks_eq_foldl_from {σ : Type} (bound : Nat) (body : σ → Nat → σ) (k : Nat) :
    ∀ (b : Nat) (s : σ), (bound - b + 3) / 4 = k →
      forBlocks bound body b s
        = ((List.range k).map fun j => b + BLOCK_SIZE * j).foldl body s := by
  induction k with
  | zero =>
    intro b s hk
    rw [forBlocks, if_neg (by omega)]
    simp
  | succ k ih =>
    intro b s hk
    rw [forBlocks, if_pos (by omega), ih (b + BLOCK_SIZE) (body s b) (by simp only [BLOCK_SIZE]; omega)]
    rw [List.range_succ_eq_map, List.map_cons, List.foldl_cons, List.map_map]
    simp only [BLOCK_SIZE, Nat.mul_zero, Nat.add_zero]
    congr 1
    refine List.map_congr_left fun j _ => ?_
    simp only [Function.comp_apply, Nat.succ_eq_add_one]
    omega

theorem forBlocks_eq_foldl {σ : Type} (bound : Nat) (body : σ → Nat → σ) (s : σ) :
    forBlocks bound body 0 s = (blockStarts bound).foldl body s := by
  rw [forBlocks_eq_foldl_from bound body ((bound + 3) / 4) 0 s (by simp)]
  simp [blockStarts]

theorem mem_blockStarts {bound b : Nat} :
    b ∈ blockStarts bound ↔ b < bound ∧ b % 4 = 0 := by
  simp only [blockStarts, BLOCK_SIZE, List.mem_map, List.mem_range]
  constructor
  · rintro ⟨k, hk, rfl⟩
    omega
  · rintro ⟨h1, h2⟩
    exact ⟨b / 4, by omega, by omega⟩

theorem length_blockStarts (bound : Nat) : (blockStarts bound).length = (bound + 3) / 4 := by
  simp [blockStarts]

theorem BlockSums.addSamples_nil (acc : BlockSums) : acc.addSamples [] = acc := by
  cases acc
  simp [BlockSums.addSamples]

theorem BlockSums.addSamples_append (acc : BlockSums) (ps qs : List QRgb) :
    acc.addSamples (ps ++ qs) = (acc.addSamples ps).addSamples qs := by
  simp only [BlockSums.addSamples, List.map_append, List.sum_append, List.length_append,
    Nat.cast_add, BlockSums.mk.injEq]
  refine ⟨?_, ?_, ?_, ?_, ?_, ?_⟩
  · cases ps <;> cases qs <;> simp
  all_goals ring

theorem mouse_addPixel_eq {K : Type} (g : MouseGraphic K) (y : Nat) (acc : BlockSums)
    (x : Nat) :
    MouseGraphic.addPixel g y acc x
      = acc.addSamples ([g.m_image.pixel x y].filter fun p => decide (qAlpha p > 0)) := by
  unfold MouseGraphic.addPixel
  by_cases h : qAlpha (g.m_image.pixel x y) > 0
  · simp [h, BlockSums.addSamples, List.filter]
  · simp [h, BlockSums.addSamples_nil, List.filter]

theorem mouse_foldl_addPixel {K : Type} (g : MouseGraphic K) (y : Nat) (l : List Nat) :
    ∀ acc : BlockSums, l.foldl (MouseGraphic.addPixel g y) acc
      = acc.addSamples ((l.map fun x => g.m_image.pixel x y).filter
          fun p => decide (qAlpha p > 0)) := by
  induction l with
  | nil => intro acc; simp [BlockSums.addSamples_nil]
  | cons x l ih =>
    intro acc
    rw [List.foldl_cons, ih, mouse_addPixel_eq, ← BlockSums.addSamples_append,
      ← List.filter_append]
    rfl

theorem foldl_addSamples {α : Type} (f : BlockSums → α → BlockSums) (q : α → List QRgb)
    (h : ∀ acc a, f acc a = acc.addSamples (q a)) (l : List α) :
    ∀ acc : BlockSums, l.foldl f acc = acc.addSamples (l.flatMap q) := by
  induction l with
  | nil => intro acc; simp [BlockSums.addSamples_nil]
  | cons a l ih =>
    intro acc
    rw [List.foldl_cons, ih, h, ← BlockSums.addSamples_append, List.flatMap_cons]

/-- The two inner loops of `drawOptimized` compute the sums over the visible samples of the
clipped block. -/
theorem mouse_blockSums_eq {K : Type} (g : MouseGraphic K) (blockX blockY : Nat) :
    MouseGraphic.blockSums g blockX blockY
      = BlockSums.init.addSamples (visibleSamples g blockX blockY) := by
  unfold MouseGraphic.blockSums visibleSamples
  exact foldl_addSamples _ _ (fun acc y => mouse_foldl_addPixel g y _ acc) _ _

theorem mem_visibleSamples {K : Type} (g : MouseGraphic K) (blockX blockY : Nat) (p : QRgb) :
    p ∈ visibleSamples g blockX blockY ↔
      ∃ x y, blockX ≤ x ∧ x < blockX + BLOCK_SIZE ∧ x < g.m_imageWidth
        ∧ blockY ≤ y ∧ y < blockY + BLOCK_SIZE ∧ y < g.m_imageHeight
        ∧ p = g.m_image.pixel x y ∧ 0 < qAlpha p := by
  simp only [visibleSamples, BLOCK_SIZE, List.mem_flatMap, List.mem_filter, List.mem_map,
    List.mem_range'_1, decide_eq_true_eq, gt_iff_lt]
  constructor
  · rintro ⟨y, hy, ⟨x, hx, rfl⟩, ha⟩
    exact ⟨x, y, by omega, by omega, by omega, by omega, by omega, by omega, rfl, ha⟩
  · rintro ⟨x, y, h1, h2, h3, h4, h5, h6, rfl, ha⟩
    exact ⟨y, by omega, ⟨x, by omega, rfl⟩, ha⟩

section BlockLemmas

variable {K : Type} [Field K]

theorem mouse_drawBlock_append (cos sin : K → K) (g : MouseGraphic K)
    (cx cy pw ph rot : K) (blockY : Nat) (buffer : List (TriangleGraphic K)) (blockX : Nat) :
    MouseGraphic.drawBlock cos sin g cx cy pw ph rot blockY buffer blockX
      = buffer ++ MouseGraphic.drawBlock cos sin g cx cy pw ph rot blockY [] blockX := by
  unfold MouseGraphic.drawBlock
  by_cases h : (!(MouseGraphic.blockSums g blockX blockY).hasVisiblePixels
      || (MouseGraphic.blockSums g blockX blockY).pixelCount == 0) = true
  · simp only [h, if_true, List.append_nil]
  · simp [h]

/-- One block of `drawOptimized`: nothing when the block has no visible sample, otherwise
the quad colored with the truncated means over the visible samples. -/
theorem mouse_drawBlock_eq (cos sin : K → K) (g : MouseGraphic K)
    (cx cy pw ph rot : K) (blockY blockX : Nat) :
    MouseGraphic.drawBlock cos sin g cx cy pw ph rot blockY [] blockX
      = if visibleSamples g blockX blockY = [] then []
        else blockQuad cos sin g cx cy pw ph rot blockX blockY
          (visibleSamples g blockX blockY) := by
  unfold MouseGraphic.drawBlock
  rw [mouse_blockSums_eq]
  cases hps : visibleSamples g blockX blockY with
  | nil => simp [BlockSums.addSamples, BlockSums.init]
  | cons p ps =>
    have hne : ((ps.length : Int) + 1 == 0) = false := by
      rw [beq_eq_false_iff_ne]
      omega
    simp [BlockSums.addSamples, BlockSums.init, blockQuad, hne]

theorem mouse_drawOptimized_eq (cos sin : K → K) (g : MouseGraphic K)
    (buffer : List (TriangleGraphic K)) (cx cy pw ph rot : K) :
    MouseGraphic.drawOptimized cos sin g buffer cx cy pw ph rot
      = buffer ++ (blockStarts g.m_imageHeight).flatMap fun blockY =>
          (blockStarts g.m_imageWidth).flatMap fun blockX =>
            MouseGraphic.drawBlock cos sin g cx cy pw ph rot blockY [] blockX := by
  unfold MouseGraphic.drawOptimized
  rw [forBlocks_eq_foldl]
  refine foldl_append_flatMap _ _ (fun b blockY => ?_) _ _
  rw [forBlocks_eq_foldl]
  exact foldl_append_flatMap _ _
    (fun b blockX => mouse_drawBlock_append cos sin g cx cy pw ph rot blockY b blockX) _ _

end BlockLemmas

theorem visibleSamples_ne_nil {K : Type} (g : MouseGraphic K) (blockX blockY x y : Nat)
    (hx1 : blockX ≤ x) (hx2 : x < blockX + BLOCK_SIZE) (hx3 : x < g.m_imageWidth)
    (hy1 : blockY ≤ y) (hy2 : y < blockY + BLOCK_SIZE) (hy3 : y < g.m_imageHeight)
    (ha : 0 < qAlpha (g.m_image.pixel x y)) :
    visibleSamples g blockX blockY ≠ [] := by
  intro h
  have hm : g.m_image.pixel x y ∈ visibleSamples g blockX blockY :=
    (mem_visibleSamples g blockX blockY _).2 ⟨x, y, hx1, hx2, hx3, hy1, hy2, hy3, rfl, ha⟩
  rw [h] at hm
  exact List.not_mem_nil _ hm

section BlockEmission

variable {K : Type} [Field K]

theorem infix_flatMap_blockStarts {β : Type} (q : Nat → Nat → List β) {W H bx by' : Nat}
    (hx : bx ∈ blockStarts W) (hy : by' ∈ blockStarts H) (buffer : List β) :
    q by' bx <:+: buffer ++ (blockStarts H).flatMap fun blockY =>
      (blockStarts W).flatMap fun blockX => q blockY blockX := by
  have h1 : q by' bx <:+: (blockStarts W).flatMap fun blockX => q by' blockX :=
    infix_flatMap_mem (fun blockX => q by' blockX) hx
  have h2 : ((blockStarts W).flatMap fun blockX => q by' blockX)
      <:+: (blockStarts H).flatMap fun blockY => (blockStarts W).flatMap fun blockX =>
        q blockY blockX :=
    infix_flatMap_mem (fun blockY => (blockStarts W).flatMap fun blockX => q blockY blockX) hy
  exact (h1.trans h2).trans (List.suffix_append _ _).isInfix

/-- A visible block's quad is emitted by `drawOptimized`, its two triangles next to each
other. -/
theorem mouse_blockQuad_emitted (cos sin : K → K) (g : MouseGraphic K)
    (buffer : List (TriangleGraphic K)) (cx cy pw ph rot : K) (blockX blockY : Nat)
    (hbx : blockX < g.m_imageWidth) (hbx4 : blockX % 4 = 0)
    (hby : blockY < g.m_imageHeight) (hby4 : blockY % 4 = 0)
    (hvis : visibleSamples g blockX blockY ≠ []) :
    blockQuad cos sin g cx cy pw ph rot blockX blockY (visibleSamples g blockX blockY)
      <:+: MouseGraphic.drawOptimized cos sin g buffer cx cy pw ph rot := by
  rw [mouse_drawOptimized_eq]
  have h := infix_flatMap_blockStarts
    (fun blockY blockX => MouseGraphic.drawBlock cos sin g cx cy pw ph rot blockY [] blockX)
    (mem_blockStarts.2 ⟨hbx, hbx4⟩) (mem_blockStarts.2 ⟨hby, hby4⟩) buffer
  rw [mouse_drawBlock_eq, if_neg hvis] at h
  exact h

/-- A visible pixel's quad is emitted by the rotated per-pixel mode, its two triangles next
to each other. -/
theorem mouse_pixelQuad_emitted (cos sin : K → K) (g : MouseGraphic K)
    (buffer : List (TriangleGraphic K)) (cx cy pw ph rot : K) (x y : Nat)
    (hx : x < g.m_imageWidth) (hy : y < g.m_imageHeight)
    (hvis : qAlpha (g.m_image.pixel x y) ≠ 0) :
    pixelQuad cos sin g cx cy pw ph rot x y
      <:+: MouseGraphic.drawAllPixels cos sin g buffer cx cy pw ph rot := by
  rw [mouse_drawAllPixels_eq]
  have h := infix_flatMap_range2
    (fun y x => MouseGraphic.drawPixel cos sin g cx cy pw ph rot y [] x) hx hy buffer
  have hq : MouseGraphic.drawPixel cos sin g cx cy pw ph rot y [] x
      = pixelQuad cos sin g cx cy pw ph rot x y := by
    unfold MouseGraphic.drawPixel pixelQuad
    simp only [hvis, if_false, List.nil_append, List.cons_append]
  rw [hq] at h
  exact h

end BlockEmission

/-! ## Rotation preserves the distance to the center -/

theorem rotate_translate_dist (θ cx cy lx ly : ℝ) :
    Real.sqrt ((lx * Real.cos θ - ly * Real.sin θ + cx - cx) ^ 2
        + (lx * Real.sin θ + ly * Real.cos θ + cy - cy) ^ 2)
      = Real.sqrt (lx ^ 2 + ly ^ 2) := by
  congr 1
  have h := Real.cos_sq_add_sin_sq θ
  linear_combination (lx ^ 2 + ly ^ 2) * h

theorem mouse_worldCorners_dist (θ cx cy : ℝ) (corners : List (QPointF ℝ)) (i : Nat)
    (hi : i < corners.length) :
    Real.sqrt (((cornerAt (MouseGraphic.worldCorners Real.cos Real.sin θ cx cy corners) i).x
          - cx) ^ 2
        + ((cornerAt (MouseGraphic.worldCorners Real.cos Real.sin θ cx cy corners) i).y
          - cy) ^ 2)
      = Real.sqrt ((pointAt corners i).x ^ 2 + (pointAt corners i).y ^ 2) := by
  have h1 : cornerAt (MouseGraphic.worldCorners Real.cos Real.sin θ cx cy corners) i
      = ⟨(pointAt corners i).x * Real.cos θ - (pointAt corners i).y * Real.sin θ + cx,
         (pointAt corners i).x * Real.sin θ + (pointAt corners i).y * Real.cos θ + cy⟩ := by
    simp [cornerAt, pointAt, MouseGraphic.worldCorners, List.getD_eq_getElem?_getD,
      List.getElem?_map, List.getElem?_eq_getElem hi]
  rw [h1]
  exact rotate_translate_dist θ cx cy _ _

/-- C5: rotation preserves the distance to the image center (over exact real arithmetic).
For every visible pixel the rotated per-pixel mode emits the two triangles built on the
world corners of the pixel, and each of the four world corners is at distance
`sqrt (lx ^ 2 + ly ^ 2)` from `(centerX, centerY)`, where `(lx, ly)` is the local corner it
comes from, whatever the angle; the same holds for the quad of every visible block of
block-averaging mode. -/
theorem C5_rotation_preserves_center_distance (g : MouseGraphic ℝ)
    (buffer : List (TriangleGraphic ℝ)) (centerX centerY pixelWidth pixelHeight θ : ℝ) :
    (∀ x y, x < g.m_imageWidth → y < g.m_imageHeight → qAlpha (g.m_image.pixel x y) ≠ 0 →
      pixelQuad Real.cos Real.sin g centerX centerY pixelWidth pixelHeight θ x y
          <:+: MouseGraphic.drawAllPixels Real.cos Real.sin g buffer centerX centerY
            pixelWidth pixelHeight θ
      ∧ ∀ i, i < 4 →
        Real.sqrt (((cornerAt (MouseGraphic.worldCorners Real.cos Real.sin θ centerX centerY
              (MouseGraphic.pixelCorners g pixelWidth pixelHeight x y)) i).x - centerX) ^ 2
            + ((cornerAt (MouseGraphic.worldCorners Real.cos Real.sin θ centerX centerY
              (MouseGraphic.pixelCorners g pixelWidth pixelHeight x y)) i).y - centerY) ^ 2)
          = Real.sqrt ((pointAt (MouseGraphic.pixelCorners g pixelWidth pixelHeight x y) i).x ^ 2
            + (pointAt (MouseGraphic.pixelCorners g pixelWidth pixelHeight x y) i).y ^ 2))
    ∧ (∀ blockX blockY, blockX < g.m_imageWidth → blockX % 4 = 0 →
        blockY < g.m_imageHeight → blockY % 4 = 0 →
        (∃ x y, blockX ≤ x ∧ x < blockX + 4 ∧ x < g.m_imageWidth
          ∧ blockY ≤ y ∧ y < blockY + 4 ∧ y < g.m_imageHeight
          ∧ 0 < qAlpha (g.m_image.pixel x y)) →
      blockQuad Real.cos Real.sin g centerX centerY pixelWidth pixelHeight θ blockX blockY
          (visibleSamples g blockX blockY)
          <:+: MouseGraphic.drawOptimized Real.cos Real.sin g buffer centerX centerY
            pixelWidth pixelHeight θ
      ∧ ∀ i, i < 4 →
        Real.sqrt (((cornerAt (MouseGraphic.worldCorners Real.cos Real.sin θ centerX centerY
              (MouseGraphic.blockCorners g pixelWidth pixelHeight blockX blockY)) i).x
                - centerX) ^ 2
            + ((cornerAt (MouseGraphic.worldCorners Real.cos Real.sin θ centerX centerY
              (MouseGraphic.blockCorners g pixelWidth pixelHeight blockX blockY)) i).y
                - centerY) ^ 2)
          = Real.sqrt
            ((pointAt (MouseGraphic.blockCorners g pixelWidth pixelHeight blockX blockY) i).x ^ 2
            + (pointAt (MouseGraphic.blockCorners g pixelWidth pixelHeight blockX blockY) i).y
                ^ 2)) := by
  constructor
  · intro x y hx hy hvis
    refine ⟨mouse_pixelQuad_emitted Real.cos Real.sin g buffer centerX centerY pixelWidth
      pixelHeight θ x y hx hy hvis, fun i hi => ?_⟩
    exact mouse_worldCorners_dist θ centerX centerY _ i
      (by simpa [MouseGraphic.pixelCorners] using hi)
  · rintro blockX blockY hbx hbx4 hby hby4 ⟨x, y, hx1, hx2, hx3, hy1, hy2, hy3, ha⟩
    refine ⟨mouse_blockQuad_emitted Real.cos Real.sin g buffer centerX centerY pixelWidth
      pixelHeight θ blockX blockY hbx hbx4 hby hby4
      (visibleSamples_ne_nil g blockX blockY x y hx1 hx2 hx3 hy1 hy2 hy3 ha), fun i hi => ?_⟩
    exact mouse_worldCorners_dist θ centerX centerY _ i
      (by simpa [MouseGraphic.blockCorners] using hi)

/-! ## Colors of the emitted vertices -/

section Colors

variable {K : Type} [Field K]

theorem mouse_drawPixel_eq_pixelQuad (cos sin : K → K) (g : MouseGraphic K)
    (cx cy pw ph rot : K) (y x : Nat) :
    MouseGraphic.drawPixel cos sin g cx cy pw ph rot y [] x
      = if qAlpha (g.m_image.pixel x y) = 0 then []
        else pixelQuad cos sin g cx cy pw ph rot x y := by
  unfold MouseGraphic.drawPixel pixelQuad
  by_cases h : qAlpha (g.m_image.pixel x y) = 0 <;> simp [h]

/-- Every vertex appended by the rotated per-pixel mode carries the sample of a visible
pixel of the image. -/
theorem mouse_drawAllPixels_vertex (cos sin : K → K) (g : MouseGraphic K)
    (cx cy pw ph rot : K) (t : TriangleGraphic K)
    (ht : t ∈ (List.range g.m_imageHeight).flatMap fun y =>
      (List.range g.m_imageWidth).flatMap fun x =>
        MouseGraphic.drawPixel cos sin g cx cy pw ph rot y [] x)
    (v : VertexGraphic K) (hv : v ∈ t.vertices) :
    ∃ x y, x < g.m_imageWidth ∧ y < g.m_imageHeight ∧ qAlpha (g.m_image.pixel x y) ≠ 0
      ∧ v.rgb = ⟨qRed (g.m_image.pixel x y), qGreen (g.m_image.pixel x y),
          qBlue (g.m_image.pixel x y)⟩
      ∧ v.a = qAlpha (g.m_image.pixel x y) := by
  simp only [List.mem_flatMap, List.mem_range] at ht
  obtain ⟨y, hy, x, hx, hmem⟩ := ht
  rw [mouse_drawPixel_eq_pixelQuad] at hmem
  by_cases h : qAlpha (g.m_image.pixel x y) = 0
  · simp [h] at hmem
  · refine ⟨x, y, hx, hy, h, ?_⟩
    simp only [h, if_false, pixelQuad, List.mem_cons, List.mem_singleton, List.not_mem_nil,
      or_false] at hmem
    rcases hmem with rfl | rfl <;>
      · simp only [TriangleGraphic.vertices, MouseGraphic.createTriangle, List.mem_cons,
          List.mem_singleton, List.not_mem_nil, or_false] at hv
        rcases hv with rfl | rfl | rfl <;> exact ⟨rfl, rfl⟩

/-- Every vertex appended by the unrotated per-pixel mode carries the sample of a visible
pixel of the image. -/
theorem cheese_drawAllPixels_vertex (g : CheeseGraphic K)
    (cx cy pw ph : K) (t : TriangleGraphic K)
    (ht : t ∈ (List.range g.m_imageHeight).flatMap fun y =>
      (List.range g.m_imageWidth).flatMap fun x =>
        CheeseGraphic.drawPixel g cx cy pw ph y [] x)
    (v : VertexGraphic K) (hv : v ∈ t.vertices) :
    ∃ x y, x < g.m_imageWidth ∧ y < g.m_imageHeight ∧ qAlpha (g.m_image.pixel x y) ≠ 0
      ∧ v.rgb = ⟨qRed (g.m_image.pixel x y), qGreen (g.m_image.pixel x y),
          qBlue (g.m_image.pixel x y)⟩
      ∧ v.a = qAlpha (g.m_image.pixel x y) := by
  simp only [List.mem_flatMap, List.mem_range] at ht
  obtain ⟨y, hy, x, hx, hmem⟩ := ht
  unfold CheeseGraphic.drawPixel at hmem
  by_cases h : qAlpha (g.m_image.pixel x y) = 0
  · simp [h] at hmem
  · refine ⟨x, y, hx, hy, h, ?_⟩
    simp only [h, if_false, List.nil_append, List.cons_append, List.mem_cons,
      List.mem_singleton, List.not_mem_nil, or_false] at hmem
    rcases hmem with rfl | rfl <;>
      · simp only [TriangleGraphic.vertices, CheeseGraphic.createTriangle, List.mem_cons,
          List.mem_singleton, List.not_mem_nil, or_false] at hv
        rcases hv with rfl | rfl | rfl <;> exact ⟨rfl, rfl⟩

/-- Every vertex appended by block-averaging mode carries the truncated means of the visible
samples of a block that has at least one. -/
theorem mouse_drawOptimized_vertex (cos sin : K → K) (g : MouseGraphic K)
    (cx cy pw ph rot : K) (t : TriangleGraphic K)
    (ht : t ∈ (blockStarts g.m_imageHeight).flatMap fun blockY =>
      (blockStarts g.m_imageWidth).flatMap fun blockX =>
        MouseGraphic.drawBlock cos sin g cx cy pw ph rot blockY [] blockX)
    (v : VertexGraphic K) (hv : v ∈ t.vertices) :
    ∃ blockX blockY, blockX < g.m_imageWidth ∧ blockX % 4 = 0
      ∧ blockY < g.m_imageHeight ∧ blockY % 4 = 0
      ∧ visibleSamples g blockX blockY ≠ []
      ∧ v.rgb = ⟨Int.tdiv ((visibleSamples g blockX blockY).map qRed).sum
            (visibleSamples g blockX blockY).length,
          Int.tdiv ((visibleSamples g blockX blockY).map qGreen).sum
            (visibleSamples g blockX blockY).length,
          Int.tdiv ((visibleSamples g blockX blockY).map qBlue).sum
            (visibleSamples g blockX blockY).length⟩
      ∧ v.a = Int.tdiv ((visibleSamples g blockX blockY).map qAlpha).sum
            (visibleSamples g blockX blockY).length := by
  simp only [List.mem_flatMap] at ht
  obtain ⟨blockY, hy, blockX, hx, hmem⟩ := ht
  rw [mouse_drawBlock_eq] at hmem
  rw [mem_blockStarts] at hx hy
  by_cases h : visibleSamples g blockX blockY = []
  · simp [h] at hmem
  · refine ⟨blockX, blockY, hx.1, hx.2, hy.1, hy.2, h, ?_⟩
    simp only [h, if_false, blockQuad, List.mem_cons, List.mem_singleton, List.not_mem_nil,
      or_false] at hmem
    rcases hmem with rfl | rfl <;>
      · simp only [TriangleGraphic.vertices, MouseGraphic.createTriangle, List.mem_cons,
          List.mem_singleton, List.not_mem_nil, or_false] at hv
        rcases hv with rfl | rfl | rfl <;> exact ⟨rfl, rfl⟩

end Colors

/-! ## Block-averaging mode on uniform and on opaque images -/

theorem sum_map_of_forall_eq (f : QRgb → Int) (c : QRgb) (ps : List QRgb)
    (h : ∀ p ∈ ps, p = c) : (ps.map f).sum = (ps.length : Int) * f c := by
  induction ps with
  | nil => simp
  | cons p ps ih =>
    have hp : p = c := h p (List.mem_cons_self _ _)
    have ih2 := ih fun q hq => h q (List.mem_cons_of_mem _ hq)
    simp only [List.map_cons, List.sum_cons, List.length_cons, ih2, hp, Nat.cast_add,
      Nat.cast_one]
    ring

theorem tdiv_sum_of_forall_eq (f : QRgb → Int) (c : QRgb) (ps : List QRgb)
    (h : ∀ p ∈ ps, p = c) (hne : ps ≠ []) :
    Int.tdiv (ps.map f).sum ps.length = f c := by
  rw [sum_map_of_forall_eq f c ps h]
  refine Int.mul_tdiv_cancel_left _ ?_
  have : 0 < ps.length := List.length_pos.2 hne
  omega

theorem length_flatMap_const {α β : Type} (q : α → List β) (c : Nat) (l : List α)
    (h : ∀ a ∈ l, (q a).length = c) : (l.flatMap q).length = c * l.length := by
  induction l with
  | nil => simp
  | cons a l ih =>
    rw [List.flatMap_cons, List.length_append, h a (List.mem_cons_self _ _),
      ih fun b hb => h b (List.mem_cons_of_mem _ hb), List.length_cons]
    ring

theorem ceil_div_four (n : Nat) : ⌈(n : ℚ) / 4⌉₊ = (n + 3) / 4 := by
  apply le_antisymm
  · rw [Nat.ceil_le]
    have h : n ≤ 4 * ((n + 3) / 4) := by omega
    have h2 : (n : ℚ) ≤ 4 * (((n + 3) / 4 : Nat) : ℚ) := by exact_mod_cast h
    linarith
  · have h : (n : ℚ) / 4 ≤ (⌈(n : ℚ) / 4⌉₊ : ℚ) := Nat.le_ceil _
    have h2 : (n : ℚ) ≤ ((4 * ⌈(n : ℚ) / 4⌉₊ : Nat) : ℚ) := by
      push_cast
      linarith
    have h3 : n ≤ 4 * ⌈(n : ℚ) / 4⌉₊ := by exact_mod_cast h2
    omega

/-- C6: for an image whose pixels all equal one sample `(r, g, b, a)`, every vertex of
every triangle appended by block-averaging mode carries exactly the color `(r, g, b)` and
the alpha `a`, as does every vertex appended by per-pixel mode, for every image size (so
also for the clipped blocks at the right and bottom edges).  The claim's `a > 0` is not
needed: a block is emitted only when it has a sample with alpha `> 0`. -/
theorem C6_uniform_image_block_color {K : Type} [Field K] (cos sin : K → K)
    (g : MouseGraphic K) (buffer : List (TriangleGraphic K))
    (centerX centerY pixelWidth pixelHeight rotationRad : K) (r gr b a : Int)
    (huni : ∀ x y, x < g.m_imageWidth → y < g.m_imageHeight →
      g.m_image.pixel x y = ⟨r, gr, b, a⟩) :
    (∃ new, MouseGraphic.drawOptimized cos sin g buffer centerX centerY pixelWidth pixelHeight
          rotationRad = buffer ++ new
        ∧ ∀ t ∈ new, ∀ v ∈ t.vertices, v.rgb = ⟨r, gr, b⟩ ∧ v.a = a)
    ∧ (∃ new, MouseGraphic.drawAllPixels cos sin g buffer centerX centerY pixelWidth pixelHeight
          rotationRad = buffer ++ new
        ∧ ∀ t ∈ new, ∀ v ∈ t.vertices, v.rgb = ⟨r, gr, b⟩ ∧ v.a = a) := by
  constructor
  · refine ⟨_, mouse_drawOptimized_eq cos sin g buffer _ _ _ _ _, fun t ht v hv => ?_⟩
    obtain ⟨blockX, blockY, -, -, -, -, hne, hrgb, hal⟩ :=
      mouse_drawOptimized_vertex cos sin g _ _ _ _ _ t ht v hv
    have hall : ∀ p ∈ visibleSamples g blockX blockY, p = (⟨r, gr, b, a⟩ : QRgb) := by
      intro p hp
      obtain ⟨x, y, -, -, hx, -, -, hy, rfl, -⟩ := (mem_visibleSamples g blockX blockY p).1 hp
      exact huni x y hx hy
    rw [hrgb, hal, tdiv_sum_of_forall_eq qRed _ _ hall hne,
      tdiv_sum_of_forall_eq qGreen _ _ hall hne, tdiv_sum_of_forall_eq qBlue _ _ hall hne,
      tdiv_sum_of_forall_eq qAlpha _ _ hall hne]
    exact ⟨rfl, rfl⟩
  · refine ⟨_, mouse_drawAllPixels_eq cos sin g buffer _ _ _ _ _, fun t ht v hv => ?_⟩
    obtain ⟨x, y, hx, hy, -, hrgb, hal⟩ :=
      mouse_drawAllPixels_vertex cos sin g _ _ _ _ _ t ht v hv
    rw [hrgb, hal, huni x y hx hy]
    exact ⟨rfl, rfl⟩

/-- C7: for a fully opaque image of size `W × H` (every pixel has alpha `255`),
block-averaging mode with blocks of `4 × 4` pixels appends exactly
`2 * ceil (W / 4) * ceil (H / 4)` triangles. -/
theorem C7_opaque_block_count {K : Type} [Field K] (cos sin : K → K)
    (g : MouseGraphic K) (buffer : List (TriangleGraphic K))
    (centerX centerY pixelWidth pixelHeight rotationRad : K)
    (hop : ∀ x y, x < g.m_imageWidth → y < g.m_imageHeight →
      qAlpha (g.m_image.pixel x y) = 255) :
    ∃ new, MouseGraphic.drawOptimized cos sin g buffer centerX centerY pixelWidth pixelHeight
          rotationRad = buffer ++ new
      ∧ new.length = 2 * ⌈(g.m_imageWidth : ℚ) / 4⌉₊ * ⌈(g.m_imageHeight : ℚ) / 4⌉₊ := by
  refine ⟨_, mouse_drawOptimized_eq cos sin g buffer _ _ _ _ _, ?_⟩
  have hrow : ∀ blockY ∈ blockStarts g.m_imageHeight,
      ((blockStarts g.m_imageWidth).flatMap fun blockX =>
        MouseGraphic.drawBlock cos sin g centerX centerY pixelWidth pixelHeight rotationRad
          blockY [] blockX).length = 2 * ((g.m_imageWidth + 3) / 4) := by
    intro blockY hy
    rw [length_flatMap_const _ 2, length_blockStarts]
    intro blockX hx
    rw [mem_blockStarts] at hx hy
    have hne : visibleSamples g blockX blockY ≠ [] :=
      visibleSamples_ne_nil g blockX blockY blockX blockY (le_refl _)
        (by simp [BLOCK_SIZE]) hx.1 (le_refl _) (by simp [BLOCK_SIZE]) hy.1
        (by rw [hop blockX blockY hx.1 hy.1]; decide)
    rw [mouse_drawBlock_eq, if_neg hne]
    rfl
  rw [length_flatMap_const _ _ _ hrow, length_blockStarts, ceil_div_four, ceil_div_four]

/-- Witness of C6: the uniform `5 × 6` example image (clipped blocks on both edges). -/
theorem C6_uniform_image_block_color_witness :
    (∀ x y, x < uniformMouseGraphic.m_imageWidth → y < uniformMouseGraphic.m_imageHeight →
      uniformMouseGraphic.m_image.pixel x y = ⟨10, 20, 30, 200⟩)
    ∧ (∃ new, MouseGraphic.drawOptimized cosAtZero sinAtZero uniformMouseGraphic [] 0 0 1 1 0
          = [] ++ new
        ∧ ∀ t ∈ new, ∀ v ∈ t.vertices, v.rgb = ⟨10, 20, 30⟩ ∧ v.a = 200)
    ∧ (∃ new, MouseGraphic.drawAllPixels cosAtZero sinAtZero uniformMouseGraphic [] 0 0 1 1 0
          = [] ++ new
        ∧ ∀ t ∈ new, ∀ v ∈ t.vertices, v.rgb = ⟨10, 20, 30⟩ ∧ v.a = 200) :=
  have h : ∀ x y, x < uniformMouseGraphic.m_imageWidth → y < uniformMouseGraphic.m_imageHeight →
      uniformMouseGraphic.m_image.pixel x y = ⟨10, 20, 30, 200⟩ := by
    intro x y hx hy
    have hx5 : x < 5 := hx
    have hy6 : y < 6 := hy
    simp [uniformMouseGraphic, MouseGraphic.new, QImage.isNull, QImage.pixel, uniformImage,
      hx5, hy6]
  ⟨h, C6_uniform_image_block_color cosAtZero sinAtZero uniformMouseGraphic [] 0 0 1 1 0
    10 20 30 200 h⟩

/-- Witness of C7: the opaque `5 × 6` gradient image gives `2 * 2 * 2` triangles. -/
theorem C7_opaque_block_count_witness :
    (∀ x y, x < gradientMouseGraphic.m_imageWidth → y < gradientMouseGraphic.m_imageHeight →
      qAlpha (gradientMouseGraphic.m_image.pixel x y) = 255)
    ∧ ∃ new, MouseGraphic.drawOptimized cosAtZero sinAtZero gradientMouseGraphic [] 0 0 1 1 0
          = [] ++ new
      ∧ new.length = 2 * ⌈(gradientMouseGraphic.m_imageWidth : ℚ) / 4⌉₊
          * ⌈(gradientMouseGraphic.m_imageHeight : ℚ) / 4⌉₊ :=
  have h : ∀ x y, x < gradientMouseGraphic.m_imageWidth →
      y < gradientMouseGraphic.m_imageHeight →
      qAlpha (gradientMouseGraphic.m_image.pixel x y) = 255 := by
    intro x y hx hy
    have hx5 : x < 5 := hx
    have hy6 : y < 6 := hy
    simp [gradientMouseGraphic, MouseGraphic.new, QImage.isNull, QImage.pixel, gradientImage,
      qAlpha, hx5, hy6]
  ⟨h, C7_opaque_block_count cosAtZero sinAtZero gradientMouseGraphic [] 0 0 1 1 0 h⟩

/-! ## The draw entry points -/

theorem card_visiblePixels_ne_zero_iff (img : QImage) (W H : Nat) :
    (visiblePixels img W H).card ≠ 0
      ↔ ∃ x y, x < W ∧ y < H ∧ qAlpha (img.pixel x y) ≠ 0 := by
  rw [Finset.card_ne_zero]
  unfold visiblePixels
  constructor
  · rintro ⟨p, hp⟩
    rw [Finset.mem_filter, Finset.mem_product, Finset.mem_range, Finset.mem_range] at hp
    exact ⟨p.1, p.2, hp.1.1, hp.1.2, hp.2⟩
  · rintro ⟨x, y, hx, hy, ha⟩
    refine ⟨(x, y), ?_⟩
    rw [Finset.mem_filter, Finset.mem_product, Finset.mem_range, Finset.mem_range]
    exact ⟨⟨hx, hy⟩, ha⟩

theorem ne_nil_iff_length_ne_zero {α : Type} (l : List α) : l ≠ [] ↔ l.length ≠ 0 := by
  cases l <;> simp

/-- Counterexample to C8: a loaded image whose pixels are all transparent gives an empty
sequence in both draw calls, and so does a loaded image when the body polygon of the mouse
has no vertex. -/
theorem C8_draw_may_return_empty :
    transparentCheese.m_imageLoaded = true
    ∧ CheeseGraphic.draw transparentCheese = []
    ∧ transparentMouseGraphic.m_imageLoaded = true
    ∧ MouseGraphic.draw cosAtZero sinAtZero piApprox samplePolygonToTriangleGraphics
        transparentMouseGraphic = []
    ∧ bodilessMouseGraphic.m_imageLoaded = true
    ∧ MouseGraphic.draw cosAtZero sinAtZero piApprox samplePolygonToTriangleGraphics
        bodilessMouseGraphic = [] := by
  refine ⟨rfl, ?_, rfl, ?_, rfl, ?_⟩
  · exact List.eq_nil_of_length_eq_zero (by decide)
  · exact List.eq_nil_of_length_eq_zero (by decide)
  · exact List.eq_nil_of_length_eq_zero (by decide)

/-- C8, amended: the cheese draw call returns exactly two triangles when the image failed
to load and, when the image loaded, a non-empty sequence exactly when some pixel of the
image has alpha other than `0`; the mouse draw call returns, when the image failed to
load, exactly the triangles `polygonToTriangleGraphics` gives for the body polygon and,
when the image loaded, a non-empty sequence exactly when the body polygon has a vertex
and some pixel of the image has alpha other than `0`. -/
theorem C8_draw_nonempty_iff {K : Type} [Field K] (cos sin : K → K) (pi : K)
    (polygonToTriangleGraphics : Polygon K → Color → Int → List (TriangleGraphic K))
    (gc : CheeseGraphic K) (gm : MouseGraphic K) :
    (gc.m_imageLoaded = false → (CheeseGraphic.draw gc).length = 2)
    ∧ (gc.m_imageLoaded = true →
        (CheeseGraphic.draw gc ≠ []
          ↔ ∃ x y, x < gc.m_imageWidth ∧ y < gc.m_imageHeight
              ∧ qAlpha (gc.m_image.pixel x y) ≠ 0))
    ∧ (gm.m_imageLoaded = false →
        MouseGraphic.draw cos sin pi polygonToTriangleGraphics gm
          = polygonToTriangleGraphics gm.m_mouse.getCurrentBodyPolygon Color.GRAY 255)
    ∧ (gm.m_imageLoaded = true →
        (MouseGraphic.draw cos sin pi polygonToTriangleGraphics gm ≠ []
          ↔ gm.m_mouse.getCurrentBodyPolygon.getVertices ≠ []
            ∧ ∃ x y, x < gm.m_imageWidth ∧ y < gm.m_imageHeight
                ∧ qAlpha (gm.m_image.pixel x y) ≠ 0)) := by
  refine ⟨fun h => ?_, fun h => ?_, fun h => ?_, fun h => ?_⟩
  · simp [CheeseGraphic.draw, h]
  · have hd : CheeseGraphic.draw gc = CheeseGraphic.drawAllPixels gc [] gc.m_position.x
        gc.m_position.y (0.005 * gc.m_scale) (0.005 * gc.m_scale) := by
      simp [CheeseGraphic.draw, h]
    rw [hd, ne_nil_iff_length_ne_zero, cheese_length_drawAllPixels,
      ← card_visiblePixels_ne_zero_iff]
    simp
  · simp [MouseGraphic.draw, h]
  · by_cases hv : gm.m_mouse.getCurrentBodyPolygon.getVertices = []
    · simp [MouseGraphic.draw, h, hv]
    · have hd : MouseGraphic.draw cos sin pi polygonToTriangleGraphics gm
          = MouseGraphic.drawAllPixels cos sin gm []
              ((gm.m_mouse.getCurrentBodyPolygon.getVertices.foldl
                  (fun (c : K × K) v => (c.1 + v.x, c.2 + v.y)) ((0 : K), (0 : K))).1
                / (gm.m_mouse.getCurrentBodyPolygon.getVertices.length : K))
              ((gm.m_mouse.getCurrentBodyPolygon.getVertices.foldl
                  (fun (c : K × K) v => (c.1 + v.x, c.2 + v.y)) ((0 : K), (0 : K))).2
                / (gm.m_mouse.getCurrentBodyPolygon.getVertices.length : K))
              0.008 0.008
              (qDegreesToRadians pi
                (MouseGraphic.rotationDeg gm.m_mouse.getCurrentDiscretizedRotation)) := by
        simp [MouseGraphic.draw, h, hv]
      rw [hd, ne_nil_iff_length_ne_zero, mouse_length_drawAllPixels,
        ← card_visiblePixels_ne_zero_iff]
      simp [hv]

/-! ## Channel ranges -/

theorem sum_map_bounds (f : QRgb → Int) (ps : List QRgb)
    (h : ∀ p ∈ ps, channelInRange (f p)) :
    0 ≤ (ps.map f).sum ∧ (ps.map f).sum ≤ 255 * (ps.length : Int) := by
  induction ps with
  | nil => simp
  | cons p ps ih =>
    have hp := h p (List.mem_cons_self _ _)
    have ih2 := ih fun q hq => h q (List.mem_cons_of_mem _ hq)
    simp only [List.map_cons, List.sum_cons, List.length_cons, Nat.cast_add, Nat.cast_one]
    constructor
    · linarith [hp.1, ih2.1]
    · linarith [hp.2, ih2.2]

theorem tdiv_mean_inRange (f : QRgb → Int) (ps : List QRgb)
    (h : ∀ p ∈ ps, channelInRange (f p)) (hne : ps ≠ []) :
    channelInRange (Int.tdiv (ps.map f).sum ps.length) := by
  have hb := sum_map_bounds f ps h
  have hlen : (0 : Int) < (ps.length : Int) := by
    have : 0 < ps.length := List.length_pos.2 hne
    omega
  rw [Int.tdiv_eq_ediv hb.1 (le_of_lt hlen)]
  exact ⟨Int.ediv_nonneg hb.1 (le_of_lt hlen), Int.ediv_le_of_le_mul hlen hb.2⟩

/-- C10: assuming every sampled pixel channel (R, G, B, A) is in `[0, 255]`, every vertex of
every triangle appended by per-pixel mode (mouse and cheese), by block-averaging mode, and
emitted by the cheese fallback has its alpha and each color channel within `[0, 255]`. -/
theorem C10_emitted_channels_in_range {K : Type} [Field K] (cos sin : K → K)
    (gm : MouseGraphic K) (gc : CheeseGraphic K) (buffer : List (TriangleGraphic K))
    (centerX centerY pixelWidth pixelHeight rotationRad : K)
    (hm : ∀ x y, x < gm.m_imageWidth → y < gm.m_imageHeight → (gm.m_image.pixel x y).inRange)
    (hc : ∀ x y, x < gc.m_imageWidth → y < gc.m_imageHeight → (gc.m_image.pixel x y).inRange) :
    (∃ new, MouseGraphic.drawAllPixels cos sin gm buffer centerX centerY pixelWidth pixelHeight
          rotationRad = buffer ++ new
        ∧ ∀ t ∈ new, ∀ v ∈ t.vertices, v.inRange)
    ∧ (∃ new, CheeseGraphic.drawAllPixels gc buffer centerX centerY pixelWidth pixelHeight
          = buffer ++ new
        ∧ ∀ t ∈ new, ∀ v ∈ t.vertices, v.inRange)
    ∧ (∃ new, MouseGraphic.drawOptimized cos sin gm buffer centerX centerY pixelWidth
          pixelHeight rotationRad = buffer ++ new
        ∧ ∀ t ∈ new, ∀ v ∈ t.vertices, v.inRange)
    ∧ (∀ t ∈ CheeseGraphic.draw { gc with m_imageLoaded := false },
        ∀ v ∈ t.vertices, v.inRange) := by
  refine ⟨?_, ?_, ?_, ?_⟩
  · refine ⟨_, mouse_drawAllPixels_eq cos sin gm buffer _ _ _ _ _, fun t ht v hv => ?_⟩
    obtain ⟨x, y, hx, hy, -, hrgb, hal⟩ :=
      mouse_drawAllPixels_vertex cos sin gm _ _ _ _ _ t ht v hv
    obtain ⟨h1, h2, h3, h4⟩ := hm x y hx hy
    simp only [VertexGraphic.inRange, hrgb, hal]
    exact ⟨h4, h1, h2, h3⟩
  · refine ⟨_, cheese_drawAllPixels_eq gc buffer _ _ _ _, fun t ht v hv => ?_⟩
    obtain ⟨x, y, hx, hy, -, hrgb, hal⟩ :=
      cheese_drawAllPixels_vertex gc _ _ _ _ t ht v hv
    obtain ⟨h1, h2, h3, h4⟩ := hc x y hx hy
    simp only [VertexGraphic.inRange, hrgb, hal]
    exact ⟨h4, h1, h2, h3⟩
  · refine ⟨_, mouse_drawOptimized_eq cos sin gm buffer _ _ _ _ _, fun t ht v hv => ?_⟩
    obtain ⟨blockX, blockY, -, -, -, -, hne, hrgb, hal⟩ :=
      mouse_drawOptimized_vertex cos sin gm _ _ _ _ _ t ht v hv
    have hall : ∀ p ∈ visibleSamples gm blockX blockY, p.inRange := by
      intro p hp
      obtain ⟨x, y, -, -, hx, -, -, hy, rfl, -⟩ := (mem_visibleSamples gm blockX blockY p).1 hp
      exact hm x y hx hy
    simp only [VertexGraphic.inRange, hrgb, hal]
    exact ⟨tdiv_mean_inRange qAlpha _ (fun p hp => (hall p hp).2.2.2) hne,
      tdiv_mean_inRange qRed _ (fun p hp => (hall p hp).1) hne,
      tdiv_mean_inRange qGreen _ (fun p hp => (hall p hp).2.1) hne,
      tdiv_mean_inRange qBlue _ (fun p hp => (hall p hp).2.2.1) hne⟩
  · intro t ht v hv
    simp only [CheeseGraphic.draw, Bool.not_false, if_true, List.nil_append, List.cons_append,
      List.mem_cons, List.mem_singleton, List.not_mem_nil, or_false] at ht
    rcases ht with rfl | rfl <;>
      · simp only [TriangleGraphic.vertices, CheeseGraphic.createTriangle, List.mem_cons,
          List.mem_singleton, List.not_mem_nil, or_false] at hv
        rcases hv with rfl | rfl | rfl <;>
          simp [VertexGraphic.inRange, channelInRange]

/-- Witness of C10: the gradient image for the mouse and the opaque image for the cheese,
whose channels all lie in `[0, 255]`. -/
theorem C10_emitted_channels_in_range_witness :
    ((∀ x y, x < gradientMouseGraphic.m_imageWidth → y < gradientMouseGraphic.m_imageHeight →
        (gradientMouseGraphic.m_image.pixel x y).inRange)
      ∧ (∀ x y, x < sampleCheese.m_imageWidth → y < sampleCheese.m_imageHeight →
        (sampleCheese.m_image.pixel x y).inRange))
    ∧ ((∃ new, MouseGraphic.drawAllPixels cosAtZero sinAtZero gradientMouseGraphic [] 0 0 1 1 0
          = [] ++ new
        ∧ ∀ t ∈ new, ∀ v ∈ t.vertices, v.inRange)
      ∧ (∃ new, CheeseGraphic.drawAllPixels sampleCheese [] 0 0 1 1 = [] ++ new
        ∧ ∀ t ∈ new, ∀ v ∈ t.vertices, v.inRange)
      ∧ (∃ new, MouseGraphic.drawOptimized cosAtZero sinAtZero gradientMouseGraphic [] 0 0 1 1 0
          = [] ++ new
        ∧ ∀ t ∈ new, ∀ v ∈ t.vertices, v.inRange)
      ∧ (∀ t ∈ CheeseGraphic.draw { sampleCheese with m_imageLoaded := false },
          ∀ v ∈ t.vertices, v.inRange)) :=
  have hm : ∀ x y, x < gradientMouseGraphic.m_imageWidth →
      y < gradientMouseGraphic.m_imageHeight →
      (gradientMouseGraphic.m_image.pixel x y).inRange := by
    intro x y hx hy
    have hx5 : x < 5 := hx
    have hy6 : y < 6 := hy
    simp [gradientMouseGraphic, MouseGraphic.new, QImage.isNull, QImage.pixel,
      gradientImage, QRgb.inRange, channelInRange, qRed, qGreen, qBlue, qAlpha, hx5, hy6]
    omega
  have hc : ∀ x y, x < sampleCheese.m_imageWidth → y < sampleCheese.m_imageHeight →
      (sampleCheese.m_image.pixel x y).inRange := by
    intro x y hx hy
    have hx2 : x < 2 := hx
    have hy3 : y < 3 := hy
    simp [sampleCheese, CheeseGraphic.new, QImage.isNull, QImage.pixel, opaqueImage,
      QRgb.inRange, channelInRange, qRed, qGreen, qBlue, qAlpha, hx2, hy3]
  ⟨⟨hm, hc⟩, C10_emitted_channels_in_range cosAtZero sinAtZero gradientMouseGraphic
    sampleCheese [] 0 0 1 1 0 hm hc⟩

/-! ## Instances at concrete inputs -/

/-- Instance of C1: the fully transparent `2 × 2` example image gives no triangle in the
rotated per-pixel mode. -/
theorem C1_perPixel_appends_two_per_visible_pixel_witness :
    (∀ x y, x < transparentMouseGraphic.m_imageWidth →
        y < transparentMouseGraphic.m_imageHeight →
        qAlpha (transparentMouseGraphic.m_image.pixel x y) = 0)
    ∧ MouseGraphic.drawAllPixels cosAtZero sinAtZero transparentMouseGraphic [] 0 0 1 1 0
        = [] :=
  have h : ∀ x y, x < transparentMouseGraphic.m_imageWidth →
      y < transparentMouseGraphic.m_imageHeight →
      qAlpha (transparentMouseGraphic.m_image.pixel x y) = 0 := by
    intro x y hx hy
    have hx2 : x < 2 := hx
    have hy2 : y < 2 := hy
    simp [transparentMouseGraphic, MouseGraphic.new, QImage.isNull, QImage.pixel,
      transparentImage, qAlpha, hx2, hy2]
  ⟨h, by
    obtain ⟨new, h1, -, h3⟩ :=
      (C1_perPixel_appends_two_per_visible_pixel cosAtZero sinAtZero transparentMouseGraphic
        transparentCheese [] 0 0 1 1 0).1
    rw [h1, h3 h]
    rfl⟩

/-- Instance of C5: pixel `(1, 2)` and block `(0, 0)` of the opaque `2 × 3` example image,
rotated by a quarter of `π` around `(10, 20)`. -/
theorem C5_rotation_preserves_center_distance_witness :
    (pixelQuad Real.cos Real.sin realMouseGraphic 10 20 1 1 (Real.pi / 4) 1 2
        <:+: MouseGraphic.drawAllPixels Real.cos Real.sin realMouseGraphic [] 10 20 1 1
          (Real.pi / 4)
      ∧ ∀ i, i < 4 →
        Real.sqrt (((cornerAt (MouseGraphic.worldCorners Real.cos Real.sin (Real.pi / 4) 10 20
              (MouseGraphic.pixelCorners realMouseGraphic 1 1 1 2)) i).x - 10) ^ 2
            + ((cornerAt (MouseGraphic.worldCorners Real.cos Real.sin (Real.pi / 4) 10 20
              (MouseGraphic.pixelCorners realMouseGraphic 1 1 1 2)) i).y - 20) ^ 2)
          = Real.sqrt ((pointAt (MouseGraphic.pixelCorners realMouseGraphic 1 1 1 2) i).x ^ 2
            + (pointAt (MouseGraphic.pixelCorners realMouseGraphic 1 1 1 2) i).y ^ 2))
    ∧ (blockQuad Real.cos Real.sin realMouseGraphic 10 20 1 1 (Real.pi / 4) 0 0
          (visibleSamples realMouseGraphic 0 0)
        <:+: MouseGraphic.drawOptimized Real.cos Real.sin realMouseGraphic [] 10 20 1 1
          (Real.pi / 4)
      ∧ ∀ i, i < 4 →
        Real.sqrt (((cornerAt (MouseGraphic.worldCorners Real.cos Real.sin (Real.pi / 4) 10 20
              (MouseGraphic.blockCorners realMouseGraphic 1 1 0 0)) i).x - 10) ^ 2
            + ((cornerAt (MouseGraphic.worldCorners Real.cos Real.sin (Real.pi / 4) 10 20
              (MouseGraphic.blockCorners realMouseGraphic 1 1 0 0)) i).y - 20) ^ 2)
          = Real.sqrt ((pointAt (MouseGraphic.blockCorners realMouseGraphic 1 1 0 0) i).x ^ 2
            + (pointAt (MouseGraphic.blockCorners realMouseGraphic 1 1 0 0) i).y ^ 2)) :=
  ⟨(C5_rotation_preserves_center_distance realMouseGraphic [] 10 20 1 1 (Real.pi / 4)).1 1 2
      (by decide) (by decide) (by decide),
    (C5_rotation_preserves_center_distance realMouseGraphic [] 10 20 1 1 (Real.pi / 4)).2 0 0
      (by decide) (by decide) (by decide) (by decide)
      ⟨0, 0, by decide, by decide, by decide, by decide, by decide, by decide, by decide⟩⟩

/-- Instance of C8, amended: the cheese and the mouse with the opaque example image draw a
non-empty sequence, and the cheese whose icon failed to load draws two triangles. -/
theorem C8_draw_nonempty_iff_witness :
    (CheeseGraphic.draw unloadedCheese).length = 2
    ∧ CheeseGraphic.draw sampleCheese ≠ []
    ∧ MouseGraphic.draw cosAtZero sinAtZero piApprox samplePolygonToTriangleGraphics
        sampleMouseGraphic ≠ [] :=
  ⟨(C8_draw_nonempty_iff cosAtZero sinAtZero piApprox samplePolygonToTriangleGraphics
      unloadedCheese sampleMouseGraphic).1 rfl,
    ((C8_draw_nonempty_iff cosAtZero sinAtZero piApprox samplePolygonToTriangleGraphics
      sampleCheese sampleMouseGraphic).2.1 rfl).2
      ⟨0, 0, by decide, by decide, by decide⟩,
    ((C8_draw_nonempty_iff cosAtZero sinAtZero piApprox samplePolygonToTriangleGraphics
      sampleCheese sampleMouseGraphic).2.2.2 rfl).2
      ⟨List.cons_ne_nil _ _, 0, 0, by decide, by decide, by decide⟩⟩

/-! ## Headings -/

theorem mouse_draw_loaded {K : Type} [Field K] (cos sin : K → K) (pi : K)
    (polygonToTriangleGraphics : Polygon K → Color → Int → List (TriangleGraphic K))
    (g : MouseGraphic K) (hload : g.m_imageLoaded = true)
    (hbody : g.m_mouse.getCurrentBodyPolygon.getVertices ≠ []) :
    MouseGraphic.draw cos sin pi polygonToTriangleGraphics g
      = MouseGraphic.drawAllPixels cos sin g []
          ((g.m_mouse.getCurrentBodyPolygon.getVertices.foldl
              (fun (c : K × K) v => (c.1 + v.x, c.2 + v.y)) ((0 : K), (0 : K))).1
            / (g.m_mouse.getCurrentBodyPolygon.getVertices.length : K))
          ((g.m_mouse.getCurrentBodyPolygon.getVertices.foldl
              (fun (c : K × K) v => (c.1 + v.x, c.2 + v.y)) ((0 : K), (0 : K))).2
            / (g.m_mouse.getCurrentBodyPolygon.getVertices.length : K))
          0.008 0.008
          (MouseGraphic.rotationDeg g.m_mouse.getCurrentDiscretizedRotation * (pi / 180)) := by
  simp only [MouseGraphic.draw, hload, Bool.not_true, Bool.false_eq_true, if_false,
    List.isEmpty_iff, hbody, qDegreesToRadians]

/-- C11: the draw call of the mouse maps the eight headings to the fixed angles, in degrees,
`EAST = 0`, `NORTHEAST = 45`, `NORTH = 90`, `NORTHWEST = 135`, `WEST = 180`,
`SOUTHWEST = 225`, `SOUTH = 270`, `SOUTHEAST = 315`; the mapping is injective, every angle
is a multiple of `45` in `[0, 360)`, and for a loaded image and a body polygon with a
vertex the angle handed to the rasterizer is that value times `pi / 180`. -/
theorem C11_heading_rotation_angles {K : Type} [LinearOrderedField K] (cos sin : K → K)
    (pi : K)
    (polygonToTriangleGraphics : Polygon K → Color → Int → List (TriangleGraphic K)) :
    ((MouseGraphic.rotationDeg SemiDirection.EAST : K) = 0
      ∧ (MouseGraphic.rotationDeg SemiDirection.NORTHEAST : K) = 45
      ∧ (MouseGraphic.rotationDeg SemiDirection.NORTH : K) = 90
      ∧ (MouseGraphic.rotationDeg SemiDirection.NORTHWEST : K) = 135
      ∧ (MouseGraphic.rotationDeg SemiDirection.WEST : K) = 180
      ∧ (MouseGraphic.rotationDeg SemiDirection.SOUTHWEST : K) = 225
      ∧ (MouseGraphic.rotationDeg SemiDirection.SOUTH : K) = 270
      ∧ (MouseGraphic.rotationDeg SemiDirection.SOUTHEAST : K) = 315)
    ∧ Function.Injective (fun d : SemiDirection => (MouseGraphic.rotationDeg d : K))
    ∧ (∀ d : SemiDirection, ∃ k : Nat, k < 8 ∧ (MouseGraphic.rotationDeg d : K) = 45 * (k : K))
    ∧ (∀ d : SemiDirection, (0 : K) ≤ MouseGraphic.rotationDeg d
        ∧ (MouseGraphic.rotationDeg d : K) < 360)
    ∧ (∀ g : MouseGraphic K, g.m_imageLoaded = true →
        g.m_mouse.getCurrentBodyPolygon.getVertices ≠ [] →
        ∃ centerX centerY pixelWidth pixelHeight,
          MouseGraphic.draw cos sin pi polygonToTriangleGraphics g
            = MouseGraphic.drawAllPixels cos sin g [] centerX centerY pixelWidth pixelHeight
                (MouseGraphic.rotationDeg g.m_mouse.getCurrentDiscretizedRotation * pi / 180)) := by
  refine ⟨⟨rfl, rfl, rfl, rfl, rfl, rfl, rfl, rfl⟩, ?_, ?_, ?_, ?_⟩
  · intro a b h
    cases a <;> cases b <;> first
      | rfl
      | (exfalso
         simp only [MouseGraphic.rotationDeg] at h
         norm_num at h)
  · intro d
    cases d
    · exact ⟨0, by decide, by simp [MouseGraphic.rotationDeg]⟩
    · exact ⟨1, by decide, by simp [MouseGraphic.rotationDeg]⟩
    · exact ⟨2, by decide, by simp only [MouseGraphic.rotationDeg]; norm_num⟩
    · exact ⟨3, by decide, by simp only [MouseGraphic.rotationDeg]; norm_num⟩
    · exact ⟨4, by decide, by simp only [MouseGraphic.rotationDeg]; norm_num⟩
    · exact ⟨5, by decide, by simp only [MouseGraphic.rotationDeg]; norm_num⟩
    · exact ⟨6, by decide, by simp only [MouseGraphic.rotationDeg]; norm_num⟩
    · exact ⟨7, by decide, by simp only [MouseGraphic.rotationDeg]; norm_num⟩
  · intro d
    cases d <;> simp only [MouseGraphic.rotationDeg] <;> norm_num
  · intro g hload hbody
    simp only [mul_div_assoc]
    exact ⟨_, _, _, _, mouse_draw_loaded cos sin pi polygonToTriangleGraphics g hload hbody⟩

/-! ## The draw call of the mouse is per-pixel mode -/

theorem foldl_vertex_sums {K : Type} [Field K] (verts : List (Coordinate K)) :
    ∀ a b : K, verts.foldl (fun (c : K × K) v => (c.1 + v.x, c.2 + v.y)) (a, b)
      = (a + (verts.map fun v => v.x).sum, b + (verts.map fun v => v.y).sum) := by
  induction verts with
  | nil => intro a b; simp
  | cons v vs ih =>
    intro a b
    rw [List.foldl_cons, ih]
    simp only [List.map_cons, List.sum_cons, add_assoc]

/-- C17: the draw call of the mouse never uses block-averaging: for a loaded image and a
body polygon with at least one vertex it returns exactly the output of per-pixel mode on
the empty buffer, with center the arithmetic mean of the vertices of the body polygon,
pixel width and height both `0.008`, and the angle of the current heading in radians. -/
theorem C17_mouse_draw_is_per_pixel {K : Type} [Field K] (cos sin : K → K) (pi : K)
    (polygonToTriangleGraphics : Polygon K → Color → Int → List (TriangleGraphic K))
    (g : MouseGraphic K) (hload : g.m_imageLoaded = true)
    (hbody : g.m_mouse.getCurrentBodyPolygon.getVertices ≠ []) :
    MouseGraphic.draw cos sin pi polygonToTriangleGraphics g
      = MouseGraphic.drawAllPixels cos sin g []
          ((g.m_mouse.getCurrentBodyPolygon.getVertices.map fun v => v.x).sum
            / (g.m_mouse.getCurrentBodyPolygon.getVertices.length : K))
          ((g.m_mouse.getCurrentBodyPolygon.getVertices.map fun v => v.y).sum
            / (g.m_mouse.getCurrentBodyPolygon.getVertices.length : K))
          0.008 0.008
          (MouseGraphic.rotationDeg g.m_mouse.getCurrentDiscretizedRotation * (pi / 180)) := by
  rw [mouse_draw_loaded cos sin pi polygonToTriangleGraphics g hload hbody,
    foldl_vertex_sums]
  simp only [zero_add]

/-- Witness of C17: the mouse with the opaque `2 × 3` example image and a triangular body;
its draw call gives the `12` triangles of per-pixel mode, not the `2` of block mode. -/
theorem C17_mouse_draw_is_per_pixel_witness :
    (sampleMouseGraphic.m_imageLoaded = true
      ∧ sampleMouseGraphic.m_mouse.getCurrentBodyPolygon.getVertices ≠ [])
    ∧ MouseGraphic.draw cosAtZero sinAtZero piApprox samplePolygonToTriangleGraphics
        sampleMouseGraphic
      = MouseGraphic.drawAllPixels cosAtZero sinAtZero sampleMouseGraphic []
          ((sampleMouseGraphic.m_mouse.getCurrentBodyPolygon.getVertices.map fun v => v.x).sum
            / (sampleMouseGraphic.m_mouse.getCurrentBodyPolygon.getVertices.length : ℚ))
          ((sampleMouseGraphic.m_mouse.getCurrentBodyPolygon.getVertices.map fun v => v.y).sum
            / (sampleMouseGraphic.m_mouse.getCurrentBodyPolygon.getVertices.length : ℚ))
          0.008 0.008
          (MouseGraphic.rotationDeg
            sampleMouseGraphic.m_mouse.getCurrentDiscretizedRotation * (piApprox / 180))
    ∧ (MouseGraphic.draw cosAtZero sinAtZero piApprox samplePolygonToTriangleGraphics
        sampleMouseGraphic).length = 12
    ∧ (MouseGraphic.drawOptimized cosAtZero sinAtZero sampleMouseGraphic [] 1 1 0.008 0.008
        0).length = 2 :=
  ⟨⟨rfl, List.cons_ne_nil _ _⟩,
    C17_mouse_draw_is_per_pixel cosAtZero sinAtZero piApprox samplePolygonToTriangleGraphics
      sampleMouseGraphic rfl (List.cons_ne_nil _ _),
    by decide,
    by rw [mouse_drawOptimized_eq]; decide⟩

/-! ## Tiling -/

/-- C18: per-pixel quads tile without gaps or overlap, also under rotation (over an exact
field): for every image, pixel size, center and angle, the top-right and bottom-right world
corners of pixel `(x, y)` are the top-left and bottom-left world corners of pixel
`(x + 1, y)`, and its bottom-left and bottom-right world corners are the top-left and
top-right world corners of pixel `(x, y + 1)`, in the rotated rasterizer of the mouse and
in the unrotated one of the cheese. -/
theorem C18_pixel_quads_tile {K : Type} [Field K] (cos sin : K → K)
    (gm : MouseGraphic K) (gc : CheeseGraphic K)
    (centerX centerY pixelWidth pixelHeight rotationRad : K) (x y : Nat) :
    (cornerAt (MouseGraphic.worldCorners cos sin rotationRad centerX centerY
          (MouseGraphic.pixelCorners gm pixelWidth pixelHeight x y)) 1
        = cornerAt (MouseGraphic.worldCorners cos sin rotationRad centerX centerY
          (MouseGraphic.pixelCorners gm pixelWidth pixelHeight (x + 1) y)) 0
      ∧ cornerAt (MouseGraphic.worldCorners cos sin rotationRad centerX centerY
          (MouseGraphic.pixelCorners gm pixelWidth pixelHeight x y)) 2
        = cornerAt (MouseGraphic.worldCorners cos sin rotationRad centerX centerY
          (MouseGraphic.pixelCorners gm pixelWidth pixelHeight (x + 1) y)) 3
      ∧ cornerAt (MouseGraphic.worldCorners cos sin rotationRad centerX centerY
          (MouseGraphic.pixelCorners gm pixelWidth pixelHeight x y)) 3
        = cornerAt (MouseGraphic.worldCorners cos sin rotationRad centerX centerY
          (MouseGraphic.pixelCorners gm pixelWidth pixelHeight x (y + 1))) 0
      ∧ cornerAt (MouseGraphic.worldCorners cos sin rotationRad centerX centerY
          (MouseGraphic.pixelCorners gm pixelWidth pixelHeight x y)) 2
        = cornerAt (MouseGraphic.worldCorners cos sin rotationRad centerX centerY
          (MouseGraphic.pixelCorners gm pixelWidth pixelHeight x (y + 1))) 1)
    ∧ (cornerAt (CheeseGraphic.worldCorners centerX centerY
          (CheeseGraphic.pixelCorners gc pixelWidth pixelHeight x y)) 1
        = cornerAt (CheeseGraphic.worldCorners centerX centerY
          (CheeseGraphic.pixelCorners gc pixelWidth pixelHeight (x + 1) y)) 0
      ∧ cornerAt (CheeseGraphic.worldCorners centerX centerY
          (CheeseGraphic.pixelCorners gc pixelWidth pixelHeight x y)) 2
        = cornerAt (CheeseGraphic.worldCorners centerX centerY
          (CheeseGraphic.pixelCorners gc pixelWidth pixelHeight (x + 1) y)) 3
      ∧ cornerAt (CheeseGraphic.worldCorners centerX centerY
          (CheeseGraphic.pixelCorners gc pixelWidth pixelHeight x y)) 3
        = cornerAt (CheeseGraphic.worldCorners centerX centerY
          (CheeseGraphic.pixelCorners gc pixelWidth pixelHeight x (y + 1))) 0
      ∧ cornerAt (CheeseGraphic.worldCorners centerX centerY
          (CheeseGraphic.pixelCorners gc pixelWidth pixelHeight x y)) 2
        = cornerAt (CheeseGraphic.worldCorners centerX centerY
          (CheeseGraphic.pixelCorners gc pixelWidth pixelHeight x (y + 1))) 1) := by
  simp only [cornerAt, MouseGraphic.worldCorners, MouseGraphic.pixelCorners,
    CheeseGraphic.worldCorners, CheeseGraphic.pixelCorners, List.map_cons, List.map_nil,
    List.getD_cons_zero, List.getD_cons_succ, Coordinate.mk.injEq, Nat.cast_add, Nat.cast_one]
  refine ⟨⟨⟨?_, ?_⟩, ⟨?_, ?_⟩, ⟨?_, ?_⟩, ⟨?_, ?_⟩⟩, ⟨⟨?_, ?_⟩, ⟨?_, ?_⟩, ⟨?_, ?_⟩, ⟨?_, ?_⟩⟩⟩ <;>
    first
      | trivial
      | ring

/-! ## Clipping of the boundary blocks -/

theorem mul_mem_uIcc_of_mem_Icc {K : Type} [LinearOrderedField K] {a u b p : K}
    (h1 : a ≤ u) (h2 : u ≤ b) : u * p ∈ Set.uIcc (a * p) (b * p) := by
  rw [Set.mem_uIcc]
  rcases le_total 0 p with hp | hp
  · exact Or.inl ⟨mul_le_mul_of_nonneg_right h1 hp, mul_le_mul_of_nonneg_right h2 hp⟩
  · exact Or.inr ⟨mul_le_mul_of_nonpos_right h2 hp, mul_le_mul_of_nonpos_right h1 hp⟩

theorem clipped_extent_bounds {K : Type} [LinearOrderedField K] (W b : Nat) (hb : b < W) :
    (0 : K) ≤ ((min (BLOCK_SIZE : Int) ((W : Int) - (b : Int)) : Int) : K)
      ∧ (b : K) + ((min (BLOCK_SIZE : Int) ((W : Int) - (b : Int)) : Int) : K) ≤ (W : K)
      ∧ (W ≤ b + 4 →
          (b : K) + ((min (BLOCK_SIZE : Int) ((W : Int) - (b : Int)) : Int) : K) = (W : K)) := by
  have h0 : (0 : Int) ≤ min (BLOCK_SIZE : Int) ((W : Int) - (b : Int)) := by
    simp only [BLOCK_SIZE]
    omega
  have h1 : (b : Int) + min (BLOCK_SIZE : Int) ((W : Int) - (b : Int)) ≤ (W : Int) := by
    simp only [BLOCK_SIZE]
    omega
  refine ⟨by exact_mod_cast h0, by exact_mod_cast h1, fun hlast => ?_⟩
  have h2 : (b : Int) + min (BLOCK_SIZE : Int) ((W : Int) - (b : Int)) = (W : Int) := by
    simp only [BLOCK_SIZE]
    omega
  exact_mod_cast h2

theorem block_edge_mem_uIcc {K : Type} [LinearOrderedField K] (W b : Nat) (hb : b < W)
    (p : K) :
    ((b : K) - (W : K) / 2) * p ∈ Set.uIcc (-((W : K) / 2) * p) ((W : K) / 2 * p)
      ∧ ((b : K) - (W : K) / 2) * p
          + ((min (BLOCK_SIZE : Int) ((W : Int) - (b : Int)) : Int) : K) * p
        ∈ Set.uIcc (-((W : K) / 2) * p) ((W : K) / 2 * p) := by
  obtain ⟨h0, h1, -⟩ := clipped_extent_bounds (K := K) W b hb
  have hb0 : (0 : K) ≤ (b : K) := Nat.cast_nonneg b
  constructor
  · exact mul_mem_uIcc_of_mem_Icc (by linarith) (by linarith)
  · have he : ((b : K) - (W : K) / 2) * p
          + ((min (BLOCK_SIZE : Int) ((W : Int) - (b : Int)) : Int) : K) * p
        = ((b : K) + ((min (BLOCK_SIZE : Int) ((W : Int) - (b : Int)) : Int) : K)
            - (W : K) / 2) * p := by ring
    rw [he]
    exact mul_mem_uIcc_of_mem_Icc (by linarith) (by linarith)

/-- In exact arithmetic the local quad of a block is the clipped rectangle: its corners lie in
the image rectangle, the right edge of a last block of a row is the right edge of the image
and the bottom edge of a last block of a column is the bottom edge of the image. -/
theorem mouse_blockCorners_clipped {K : Type} [LinearOrderedField K] (cos sin : K → K)
    (g : MouseGraphic K) (buffer : List (TriangleGraphic K))
    (centerX centerY pixelWidth pixelHeight rotationRad : K) (blockX blockY : Nat)
    (hbx : blockX < g.m_imageWidth) (hby : blockY < g.m_imageHeight) :
    MouseGraphic.blockCorners g pixelWidth pixelHeight blockX blockY
      = [⟨((blockX : K) - (g.m_imageWidth : K) / 2) * pixelWidth,
          ((blockY : K) - (g.m_imageHeight : K) / 2) * pixelHeight⟩,
         ⟨((blockX : K) - (g.m_imageWidth : K) / 2) * pixelWidth
            + ((min (4 : Int) ((g.m_imageWidth : Int) - (blockX : Int)) : Int) : K) * pixelWidth,
          ((blockY : K) - (g.m_imageHeight : K) / 2) * pixelHeight⟩,
         ⟨((blockX : K) - (g.m_imageWidth : K) / 2) * pixelWidth
            + ((min (4 : Int) ((g.m_imageWidth : Int) - (blockX : Int)) : Int) : K) * pixelWidth,
          ((blockY : K) - (g.m_imageHeight : K) / 2) * pixelHeight
            + ((min (4 : Int) ((g.m_imageHeight : Int) - (blockY : Int)) : Int) : K)
              * pixelHeight⟩,
         ⟨((blockX : K) - (g.m_imageWidth : K) / 2) * pixelWidth,
          ((blockY : K) - (g.m_imageHeight : K) / 2) * pixelHeight
            + ((min (4 : Int) ((g.m_imageHeight : Int) - (blockY : Int)) : Int) : K)
              * pixelHeight⟩]
    ∧ (∀ c ∈ MouseGraphic.blockCorners g pixelWidth pixelHeight blockX blockY,
        c.x ∈ Set.uIcc (-((g.m_imageWidth : K) / 2) * pixelWidth)
            ((g.m_imageWidth : K) / 2 * pixelWidth)
        ∧ c.y ∈ Set.uIcc (-((g.m_imageHeight : K) / 2) * pixelHeight)
            ((g.m_imageHeight : K) / 2 * pixelHeight))
    ∧ (0 ≤ pixelWidth → 0 ≤ pixelHeight →
        ∀ c ∈ MouseGraphic.blockCorners g pixelWidth pixelHeight blockX blockY,
          c.x ∈ Set.Icc (-((g.m_imageWidth : K) / 2) * pixelWidth)
              ((g.m_imageWidth : K) / 2 * pixelWidth)
          ∧ c.y ∈ Set.Icc (-((g.m_imageHeight : K) / 2) * pixelHeight)
              ((g.m_imageHeight : K) / 2 * pixelHeight))
    ∧ (g.m_imageWidth ≤ blockX + 4 →
        (pointAt (MouseGraphic.blockCorners g pixelWidth pixelHeight blockX blockY) 1).x
            = (g.m_imageWidth : K) / 2 * pixelWidth
          ∧ (pointAt (MouseGraphic.blockCorners g pixelWidth pixelHeight blockX blockY) 2).x
            = (g.m_imageWidth : K) / 2 * pixelWidth)
    ∧ (g.m_imageHeight ≤ blockY + 4 →
        (pointAt (MouseGraphic.blockCorners g pixelWidth pixelHeight blockX blockY) 2).y
            = (g.m_imageHeight : K) / 2 * pixelHeight
          ∧ (pointAt (MouseGraphic.blockCorners g pixelWidth pixelHeight blockX blockY) 3).y
            = (g.m_imageHeight : K) / 2 * pixelHeight)
    ∧ (blockX % 4 = 0 → blockY % 4 = 0 →
        (∃ x y, blockX ≤ x ∧ x < blockX + 4 ∧ x < g.m_imageWidth
          ∧ blockY ≤ y ∧ y < blockY + 4 ∧ y < g.m_imageHeight
          ∧ 0 < qAlpha (g.m_image.pixel x y)) →
        blockQuad cos sin g centerX centerY pixelWidth pixelHeight rotationRad blockX blockY
            (visibleSamples g blockX blockY)
          <:+: MouseGraphic.drawOptimized cos sin g buffer centerX centerY pixelWidth
            pixelHeight rotationRad) := by
  obtain ⟨hx0, hx1⟩ := block_edge_mem_uIcc (K := K) g.m_imageWidth blockX hbx pixelWidth
  obtain ⟨hy0, hy1⟩ := block_edge_mem_uIcc (K := K) g.m_imageHeight blockY hby pixelHeight
  obtain ⟨-, -, hxe⟩ := clipped_extent_bounds (K := K) g.m_imageWidth blockX hbx
  obtain ⟨-, -, hye⟩ := clipped_extent_bounds (K := K) g.m_imageHeight blockY hby
  have hall : ∀ c ∈ MouseGraphic.blockCorners g pixelWidth pixelHeight blockX blockY,
      c.x ∈ Set.uIcc (-((g.m_imageWidth : K) / 2) * pixelWidth)
          ((g.m_imageWidth : K) / 2 * pixelWidth)
      ∧ c.y ∈ Set.uIcc (-((g.m_imageHeight : K) / 2) * pixelHeight)
          ((g.m_imageHeight : K) / 2 * pixelHeight) := by
    intro c hc
    simp only [MouseGraphic.blockCorners, List.mem_cons, List.mem_singleton, List.not_mem_nil,
      or_false] at hc
    rcases hc with rfl | rfl | rfl | rfl
    · exact ⟨hx0, hy0⟩
    · exact ⟨hx1, hy0⟩
    · exact ⟨hx1, hy1⟩
    · exact ⟨hx0, hy1⟩
  refine ⟨?_, hall, ?_, ?_, ?_, ?_⟩
  · simp [MouseGraphic.blockCorners, BLOCK_SIZE]
  · intro hpw hph c hc
    have hW : (0 : K) ≤ (g.m_imageWidth : K) := Nat.cast_nonneg _
    have hH : (0 : K) ≤ (g.m_imageHeight : K) := Nat.cast_nonneg _
    have h1 : -((g.m_imageWidth : K) / 2) * pixelWidth ≤ (g.m_imageWidth : K) / 2 * pixelWidth :=
      mul_le_mul_of_nonneg_right (by linarith) hpw
    have h2 : -((g.m_imageHeight : K) / 2) * pixelHeight
        ≤ (g.m_imageHeight : K) / 2 * pixelHeight :=
      mul_le_mul_of_nonneg_right (by linarith) hph
    have h := hall c hc
    rw [Set.uIcc_of_le h1, Set.uIcc_of_le h2] at h
    exact h
  · intro hlast
    have he := hxe hlast
    simp only [pointAt, MouseGraphic.blockCorners, List.getD_cons_zero, List.getD_cons_succ]
    constructor <;>
      · rw [← he]
        ring
  · intro hlast
    have he := hye hlast
    simp only [pointAt, MouseGraphic.blockCorners, List.getD_cons_zero, List.getD_cons_succ]
    constructor <;>
      · rw [← he]
        ring
  · rintro hx4 hy4 ⟨x, y, hx1', hx2', hx3', hy1', hy2', hy3', ha⟩
    exact mouse_blockQuad_emitted cos sin g buffer centerX centerY pixelWidth pixelHeight
      rotationRad blockX blockY hbx hx4 hby hy4
      (visibleSamples_ne_nil g blockX blockY x y hx1' hx2' hx3' hy1' hy2' hy3' ha)

/-! ## The visible pixels of a block -/

theorem visibleSamples_eq_map {K : Type} (g : MouseGraphic K) (blockX blockY : Nat) :
    visibleSamples g blockX blockY
      = (visibleCoordinates g blockX blockY).map fun p => g.m_image.pixel p.1 p.2 := by
  unfold visibleSamples visibleCoordinates
  rw [List.map_flatMap]
  refine congrArg _ (funext fun y => ?_)
  rw [List.filter_map, List.map_map]
  rfl

theorem mem_visibleCoordinates {K : Type} (g : MouseGraphic K) (blockX blockY : Nat)
    (p : Nat × Nat) :
    p ∈ visibleCoordinates g blockX blockY ↔ p ∈ blockVisiblePixels g blockX blockY := by
  obtain ⟨x, y⟩ := p
  simp only [visibleCoordinates, blockVisiblePixels, BLOCK_SIZE, List.mem_flatMap,
    List.mem_map, List.mem_filter, List.mem_range'_1, decide_eq_true_eq, gt_iff_lt,
    Prod.mk.injEq, Finset.mem_filter, Finset.mem_product, Finset.mem_range]
  constructor
  · rintro ⟨y', hy', x', ⟨hx', ha⟩, rfl, rfl⟩
    exact ⟨⟨by omega, by omega⟩, by omega, by omega, by omega, by omega, ha⟩
  · rintro ⟨⟨h1, h2⟩, h3, h4, h5, h6, ha⟩
    exact ⟨y, by omega, x, ⟨by omega, ha⟩, rfl, rfl⟩

theorem nodup_visibleCoordinates {K : Type} (g : MouseGraphic K) (blockX blockY : Nat) :
    (visibleCoordinates g blockX blockY).Nodup := by
  unfold visibleCoordinates
  rw [List.nodup_flatMap]
  constructor
  · intro y _
    refine List.Nodup.map ?_ (List.Nodup.filter _ (List.nodup_range' _ _))
    intro a b hab
    exact congrArg Prod.fst hab
  · refine List.Nodup.pairwise_of_forall_ne (List.nodup_range' _ _) ?_
    intro y1 _ y2 _ hne
    simp only [Function.onFun]
    rw [List.disjoint_left]
    intro p hp1 hp2
    rw [List.mem_map] at hp1 hp2
    obtain ⟨x1, -, rfl⟩ := hp1
    obtain ⟨x2, -, h⟩ := hp2
    exact hne (congrArg Prod.snd h).symm

theorem toFinset_visibleCoordinates {K : Type} (g : MouseGraphic K) (blockX blockY : Nat) :
    (visibleCoordinates g blockX blockY).toFinset = blockVisiblePixels g blockX blockY := by
  ext p
  rw [List.mem_toFinset, mem_visibleCoordinates]

theorem sum_visibleSamples {K : Type} (g : MouseGraphic K) (blockX blockY : Nat)
    (channel : QRgb → Int) :
    ((visibleSamples g blockX blockY).map channel).sum
      = blockChannelSum g blockX blockY channel := by
  rw [visibleSamples_eq_map, List.map_map, blockChannelSum, ← toFinset_visibleCoordinates,
    List.sum_toFinset _ (nodup_visibleCoordinates g blockX blockY)]
  rfl

theorem length_visibleSamples {K : Type} (g : MouseGraphic K) (blockX blockY : Nat) :
    (visibleSamples g blockX blockY).length = (blockVisiblePixels g blockX blockY).card := by
  rw [visibleSamples_eq_map, List.length_map, ← toFinset_visibleCoordinates,
    List.toFinset_card_of_nodup (nodup_visibleCoordinates g blockX blockY)]

theorem visibleSamples_eq_nil_iff {K : Type} (g : MouseGraphic K) (blockX blockY : Nat) :
    visibleSamples g blockX blockY = [] ↔ ¬ (blockVisiblePixels g blockX blockY).Nonempty := by
  rw [← List.length_eq_zero, length_visibleSamples, Finset.card_eq_zero,
    Finset.not_nonempty_iff_eq_empty]

/-! ## Triangle count of block-averaging mode -/

theorem nodup_blockStarts (bound : Nat) : (blockStarts bound).Nodup := by
  unfold blockStarts
  refine List.Nodup.map ?_ (List.nodup_range _)
  intro a b hab
  simp only [BLOCK_SIZE] at hab
  omega

theorem toFinset_blockStarts (bound : Nat) :
    (blockStarts bound).toFinset = (Finset.range bound).filter fun b => b % 4 = 0 := by
  ext b
  rw [List.mem_toFinset, mem_blockStarts, Finset.mem_filter, Finset.mem_range]

theorem length_flatMap_blockStarts {β : Type} (q : Nat → List β) (bound : Nat) :
    ((blockStarts bound).flatMap q).length
      = ∑ b in (Finset.range bound).filter (fun b => b % 4 = 0), (q b).length := by
  rw [List.length_flatMap, ← toFinset_blockStarts, List.sum_toFinset _ (nodup_blockStarts bound)]
  rfl

theorem two_mul_card_visibleBlocks {K : Type} (g : MouseGraphic K) :
    2 * (visibleBlocks g).card
      = ∑ blockY in (Finset.range g.m_imageHeight).filter (fun b => b % 4 = 0),
          ∑ blockX in (Finset.range g.m_imageWidth).filter (fun b => b % 4 = 0),
            if visibleSamples g blockX blockY = [] then 0 else 2 := by
  unfold visibleBlocks
  rw [Finset.card_filter, Finset.sum_product_right, Finset.mul_sum, Finset.sum_filter]
  refine Finset.sum_congr rfl fun y _ => ?_
  rw [Finset.mul_sum, Finset.sum_filter]
  by_cases hy : y % 4 = 0
  · rw [if_pos hy]
    refine Finset.sum_congr rfl fun x _ => ?_
    by_cases hx : x % 4 = 0
    · by_cases hv : visibleSamples g x y = []
      · have hn := (visibleSamples_eq_nil_iff g x y).1 hv
        simp [hx, hy, hv, hn]
      · have hn : (blockVisiblePixels g x y).Nonempty := by
          by_contra hcon
          exact hv ((visibleSamples_eq_nil_iff g x y).2 hcon)
        simp [hx, hy, hv, hn]
    · simp [hx]
  · rw [if_neg hy]
    simp [hy]

/-- C15: for every image, block-averaging mode leaves the buffer in place and appends
exactly `2 * K` triangles, where `K` is the number of `4 × 4` blocks, clipped at the right
and bottom edges, that contain at least one pixel with alpha `> 0`; a block without such a
pixel appends nothing. -/
theorem C15_block_mode_count {K : Type} [Field K] (cos sin : K → K) (g : MouseGraphic K)
    (buffer : List (TriangleGraphic K))
    (centerX centerY pixelWidth pixelHeight rotationRad : K) :
    (∃ new, MouseGraphic.drawOptimized cos sin g buffer centerX centerY pixelWidth pixelHeight
          rotationRad = buffer ++ new
        ∧ new.length = 2 * (visibleBlocks g).card)
    ∧ (∀ blockX blockY, ¬ (blockVisiblePixels g blockX blockY).Nonempty →
        MouseGraphic.drawBlock cos sin g centerX centerY pixelWidth pixelHeight rotationRad
          blockY buffer blockX = buffer) := by
  constructor
  · refine ⟨_, mouse_drawOptimized_eq cos sin g buffer _ _ _ _ _, ?_⟩
    rw [two_mul_card_visibleBlocks, length_flatMap_blockStarts]
    refine Finset.sum_congr rfl fun blockY _ => ?_
    rw [length_flatMap_blockStarts]
    refine Finset.sum_congr rfl fun blockX _ => ?_
    rw [mouse_drawBlock_eq]
    by_cases hv : visibleSamples g blockX blockY = []
    · simp [hv]
    · simp [hv, blockQuad]
  · intro blockX blockY hn
    rw [mouse_drawBlock_append, mouse_drawBlock_eq,
      if_pos ((visibleSamples_eq_nil_iff g blockX blockY).2 hn), List.append_nil]

/-! ## The mean color of a block -/

theorem tdiv_eq_floor_of_nonneg (S : Int) (n : Nat) (hS : 0 ≤ S) :
    Int.tdiv S (n : Int) = ⌊(S : ℚ) / (n : ℚ)⌋ := by
  rw [Rat.floor_intCast_div_natCast, Int.tdiv_eq_ediv hS (Int.ofNat_nonneg n)]

theorem blockQuad_vertex {K : Type} [Field K] (cos sin : K → K) (g : MouseGraphic K)
    (cx cy pw ph rot : K) (blockX blockY : Nat) (t : TriangleGraphic K)
    (ht : t ∈ blockQuad cos sin g cx cy pw ph rot blockX blockY (visibleSamples g blockX blockY))
    (v : VertexGraphic K) (hv : v ∈ t.vertices) :
    v.rgb.r = Int.tdiv (blockChannelSum g blockX blockY qRed)
        (blockVisiblePixels g blockX blockY).card
      ∧ v.rgb.g = Int.tdiv (blockChannelSum g blockX blockY qGreen)
        (blockVisiblePixels g blockX blockY).card
      ∧ v.rgb.b = Int.tdiv (blockChannelSum g blockX blockY qBlue)
        (blockVisiblePixels g blockX blockY).card
      ∧ v.a = Int.tdiv (blockChannelSum g blockX blockY qAlpha)
        (blockVisiblePixels g blockX blockY).card := by
  simp only [blockQuad, List.mem_cons, List.mem_singleton, List.not_mem_nil, or_false,
    sum_visibleSamples, length_visibleSamples] at ht
  rcases ht with rfl | rfl <;>
    · simp only [TriangleGraphic.vertices, MouseGraphic.createTriangle, List.mem_cons,
        List.mem_singleton, List.not_mem_nil, or_false] at hv
      rcases hv with rfl | rfl | rfl <;> exact ⟨rfl, rfl, rfl, rfl⟩

/-- C16: for every block with at least one pixel of alpha `> 0`, block-averaging mode emits
two triangles whose vertices all carry, in each of the channels R, G, B and alpha, the
truncated integer mean of the channel: the sum `S` of the channel over the pixels of the
block with alpha `> 0`, divided by the number `n` of these pixels and truncated; pixels
with alpha `0` enter neither `S` nor `n`.  Every appended vertex is of this kind, and the
truncated mean is `floor (S / n)` when the channel values are not negative. -/
theorem C16_block_channels_are_truncated_means {K : Type} [Field K] (cos sin : K → K)
    (g : MouseGraphic K) (buffer : List (TriangleGraphic K))
    (centerX centerY pixelWidth pixelHeight rotationRad : K) :
    (∀ blockX blockY, blockX < g.m_imageWidth → blockX % 4 = 0 →
        blockY < g.m_imageHeight → blockY % 4 = 0 →
        (blockVisiblePixels g blockX blockY).Nonempty →
        ∃ t1 t2, [t1, t2] <:+: MouseGraphic.drawOptimized cos sin g buffer centerX centerY
            pixelWidth pixelHeight rotationRad
          ∧ ∀ v ∈ t1.vertices ++ t2.vertices,
            v.rgb.r = Int.tdiv (blockChannelSum g blockX blockY qRed)
                (blockVisiblePixels g blockX blockY).card
              ∧ v.rgb.g = Int.tdiv (blockChannelSum g blockX blockY qGreen)
                (blockVisiblePixels g blockX blockY).card
              ∧ v.rgb.b = Int.tdiv (blockChannelSum g blockX blockY qBlue)
                (blockVisiblePixels g blockX blockY).card
              ∧ v.a = Int.tdiv (blockChannelSum g blockX blockY qAlpha)
                (blockVisiblePixels g blockX blockY).card)
    ∧ (∃ new, MouseGraphic.drawOptimized cos sin g buffer centerX centerY pixelWidth
          pixelHeight rotationRad = buffer ++ new
        ∧ ∀ t ∈ new, ∀ v ∈ t.vertices,
          ∃ blockX blockY, blockX < g.m_imageWidth ∧ blockX % 4 = 0
            ∧ blockY < g.m_imageHeight ∧ blockY % 4 = 0
            ∧ (blockVisiblePixels g blockX blockY).Nonempty
            ∧ v.rgb.r = Int.tdiv (blockChannelSum g blockX blockY qRed)
                (blockVisiblePixels g blockX blockY).card
            ∧ v.rgb.g = Int.tdiv (blockChannelSum g blockX blockY qGreen)
                (blockVisiblePixels g blockX blockY).card
            ∧ v.rgb.b = Int.tdiv (blockChannelSum g blockX blockY qBlue)
                (blockVisiblePixels g blockX blockY).card
            ∧ v.a = Int.tdiv (blockChannelSum g blockX blockY qAlpha)
                (blockVisiblePixels g blockX blockY).card)
    ∧ (∀ blockX blockY (channel : QRgb → Int),
        (∀ p ∈ blockVisiblePixels g blockX blockY, 0 ≤ channel (g.m_image.pixel p.1 p.2)) →
        Int.tdiv (blockChannelSum g blockX blockY channel)
            (blockVisiblePixels g blockX blockY).card
          = ⌊(blockChannelSum g blockX blockY channel : ℚ)
              / ((blockVisiblePixels g blockX blockY).card : ℚ)⌋) := by
  refine ⟨?_, ?_, ?_⟩
  · intro blockX blockY hbx hbx4 hby hby4 hne
    have hv : visibleSamples g blockX blockY ≠ [] := fun h =>
      (visibleSamples_eq_nil_iff g blockX blockY).1 h hne
    have hem := mouse_blockQuad_emitted cos sin g buffer centerX centerY pixelWidth pixelHeight
      rotationRad blockX blockY hbx hbx4 hby hby4 hv
    have hvert := blockQuad_vertex cos sin g centerX centerY pixelWidth pixelHeight rotationRad
      blockX blockY
    unfold blockQuad at hem hvert
    refine ⟨_, _, hem, fun v hv' => ?_⟩
    rw [List.mem_append] at hv'
    rcases hv' with h1 | h2
    · exact hvert _ (List.mem_cons_self _ _) v h1
    · exact hvert _ (List.mem_cons_of_mem _ (List.mem_singleton_self _)) v h2
  · refine ⟨_, mouse_drawOptimized_eq cos sin g buffer _ _ _ _ _, fun t ht v hv => ?_⟩
    obtain ⟨blockX, blockY, hbx, hbx4, hby, hby4, hne, hrgb, hal⟩ :=
      mouse_drawOptimized_vertex cos sin g _ _ _ _ _ t ht v hv
    have hn : (blockVisiblePixels g blockX blockY).Nonempty := by
      by_contra hcon
      exact hne ((visibleSamples_eq_nil_iff g blockX blockY).2 hcon)
    simp only [sum_visibleSamples, length_visibleSamples] at hrgb hal
    refine ⟨blockX, blockY, hbx, hbx4, hby, hby4, hn, ?_, ?_, ?_, hal⟩
    · rw [hrgb]
    · rw [hrgb]
    · rw [hrgb]
  · intro blockX blockY channel hnn
    exact tdiv_eq_floor_of_nonneg _ _ (Finset.sum_nonneg hnn)

/-! ## Emitted alpha is at least one -/

theorem length_le_sum_map (f : QRgb → Int) (ps : List QRgb) (h : ∀ p ∈ ps, 1 ≤ f p) :
    (ps.length : Int) ≤ (ps.map f).sum := by
  induction ps with
  | nil => simp
  | cons p ps ih =>
    have hp := h p (List.mem_cons_self _ _)
    have ih2 := ih fun q hq => h q (List.mem_cons_of_mem _ hq)
    simp only [List.map_cons, List.sum_cons, List.length_cons, Nat.cast_add, Nat.cast_one]
    linarith

theorem one_le_tdiv_mean (f : QRgb → Int) (ps : List QRgb) (h : ∀ p ∈ ps, 1 ≤ f p)
    (hne : ps ≠ []) : 1 ≤ Int.tdiv (ps.map f).sum ps.length := by
  have hsum := length_le_sum_map f ps h
  have hlen : (0 : Int) < (ps.length : Int) := by
    have : 0 < ps.length := List.length_pos.2 hne
    omega
  rw [Int.tdiv_eq_ediv (by linarith) (le_of_lt hlen)]
  exact Int.le_ediv_of_mul_le hlen (by linarith)

/-- C19: no emitted pixel geometry is fully transparent.  With the alpha of every pixel of
the image not negative, every vertex of every triangle appended by per-pixel mode (mouse
and cheese) has alpha `≥ 1`; every vertex of every triangle appended by block-averaging mode
has alpha `≥ 1`, the truncated mean of alphas that are each `≥ 1` being `≥ 1`. -/
theorem C19_emitted_alpha_at_least_one {K : Type} [Field K] (cos sin : K → K)
    (gm : MouseGraphic K) (gc : CheeseGraphic K) (buffer : List (TriangleGraphic K))
    (centerX centerY pixelWidth pixelHeight rotationRad : K)
    (hm : ∀ x y, x < gm.m_imageWidth → y < gm.m_imageHeight →
      0 ≤ qAlpha (gm.m_image.pixel x y))
    (hc : ∀ x y, x < gc.m_imageWidth → y < gc.m_imageHeight →
      0 ≤ qAlpha (gc.m_image.pixel x y)) :
    (∃ new, MouseGraphic.drawAllPixels cos sin gm buffer centerX centerY pixelWidth pixelHeight
          rotationRad = buffer ++ new
        ∧ ∀ t ∈ new, ∀ v ∈ t.vertices, 1 ≤ v.a)
    ∧ (∃ new, CheeseGraphic.drawAllPixels gc buffer centerX centerY pixelWidth pixelHeight
          = buffer ++ new
        ∧ ∀ t ∈ new, ∀ v ∈ t.vertices, 1 ≤ v.a)
    ∧ (∃ new, MouseGraphic.drawOptimized cos sin gm buffer centerX centerY pixelWidth
          pixelHeight rotationRad = buffer ++ new
        ∧ ∀ t ∈ new, ∀ v ∈ t.vertices, 1 ≤ v.a) := by
  refine ⟨?_, ?_, ?_⟩
  · refine ⟨_, mouse_drawAllPixels_eq cos sin gm buffer _ _ _ _ _, fun t ht v hv => ?_⟩
    obtain ⟨x, y, hx, hy, hne, -, hal⟩ :=
      mouse_drawAllPixels_vertex cos sin gm _ _ _ _ _ t ht v hv
    have h0 := hm x y hx hy
    rw [hal]
    omega
  · refine ⟨_, cheese_drawAllPixels_eq gc buffer _ _ _ _, fun t ht v hv => ?_⟩
    obtain ⟨x, y, hx, hy, hne, -, hal⟩ :=
      cheese_drawAllPixels_vertex gc _ _ _ _ t ht v hv
    have h0 := hc x y hx hy
    rw [hal]
    omega
  · refine ⟨_, mouse_drawOptimized_eq cos sin gm buffer _ _ _ _ _, fun t ht v hv => ?_⟩
    obtain ⟨blockX, blockY, -, -, -, -, hne, -, hal⟩ :=
      mouse_drawOptimized_vertex cos sin gm _ _ _ _ _ t ht v hv
    rw [hal]
    refine one_le_tdiv_mean qAlpha _ (fun p hp => ?_) hne
    obtain ⟨x, y, -, -, -, -, -, -, rfl, ha⟩ := (mem_visibleSamples gm blockX blockY p).1 hp
    omega

/-! ## The routines never fault -/

theorem foldChecked_ok {σ α : Type} (body : σ → α → Except Fault σ) (f : σ → α → σ)
    (l : List α) (h : ∀ a ∈ l, ∀ s, body s a = Except.ok (f s a)) :
    ∀ s, foldChecked body l s = Except.ok (l.foldl f s) := by
  induction l with
  | nil => intro s; rfl
  | cons a l ih =>
    intro s
    rw [foldChecked, h a (List.mem_cons_self _ _) s]
    exact ih (fun b hb => h b (List.mem_cons_of_mem _ hb)) (f s a)

theorem forBlocksChecked_ok {σ : Type} (bound : Nat) (body : σ → Nat → Except Fault σ)
    (f : σ → Nat → σ) (h : ∀ b, b < bound → ∀ s, body s b = Except.ok (f s b)) (k : Nat) :
    ∀ (b : Nat) (s : σ), (bound - b + 3) / 4 = k →
      forBlocksChecked bound body b s = Except.ok (forBlocks bound f b s) := by
  induction k with
  | zero =>
    intro b s hk
    rw [forBlocksChecked, forBlocks, if_neg (by omega), if_neg (by omega)]
  | succ k ih =>
    intro b s hk
    have hb : b < bound := by omega
    rw [forBlocksChecked, forBlocks, if_pos hb, if_pos hb, h b hb s]
    exact ih (b + BLOCK_SIZE) (f s b) (by simp only [BLOCK_SIZE]; omega)

theorem pixelChecked_ok (img : QImage) (x y : Nat) (hx : x < img.width)
    (hy : y < img.height) : img.pixelChecked x y = Except.ok (img.pixel x y) := by
  simp [QImage.pixelChecked, QImage.pixel, hx, hy]

theorem mouse_new_sizes {K : Type} (mouse : Mouse K) (img : QImage) :
    (MouseGraphic.new mouse img).m_imageWidth = (MouseGraphic.new mouse img).m_image.width
      ∧ (MouseGraphic.new mouse img).m_imageHeight
        = (MouseGraphic.new mouse img).m_image.height := by
  unfold MouseGraphic.new
  by_cases h : img.isNull = true
  · simp [h, QImage.null]
  · simp [h]

theorem cheese_new_sizes {K : Type} (position : Coordinate K) (scale : K) (img : QImage) :
    (CheeseGraphic.new position scale img).m_imageWidth
        = (CheeseGraphic.new position scale img).m_image.width
      ∧ (CheeseGraphic.new position scale img).m_imageHeight
        = (CheeseGraphic.new position scale img).m_image.height := by
  unfold CheeseGraphic.new
  by_cases h : img.isNull = true
  · simp [h, QImage.null]
  · simp [h]

theorem mouse_blockSumsChecked_ok {K : Type} (g : MouseGraphic K)
    (hW : g.m_imageWidth = g.m_image.width) (hH : g.m_imageHeight = g.m_image.height)
    (blockX blockY : Nat) :
    MouseGraphic.blockSumsChecked g blockX blockY
      = Except.ok (MouseGraphic.blockSums g blockX blockY) := by
  unfold MouseGraphic.blockSumsChecked MouseGraphic.blockSums
  refine foldChecked_ok _ _ _ (fun y hy acc => ?_) BlockSums.init
  refine foldChecked_ok _ _ _ (fun x hx acc' => ?_) acc
  rw [List.mem_range'_1] at hx hy
  have hx' : x < g.m_image.width := by
    rw [← hW]
    omega
  have hy' : y < g.m_image.height := by
    rw [← hH]
    omega
  unfold MouseGraphic.addPixelChecked MouseGraphic.addPixel
  rw [pixelChecked_ok _ _ _ hx' hy']
  by_cases ha : qAlpha (g.m_image.pixel x y) > 0 <;> simp [ha]

section CheckedLemmas

variable {K : Type} [Field K]

theorem cheese_drawAllPixelsChecked_ok (g : CheeseGraphic K)
    (hW : g.m_imageWidth = g.m_image.width) (hH : g.m_imageHeight = g.m_image.height)
    (buffer : List (TriangleGraphic K)) (cx cy pw ph : K) :
    CheeseGraphic.drawAllPixelsChecked g buffer cx cy pw ph
      = Except.ok (CheeseGraphic.drawAllPixels g buffer cx cy pw ph) := by
  unfold CheeseGraphic.drawAllPixelsChecked CheeseGraphic.drawAllPixels
  refine foldChecked_ok _ _ _ (fun y hy b => ?_) buffer
  refine foldChecked_ok _ _ _ (fun x hx b' => ?_) b
  rw [List.mem_range] at hx hy
  unfold CheeseGraphic.drawPixelChecked CheeseGraphic.drawPixel
  rw [pixelChecked_ok _ _ _ (hW ▸ hx) (hH ▸ hy)]
  by_cases ha : qAlpha (g.m_image.pixel x y) = 0 <;> simp [ha]

theorem mouse_drawAllPixelsChecked_ok (cos sin : K → K) (g : MouseGraphic K)
    (hW : g.m_imageWidth = g.m_image.width) (hH : g.m_imageHeight = g.m_image.height)
    (buffer : List (TriangleGraphic K)) (cx cy pw ph rot : K) :
    MouseGraphic.drawAllPixelsChecked cos sin g buffer cx cy pw ph rot
      = Except.ok (MouseGraphic.drawAllPixels cos sin g buffer cx cy pw ph rot) := by
  unfold MouseGraphic.drawAllPixelsChecked MouseGraphic.drawAllPixels
  refine foldChecked_ok _ _ _ (fun y hy b => ?_) buffer
  refine foldChecked_ok _ _ _ (fun x hx b' => ?_) b
  rw [List.mem_range] at hx hy
  unfold MouseGraphic.drawPixelChecked MouseGraphic.drawPixel
  rw [pixelChecked_ok _ _ _ (hW ▸ hx) (hH ▸ hy)]
  by_cases ha : qAlpha (g.m_image.pixel x y) = 0 <;> simp [ha]

theorem mouse_drawBlockChecked_ok (cos sin : K → K) (g : MouseGraphic K)
    (hW : g.m_imageWidth = g.m_image.width) (hH : g.m_imageHeight = g.m_image.height)
    (cx cy pw ph rot : K) (blockY : Nat) (buffer : List (TriangleGraphic K)) (blockX : Nat) :
    MouseGraphic.drawBlockChecked cos sin g cx cy pw ph rot blockY buffer blockX
      = Except.ok (MouseGraphic.drawBlock cos sin g cx cy pw ph rot blockY buffer blockX) := by
  unfold MouseGraphic.drawBlockChecked MouseGraphic.drawBlock
  rw [mouse_blockSumsChecked_ok g hW hH]
  by_cases hg : (!(MouseGraphic.blockSums g blockX blockY).hasVisiblePixels
      || (MouseGraphic.blockSums g blockX blockY).pixelCount == 0) = true
  · simp [hg]
  · have hne : (MouseGraphic.blockSums g blockX blockY).pixelCount ≠ 0 := by
      intro h0
      apply hg
      simp [h0]
    simp [hg, divChecked, hne]

theorem mouse_drawOptimizedChecked_ok (cos sin : K → K) (g : MouseGraphic K)
    (hW : g.m_imageWidth = g.m_image.width) (hH : g.m_imageHeight = g.m_image.height)
    (buffer : List (TriangleGraphic K)) (cx cy pw ph rot : K) :
    MouseGraphic.drawOptimizedChecked cos sin g buffer cx cy pw ph rot
      = Except.ok (MouseGraphic.drawOptimized cos sin g buffer cx cy pw ph rot) := by
  unfold MouseGraphic.drawOptimizedChecked MouseGraphic.drawOptimized
  refine forBlocksChecked_ok _ _ _ (fun blockY _ b => ?_) _ 0 buffer rfl
  exact forBlocksChecked_ok _ _ _
    (fun blockX _ b' => mouse_drawBlockChecked_ok cos sin g hW hH cx cy pw ph rot blockY b' blockX)
    _ 0 b rfl

end CheckedLemmas

/-- C12: pixel sampling is always in bounds.  The checked lookup faults exactly when
`x < width` and `y < height` fail; for a sprite as its constructor builds it from any
image, of any size (a multiple of the block size or not), the unrotated per-pixel mode, the
rotated per-pixel mode and block-averaging mode run without a fault and return the result
of the routines that use the total lookup: no sample is taken outside the image. -/
theorem C12_pixel_sampling_in_bounds {K : Type} [Field K] (cos sin : K → K)
    (mouse : Mouse K) (position : Coordinate K) (scale : K) (img : QImage)
    (buffer : List (TriangleGraphic K))
    (centerX centerY pixelWidth pixelHeight rotationRad : K) :
    (∀ (image : QImage) (x y : Nat),
        (image.pixelChecked x y = Except.error Fault.pixelOutOfRange
          ↔ ¬ (x < image.width ∧ y < image.height))
        ∧ (x < image.width → y < image.height →
            image.pixelChecked x y = Except.ok (image.pixel x y)))
    ∧ CheeseGraphic.drawAllPixelsChecked (CheeseGraphic.new position scale img) buffer
          centerX centerY pixelWidth pixelHeight
        = Except.ok (CheeseGraphic.drawAllPixels (CheeseGraphic.new position scale img) buffer
          centerX centerY pixelWidth pixelHeight)
    ∧ MouseGraphic.drawAllPixelsChecked cos sin (MouseGraphic.new mouse img) buffer
          centerX centerY pixelWidth pixelHeight rotationRad
        = Except.ok (MouseGraphic.drawAllPixels cos sin (MouseGraphic.new mouse img) buffer
          centerX centerY pixelWidth pixelHeight rotationRad)
    ∧ MouseGraphic.drawOptimizedChecked cos sin (MouseGraphic.new mouse img) buffer
          centerX centerY pixelWidth pixelHeight rotationRad
        = Except.ok (MouseGraphic.drawOptimized cos sin (MouseGraphic.new mouse img) buffer
          centerX centerY pixelWidth pixelHeight rotationRad) := by
  obtain ⟨hmW, hmH⟩ := mouse_new_sizes mouse img
  obtain ⟨hcW, hcH⟩ := cheese_new_sizes position scale img
  refine ⟨fun image x y => ⟨?_, pixelChecked_ok image x y⟩,
    cheese_drawAllPixelsChecked_ok _ hcW hcH _ _ _ _ _,
    mouse_drawAllPixelsChecked_ok cos sin _ hmW hmH _ _ _ _ _ _,
    mouse_drawOptimizedChecked_ok cos sin _ hmW hmH _ _ _ _ _ _⟩
  unfold QImage.pixelChecked
  by_cases h : x < image.width ∧ y < image.height <;> simp [h]

/-- Instance of C12: the `5 × 6` gradient image, whose sizes are not multiples of `4`, is
rasterized by block-averaging mode without a fault, whereas a sprite state whose stored
width exceeds the image (which no constructor produces) does fault. -/
theorem C12_pixel_sampling_in_bounds_witness :
    MouseGraphic.drawOptimizedChecked cosAtZero sinAtZero
        (MouseGraphic.new sampleMouse gradientImage) [] 0 0 1 1 0
      = Except.ok (MouseGraphic.drawOptimized cosAtZero sinAtZero
        (MouseGraphic.new sampleMouse gradientImage) [] 0 0 1 1 0)
    ∧ MouseGraphic.drawAllPixelsChecked cosAtZero sinAtZero inconsistentMouseGraphic [] 0 0 1 1 0
      = Except.error Fault.pixelOutOfRange :=
  ⟨(C12_pixel_sampling_in_bounds cosAtZero sinAtZero sampleMouse (⟨0, 0⟩ : Coordinate ℚ) 1
      gradientImage [] 0 0 1 1 0).2.2.2,
    rfl⟩

/-! ## Divisions are guarded -/

theorem foldChecked_ne_divisionByZero {σ α : Type} (body : σ → α → Except Fault σ)
    (h : ∀ s a, body s a ≠ Except.error Fault.divisionByZero) (l : List α) :
    ∀ s, foldChecked body l s ≠ Except.error Fault.divisionByZero := by
  induction l with
  | nil =>
    intro s hcon
    simp [foldChecked] at hcon
  | cons a l ih =>
    intro s
    rw [foldChecked]
    cases hb : body s a with
    | ok s' => exact ih s'
    | error e =>
      intro hcon
      exact h s a (hb.trans hcon)

theorem forBlocksChecked_ne_divisionByZero {σ : Type} (bound : Nat)
    (body : σ → Nat → Except Fault σ)
    (h : ∀ s b, body s b ≠ Except.error Fault.divisionByZero) (k : Nat) :
    ∀ (b : Nat) (s : σ), (bound - b + 3) / 4 = k →
      forBlocksChecked bound body b s ≠ Except.error Fault.divisionByZero := by
  induction k with
  | zero =>
    intro b s hk
    rw [forBlocksChecked, if_neg (by omega)]
    intro hcon
    cases hcon
  | succ k ih =>
    intro b s hk
    rw [forBlocksChecked, if_pos (by omega)]
    cases hb : body s b with
    | ok s' => exact ih (b + BLOCK_SIZE) s' (by simp only [BLOCK_SIZE]; omega)
    | error e =>
      intro hcon
      exact h s b (hb.trans hcon)

theorem pixelChecked_ne_divisionByZero (img : QImage) (x y : Nat) :
    img.pixelChecked x y ≠ Except.error Fault.divisionByZero := by
  unfold QImage.pixelChecked
  by_cases h : x < img.width ∧ y < img.height <;> simp [h]

section GuardLemmas

variable {K : Type} [Field K]

theorem mouse_drawAllPixelsChecked_ne_divisionByZero (cos sin : K → K) (g : MouseGraphic K)
    (buffer : List (TriangleGraphic K)) (cx cy pw ph rot : K) :
    MouseGraphic.drawAllPixelsChecked cos sin g buffer cx cy pw ph rot
      ≠ Except.error Fault.divisionByZero := by
  unfold MouseGraphic.drawAllPixelsChecked
  refine foldChecked_ne_divisionByZero _ (fun b y => ?_) _ buffer
  refine foldChecked_ne_divisionByZero _ (fun b' x => ?_) _ b
  unfold MouseGraphic.drawPixelChecked
  cases hp : g.m_image.pixelChecked x y with
  | error e =>
    intro hcon
    have hcon' : (Except.error e : Except Fault QRgb) = Except.error Fault.divisionByZero :=
      congrArg (fun f => Except.error f) (Except.error.inj hcon)
    exact pixelChecked_ne_divisionByZero g.m_image x y (hp.trans hcon')
  | ok pixel =>
    by_cases ha : qAlpha pixel = 0 <;> simp [ha]

theorem mouse_drawBlockChecked_ne_divisionByZero (cos sin : K → K) (g : MouseGraphic K)
    (cx cy pw ph rot : K) (blockY : Nat) (buffer : List (TriangleGraphic K)) (blockX : Nat) :
    MouseGraphic.drawBlockChecked cos sin g cx cy pw ph rot blockY buffer blockX
      ≠ Except.error Fault.divisionByZero := by
  have hsums : MouseGraphic.blockSumsChecked g blockX blockY
      ≠ Except.error Fault.divisionByZero := by
    unfold MouseGraphic.blockSumsChecked
    refine foldChecked_ne_divisionByZero _ (fun acc y => ?_) _ BlockSums.init
    refine foldChecked_ne_divisionByZero _ (fun acc' x => ?_) _ acc
    unfold MouseGraphic.addPixelChecked
    cases hp : g.m_image.pixelChecked x y with
    | error e =>
      intro hcon
      have hcon' : (Except.error e : Except Fault QRgb) = Except.error Fault.divisionByZero :=
        congrArg (fun f => Except.error f) (Except.error.inj hcon)
      exact pixelChecked_ne_divisionByZero g.m_image x y (hp.trans hcon')
    | ok pixel =>
      by_cases ha : qAlpha pixel > 0 <;> simp [ha]
  unfold MouseGraphic.drawBlockChecked
  cases hs : MouseGraphic.blockSumsChecked g blockX blockY with
  | error e =>
    intro hcon
    have hcon' : (Except.error e : Except Fault BlockSums)
        = Except.error Fault.divisionByZero :=
      congrArg (fun f => Except.error f) (Except.error.inj hcon)
    exact hsums (hs.trans hcon')
  | ok acc =>
    by_cases hg : (!acc.hasVisiblePixels || acc.pixelCount == 0) = true
    · simp [hg]
    · have hne : acc.pixelCount ≠ 0 := by
        intro h0
        apply hg
        simp [h0]
      simp [hg, divChecked, hne]

end GuardLemmas

theorem mouse_drawChecked_ne_divisionByZero {K : Type} [Field K] (cos sin : K → K) (pi : K)
    (polygonToTriangleGraphics : Polygon K → Color → Int → List (TriangleGraphic K))
    (g : MouseGraphic K) :
    MouseGraphic.drawChecked cos sin pi polygonToTriangleGraphics g
      ≠ Except.error Fault.divisionByZero := by
  unfold MouseGraphic.drawChecked
  by_cases hload : g.m_imageLoaded = true
  · by_cases hbody : g.m_mouse.getCurrentBodyPolygon.getVertices = []
    · simp [hload, hbody]
    · have hlen : g.m_mouse.getCurrentBodyPolygon.getVertices.length ≠ 0 := by
        intro h0
        exact hbody (List.length_eq_zero.1 h0)
      simp only [hload, Bool.not_true, Bool.false_eq_true, if_false, List.isEmpty_iff, hbody,
        divByCountChecked, hlen]
      exact mouse_drawAllPixelsChecked_ne_divisionByZero cos sin g _ _ _ _ _ _
  · simp [hload]

theorem mouse_drawChecked_ok {K : Type} [Field K] (cos sin : K → K) (pi : K)
    (polygonToTriangleGraphics : Polygon K → Color → Int → List (TriangleGraphic K))
    (g : MouseGraphic K)
    (hW : g.m_imageWidth = g.m_image.width) (hH : g.m_imageHeight = g.m_image.height) :
    MouseGraphic.drawChecked cos sin pi polygonToTriangleGraphics g
      = Except.ok (MouseGraphic.draw cos sin pi polygonToTriangleGraphics g) := by
  unfold MouseGraphic.drawChecked MouseGraphic.draw
  by_cases hload : g.m_imageLoaded = true
  · by_cases hbody : g.m_mouse.getCurrentBodyPolygon.getVertices = []
    · simp [hload, hbody]
    · have hlen : g.m_mouse.getCurrentBodyPolygon.getVertices.length ≠ 0 := by
        intro h0
        exact hbody (List.length_eq_zero.1 h0)
      simp only [hload, Bool.not_true, Bool.false_eq_true, if_false, List.isEmpty_iff, hbody,
        divByCountChecked, hlen]
      exact mouse_drawAllPixelsChecked_ok cos sin g hW hH _ _ _ _ _ _
  · simp [hload]

/-- C20: division in the rasterizers is always guarded.  The checked division faults exactly
on a zero divisor.  The draw call of the mouse with a loaded image and a body polygon
without vertices returns the empty sequence before any division; in no sprite state does
the draw call or block-averaging mode divide by zero; for a sprite as its constructor
builds it the draw call runs without a fault and returns the result of the draw call with
the total operations; and whenever block-averaging mode passes the guard of a block and
divides the channel sums, `pixelCount` is at least `1`. -/
theorem C20_divisions_are_guarded {K : Type} [Field K] (cos sin : K → K) (pi : K)
    (polygonToTriangleGraphics : Polygon K → Color → Int → List (TriangleGraphic K))
    (g : MouseGraphic K) (buffer : List (TriangleGraphic K))
    (centerX centerY pixelWidth pixelHeight rotationRad : K) :
    (∀ a n : Int, divChecked a n = Except.error Fault.divisionByZero ↔ n = 0)
    ∧ (∀ (a : K) (n : Nat), divByCountChecked a n = Except.error Fault.divisionByZero ↔ n = 0)
    ∧ (g.m_imageLoaded = true → g.m_mouse.getCurrentBodyPolygon.getVertices = [] →
        MouseGraphic.draw cos sin pi polygonToTriangleGraphics g = []
          ∧ MouseGraphic.drawChecked cos sin pi polygonToTriangleGraphics g = Except.ok [])
    ∧ MouseGraphic.drawChecked cos sin pi polygonToTriangleGraphics g
        ≠ Except.error Fault.divisionByZero
    ∧ MouseGraphic.drawOptimizedChecked cos sin g buffer centerX centerY pixelWidth pixelHeight
        rotationRad ≠ Except.error Fault.divisionByZero
    ∧ (∀ (mouse : Mouse K) (img : QImage),
        MouseGraphic.drawChecked cos sin pi polygonToTriangleGraphics
            (MouseGraphic.new mouse img)
          = Except.ok (MouseGraphic.draw cos sin pi polygonToTriangleGraphics
            (MouseGraphic.new mouse img)))
    ∧ (∀ blockX blockY,
        (!(MouseGraphic.blockSums g blockX blockY).hasVisiblePixels
          || (MouseGraphic.blockSums g blockX blockY).pixelCount == 0) = false →
        1 ≤ (MouseGraphic.blockSums g blockX blockY).pixelCount) := by
  refine ⟨fun a n => ?_, fun a n => ?_, fun hload hbody => ?_,
    mouse_drawChecked_ne_divisionByZero cos sin pi polygonToTriangleGraphics g, ?_,
    fun mouse img => ?_, fun blockX blockY hguard => ?_⟩
  · unfold divChecked
    by_cases h : n = 0 <;> simp [h]
  · unfold divByCountChecked
    by_cases h : n = 0 <;> simp [h]
  · constructor
    · simp [MouseGraphic.draw, hload, hbody]
    · simp [MouseGraphic.drawChecked, hload, hbody]
  · unfold MouseGraphic.drawOptimizedChecked
    refine forBlocksChecked_ne_divisionByZero _ _ (fun b blockY => ?_) _ 0 buffer rfl
    exact forBlocksChecked_ne_divisionByZero _ _
      (fun b' blockX => mouse_drawBlockChecked_ne_divisionByZero cos sin g centerX centerY
        pixelWidth pixelHeight rotationRad blockY b' blockX) _ 0 b rfl
  · obtain ⟨hW, hH⟩ := mouse_new_sizes mouse img
    exact mouse_drawChecked_ok cos sin pi polygonToTriangleGraphics _ hW hH
  · rw [mouse_blockSums_eq] at hguard ⊢
    simp only [BlockSums.addSamples, BlockSums.init, zero_add, Bool.or_eq_false_iff,
      beq_eq_false_iff_ne, ne_eq] at hguard ⊢
    have h0 := hguard.2
    omega

/-! ## Further instances at concrete inputs -/

/-- Instance of C11: the mouse of the opaque example image heads east, so its draw call
hands the angle `0 * pi / 180` to per-pixel mode. -/
theorem C11_heading_rotation_angles_witness :
    (sampleMouseGraphic.m_imageLoaded = true
      ∧ sampleMouseGraphic.m_mouse.getCurrentBodyPolygon.getVertices ≠ [])
    ∧ ∃ centerX centerY pixelWidth pixelHeight,
        MouseGraphic.draw cosAtZero sinAtZero piApprox samplePolygonToTriangleGraphics
            sampleMouseGraphic
          = MouseGraphic.drawAllPixels cosAtZero sinAtZero sampleMouseGraphic [] centerX centerY
              pixelWidth pixelHeight
              (MouseGraphic.rotationDeg sampleMouseGraphic.m_mouse.getCurrentDiscretizedRotation
                * piApprox / 180) :=
  ⟨⟨rfl, List.cons_ne_nil _ _⟩,
    (C11_heading_rotation_angles cosAtZero sinAtZero piApprox
      samplePolygonToTriangleGraphics).2.2.2.2 sampleMouseGraphic rfl (List.cons_ne_nil _ _)⟩

/-- Instance of C15: of the four blocks of the `6 × 5` patch image the two left ones are
fully transparent, so block-averaging mode gives `2 * 2` triangles. -/
theorem C15_block_mode_count_witness :
    (visibleBlocks patchMouseGraphic).card = 2
    ∧ ∃ new, MouseGraphic.drawOptimized cosAtZero sinAtZero patchMouseGraphic [] 0 0 1 1 0
          = [] ++ new
        ∧ new.length = 2 * (visibleBlocks patchMouseGraphic).card :=
  ⟨by decide,
    (C15_block_mode_count cosAtZero sinAtZero patchMouseGraphic [] 0 0 1 1 0).1⟩

/-- Instance of C16: the block at `(4, 4)` of the patch image has the two visible pixels
`(4, 4)` and `(5, 4)` with reds `4` and `5`; the emitted red is the truncated mean `4`. -/
theorem C16_block_channels_are_truncated_means_witness :
    (blockVisiblePixels patchMouseGraphic 4 4).Nonempty
    ∧ blockChannelSum patchMouseGraphic 4 4 qRed = 9
    ∧ (blockVisiblePixels patchMouseGraphic 4 4).card = 2
    ∧ ∃ t1 t2, [t1, t2] <:+: MouseGraphic.drawOptimized cosAtZero sinAtZero patchMouseGraphic []
          0 0 1 1 0
        ∧ ∀ v ∈ t1.vertices ++ t2.vertices,
          v.rgb.r = Int.tdiv (blockChannelSum patchMouseGraphic 4 4 qRed)
              (blockVisiblePixels patchMouseGraphic 4 4).card
            ∧ v.rgb.g = Int.tdiv (blockChannelSum patchMouseGraphic 4 4 qGreen)
              (blockVisiblePixels patchMouseGraphic 4 4).card
            ∧ v.rgb.b = Int.tdiv (blockChannelSum patchMouseGraphic 4 4 qBlue)
              (blockVisiblePixels patchMouseGraphic 4 4).card
            ∧ v.a = Int.tdiv (blockChannelSum patchMouseGraphic 4 4 qAlpha)
              (blockVisiblePixels patchMouseGraphic 4 4).card :=
  ⟨by decide, by decide, by decide,
    (C16_block_channels_are_truncated_means cosAtZero sinAtZero patchMouseGraphic [] 0 0 1 1
      0).1 4 4 (by decide) (by decide) (by decide) (by decide) (by decide)⟩

/-- Witness of C19: the patch image for the mouse and the opaque image for the cheese,
whose alphas are not negative. -/
theorem C19_emitted_alpha_at_least_one_witness :
    ((∀ x y, x < patchMouseGraphic.m_imageWidth → y < patchMouseGraphic.m_imageHeight →
        0 ≤ qAlpha (patchMouseGraphic.m_image.pixel x y))
      ∧ (∀ x y, x < sampleCheese.m_imageWidth → y < sampleCheese.m_imageHeight →
        0 ≤ qAlpha (sampleCheese.m_image.pixel x y)))
    ∧ ((∃ new, MouseGraphic.drawAllPixels cosAtZero sinAtZero patchMouseGraphic [] 0 0 1 1 0
          = [] ++ new
        ∧ ∀ t ∈ new, ∀ v ∈ t.vertices, 1 ≤ v.a)
      ∧ (∃ new, CheeseGraphic.drawAllPixels sampleCheese [] 0 0 1 1 = [] ++ new
        ∧ ∀ t ∈ new, ∀ v ∈ t.vertices, 1 ≤ v.a)
      ∧ (∃ new, MouseGraphic.drawOptimized cosAtZero sinAtZero patchMouseGraphic [] 0 0 1 1 0
          = [] ++ new
        ∧ ∀ t ∈ new, ∀ v ∈ t.vertices, 1 ≤ v.a)) :=
  have hm : ∀ x y, x < patchMouseGraphic.m_imageWidth → y < patchMouseGraphic.m_imageHeight →
      0 ≤ qAlpha (patchMouseGraphic.m_image.pixel x y) := by
    intro x y hx hy
    have hx6 : x < 6 := hx
    have hy5 : y < 5 := hy
    simp only [patchMouseGraphic, MouseGraphic.new, QImage.isNull, QImage.pixel, patchImage,
      qAlpha]
    by_cases h4 : x < 4 <;> simp [hx6, hy5, h4]
  have hc : ∀ x y, x < sampleCheese.m_imageWidth → y < sampleCheese.m_imageHeight →
      0 ≤ qAlpha (sampleCheese.m_image.pixel x y) := by
    intro x y hx hy
    have hx2 : x < 2 := hx
    have hy3 : y < 3 := hy
    simp [sampleCheese, CheeseGraphic.new, QImage.isNull, QImage.pixel, opaqueImage, qAlpha,
      hx2, hy3]
  ⟨⟨hm, hc⟩, C19_emitted_alpha_at_least_one cosAtZero sinAtZero patchMouseGraphic sampleCheese
    [] 0 0 1 1 0 hm hc⟩

/-- Instance of C20: the mouse without body vertices draws nothing and runs without a
fault, and the guard of the fully transparent block at `(0, 0)` of the patch image holds
the division back. -/
theorem C20_divisions_are_guarded_witness :
    (bodilessMouseGraphic.m_imageLoaded = true
      ∧ bodilessMouseGraphic.m_mouse.getCurrentBodyPolygon.getVertices = [])
    ∧ (MouseGraphic.draw cosAtZero sinAtZero piApprox samplePolygonToTriangleGraphics
          bodilessMouseGraphic = []
        ∧ MouseGraphic.drawChecked cosAtZero sinAtZero piApprox
          samplePolygonToTriangleGraphics bodilessMouseGraphic = Except.ok [])
    ∧ (MouseGraphic.blockSums patchMouseGraphic 0 0).pixelCount = 0
    ∧ (MouseGraphic.blockSums patchMouseGraphic 4 4).pixelCount = 2
    ∧ 1 ≤ (MouseGraphic.blockSums patchMouseGraphic 4 4).pixelCount :=
  ⟨⟨rfl, rfl⟩,
    (C20_divisions_are_guarded cosAtZero sinAtZero piApprox samplePolygonToTriangleGraphics
      bodilessMouseGraphic [] 0 0 1 1 0).2.2.1 rfl rfl,
    by decide, by decide,
    (C20_divisions_are_guarded cosAtZero sinAtZero piApprox samplePolygonToTriangleGraphics
      patchMouseGraphic [] 0 0 1 1 0).2.2.2.2.2.2 4 4 (by decide)⟩

/-! ## The rounding functions at known values -/

/-- The rounding functions at values whose IEEE 754 images are known: the doubles and the
float nearest to `0.1`, values that are representable and stay as they are, ties that go to
the even significand, and the least subnormal double. -/
theorem roundNearestEven_examples :
    roundDouble (1 / 10) = 3602879701896397 / 36028797018963968
    ∧ roundFloat (1 / 10) = 13421773 / 134217728
    ∧ roundDouble (1 / 2) = 1 / 2 ∧ roundFloat (-3 / 4) = -3 / 4
    ∧ roundDouble 123456789 = 123456789
    ∧ roundDouble (roundDouble (1 / 10)) = roundDouble (1 / 10)
    ∧ roundFloat (roundFloat (1 / 10)) = roundFloat (1 / 10)
    ∧ roundFloat 16777217 = 16777216 ∧ roundFloat 16777219 = 16777220
    ∧ roundDouble 9007199254740993 = 9007199254740992
    ∧ roundDouble (roundDouble (1 / 10) + roundDouble (2 / 10))
        = 1351079888211149 / 4503599627370496
    ∧ roundDouble (twoPow (-1074)) = twoPow (-1074)
    ∧ roundDouble (twoPow (-1075)) = 0
    ∧ roundDouble (3 * twoPow (-1076)) = twoPow (-1074) := by
  refine ⟨?_, ?_, ?_, ?_, ?_, ?_, ?_, ?_, ?_, ?_, ?_, ?_, ?_, ?_⟩ <;> decide!

/-! ## The rounded routines as lists of quads -/

section RoundedLemmas

variable {K : Type} [Field K]

theorem cheese_drawPixelRounded_append (toDouble toFloat : K → K) (g : CheeseGraphic K)
    (cx cy pw ph : K) (y : Nat) (buffer : List (TriangleGraphic K)) (x : Nat) :
    CheeseGraphic.drawPixelRounded toDouble toFloat g cx cy pw ph y buffer x
      = buffer ++ CheeseGraphic.drawPixelRounded toDouble toFloat g cx cy pw ph y [] x := by
  unfold CheeseGraphic.drawPixelRounded
  by_cases h : qAlpha (g.m_image.pixel x y) = 0 <;> simp [h]

theorem mouse_drawPixelRounded_append (toDouble toFloat : K → K) (cos sin : K → K)
    (g : MouseGraphic K) (cx cy pw ph rot : K) (y : Nat) (buffer : List (TriangleGraphic K))
    (x : Nat) :
    MouseGraphic.drawPixelRounded toDouble toFloat cos sin g cx cy pw ph rot y buffer x
      = buffer ++ MouseGraphic.drawPixelRounded toDouble toFloat cos sin g cx cy pw ph rot y [] x := by
  unfold MouseGraphic.drawPixelRounded
  by_cases h : qAlpha (g.m_image.pixel x y) = 0 <;> simp [h]

theorem cheese_drawAllPixelsRounded_eq (toDouble toFloat : K → K) (g : CheeseGraphic K)
    (buffer : List (TriangleGraphic K)) (cx cy pw ph : K) :
    CheeseGraphic.drawAllPixelsRounded toDouble toFloat g buffer cx cy pw ph
      = buffer ++ (List.range g.m_imageHeight).flatMap fun y =>
          (List.range g.m_imageWidth).flatMap fun x =>
            CheeseGraphic.drawPixelRounded toDouble toFloat g cx cy pw ph y [] x := by
  unfold CheeseGraphic.drawAllPixelsRounded
  refine foldl_append_flatMap _ _ (fun b y => ?_) _ _
  exact foldl_append_flatMap _ _
    (fun b x => cheese_drawPixelRounded_append toDouble toFloat g cx cy pw ph y b x) _ _

theorem mouse_drawAllPixelsRounded_eq (toDouble toFloat : K → K) (cos sin : K → K)
    (g : MouseGraphic K) (buffer : List (TriangleGraphic K)) (cx cy pw ph rot : K) :
    MouseGraphic.drawAllPixelsRounded toDouble toFloat cos sin g buffer cx cy pw ph rot
      = buffer ++ (List.range g.m_imageHeight).flatMap fun y =>
          (List.range g.m_imageWidth).flatMap fun x =>
            MouseGraphic.drawPixelRounded toDouble toFloat cos sin g cx cy pw ph rot y [] x := by
  unfold MouseGraphic.drawAllPixelsRounded
  refine foldl_append_flatMap _ _ (fun b y => ?_) _ _
  exact foldl_append_flatMap _ _
    (fun b x => mouse_drawPixelRounded_append toDouble toFloat cos sin g cx cy pw ph rot y b x)
    _ _

theorem mouse_drawBlockRounded_append (toDouble toFloat : K → K) (cos sin : K → K)
    (g : MouseGraphic K) (cx cy pw ph rot : K) (blockY : Nat)
    (buffer : List (TriangleGraphic K)) (blockX : Nat) :
    MouseGraphic.drawBlockRounded toDouble toFloat cos sin g cx cy pw ph rot blockY buffer blockX
      = buffer
        ++ MouseGraphic.drawBlockRounded toDouble toFloat cos sin g cx cy pw ph rot blockY []
          blockX := by
  unfold MouseGraphic.drawBlockRounded
  by_cases h : (!(MouseGraphic.blockSums g blockX blockY).hasVisiblePixels
      || (MouseGraphic.blockSums g blockX blockY).pixelCount == 0) = true
  · simp only [h, if_true, List.append_nil]
  · simp [h]

/-- One block of `drawOptimized` with rounding: nothing when the block has no visible sample,
otherwise the quad colored with the truncated means over the visible samples. -/
theorem mouse_drawBlockRounded_eq (toDouble toFloat : K → K) (cos sin : K → K)
    (g : MouseGraphic K) (cx cy pw ph rot : K) (blockY blockX : Nat) :
    MouseGraphic.drawBlockRounded toDouble toFloat cos sin g cx cy pw ph rot blockY [] blockX
      = if visibleSamples g blockX blockY = [] then []
        else blockQuadRounded toDouble toFloat cos sin g cx cy pw ph rot blockX blockY
          (visibleSamples g blockX blockY) := by
  unfold MouseGraphic.drawBlockRounded
  rw [mouse_blockSums_eq]
  cases hps : visibleSamples g blockX blockY with
  | nil => simp [BlockSums.addSamples, BlockSums.init]
  | cons p ps =>
    have hne : ((ps.length : Int) + 1 == 0) = false := by
      rw [beq_eq_false_iff_ne]
      omega
    simp [BlockSums.addSamples, BlockSums.init, blockQuadRounded, hne]

theorem mouse_drawOptimizedRounded_eq (toDouble toFloat : K → K) (cos sin : K → K)
    (g : MouseGraphic K) (buffer : List (TriangleGraphic K)) (cx cy pw ph rot : K) :
    MouseGraphic.drawOptimizedRounded toDouble toFloat cos sin g buffer cx cy pw ph rot
      = buffer ++ (blockStarts g.m_imageHeight).flatMap fun blockY =>
          (blockStarts g.m_imageWidth).flatMap fun blockX =>
            MouseGraphic.drawBlockRounded toDouble toFloat cos sin g cx cy pw ph rot blockY []
              blockX := by
  unfold MouseGraphic.drawOptimizedRounded
  rw [forBlocks_eq_foldl]
  refine foldl_append_flatMap _ _ (fun b blockY => ?_) _ _
  rw [forBlocks_eq_foldl]
  exact foldl_append_flatMap _ _
    (fun b blockX =>
      mouse_drawBlockRounded_append toDouble toFloat cos sin g cx cy pw ph rot blockY b blockX)
    _ _

/-- A visible block's quad is emitted by `drawOptimized` with rounding, its two triangles
next to each other. -/
theorem mouse_blockQuadRounded_emitted (toDouble toFloat : K → K) (cos sin : K → K)
    (g : MouseGraphic K) (buffer : List (TriangleGraphic K)) (cx cy pw ph rot : K)
    (blockX blockY : Nat)
    (hbx : blockX < g.m_imageWidth) (hbx4 : blockX % 4 = 0)
    (hby : blockY < g.m_imageHeight) (hby4 : blockY % 4 = 0)
    (hvis : visibleSamples g blockX blockY ≠ []) :
    blockQuadRounded toDouble toFloat cos sin g cx cy pw ph rot blockX blockY
        (visibleSamples g blockX blockY)
      <:+: MouseGraphic.drawOptimizedRounded toDouble toFloat cos sin g buffer cx cy pw ph
        rot := by
  rw [mouse_drawOptimizedRounded_eq]
  have h := infix_flatMap_blockStarts
    (fun blockY blockX =>
      MouseGraphic.drawBlockRounded toDouble toFloat cos sin g cx cy pw ph rot blockY [] blockX)
    (mem_blockStarts.2 ⟨hbx, hbx4⟩) (mem_blockStarts.2 ⟨hby, hby4⟩) buffer
  rw [mouse_drawBlockRounded_eq, if_neg hvis] at h
  exact h

/-! ## Without rounding the rounded routines are the exact ones -/

theorem mouse_worldCornersRounded_exact (toDouble : K → K) (hd : ∀ v, toDouble v = v)
    (cos sin : K → K) (g : MouseGraphic K) (cx cy pw ph rot : K) (x y : Nat) :
    MouseGraphic.worldCornersRounded toDouble cos sin rot cx cy
        (MouseGraphic.pixelCornersRounded toDouble g pw ph x y)
      = MouseGraphic.worldCorners cos sin rot cx cy (MouseGraphic.pixelCorners g pw ph x y) := by
  obtain rfl : toDouble = fun v => v := funext hd
  rfl

theorem mouse_blockCornersRounded_exact (toDouble : K → K) (hd : ∀ v, toDouble v = v)
    (g : MouseGraphic K) (pw ph : K) (blockX blockY : Nat) :
    MouseGraphic.blockCornersRounded toDouble g pw ph blockX blockY
      = MouseGraphic.blockCorners g pw ph blockX blockY := by
  obtain rfl : toDouble = fun v => v := funext hd
  rfl

theorem cheese_drawAllPixelsRounded_exact (toDouble toFloat : K → K)
    (hd : ∀ v, toDouble v = v) (hf : ∀ v, toFloat v = v) (g : CheeseGraphic K)
    (buffer : List (TriangleGraphic K)) (cx cy pw ph : K) :
    CheeseGraphic.drawAllPixelsRounded toDouble toFloat g buffer cx cy pw ph
      = CheeseGraphic.drawAllPixels g buffer cx cy pw ph := by
  obtain rfl : toDouble = fun v => v := funext hd
  obtain rfl : toFloat = fun v => v := funext hf
  rfl

theorem mouse_drawAllPixelsRounded_exact (toDouble toFloat : K → K)
    (hd : ∀ v, toDouble v = v) (hf : ∀ v, toFloat v = v) (cos sin : K → K)
    (g : MouseGraphic K) (buffer : List (TriangleGraphic K)) (cx cy pw ph rot : K) :
    MouseGraphic.drawAllPixelsRounded toDouble toFloat cos sin g buffer cx cy pw ph rot
      = MouseGraphic.drawAllPixels cos sin g buffer cx cy pw ph rot := by
  obtain rfl : toDouble = fun v => v := funext hd
  obtain rfl : toFloat = fun v => v := funext hf
  rfl

theorem mouse_drawOptimizedRounded_exact (toDouble toFloat : K → K)
    (hd : ∀ v, toDouble v = v) (hf : ∀ v, toFloat v = v) (cos sin : K → K)
    (g : MouseGraphic K) (buffer : List (TriangleGraphic K)) (cx cy pw ph rot : K) :
    MouseGraphic.drawOptimizedRounded toDouble toFloat cos sin g buffer cx cy pw ph rot
      = MouseGraphic.drawOptimized cos sin g buffer cx cy pw ph rot := by
  obtain rfl : toDouble = fun v => v := funext hd
  obtain rfl : toFloat = fun v => v := funext hf
  rfl

theorem cheese_drawRounded_exact (toDouble toFloat : K → K)
    (hd : ∀ v, toDouble v = v) (hf : ∀ v, toFloat v = v) (g : CheeseGraphic K) :
    CheeseGraphic.drawRounded toDouble toFloat g = CheeseGraphic.draw g := by
  obtain rfl : toDouble = fun v => v := funext hd
  obtain rfl : toFloat = fun v => v := funext hf
  rfl

end RoundedLemmas

theorem cheese_createTriangleRounded_exact {K : Type} (toFloat : K → K)
    (hf : ∀ v, toFloat v = v)
    (v1 v2 v3 : Coordinate K) (color : RGB) (alpha : Int) :
    CheeseGraphic.createTriangleRounded toFloat v1 v2 v3 color alpha
      = CheeseGraphic.createTriangle v1 v2 v3 color alpha := by
  obtain rfl : toFloat = fun v => v := funext hf
  rfl

theorem mouse_createTriangleRounded_exact {K : Type} (toFloat : K → K)
    (hf : ∀ v, toFloat v = v)
    (v1 v2 v3 : Coordinate K) (color : RGB) (alpha : Int) :
    MouseGraphic.createTriangleRounded toFloat v1 v2 v3 color alpha
      = MouseGraphic.createTriangle v1 v2 v3 color alpha := by
  obtain rfl : toFloat = fun v => v := funext hf
  rfl

/-! ## The quad corners of the unrotated per-pixel mode, with and without rounding -/

/-- Counterexample to C13: `createTriangle` narrows the coordinates to single precision and
thereby changes them.  The double `0.1` becomes `0.10000000149011612` and `123456789` becomes
`123456792`; and in the rotated per-pixel mode at angle `0`, for pixel `(0, 0)` of the opaque
`15 × 1` image with center `(0, 0)` and pixel size `0.008`, the top-left world corner is
`(-0.06, -0.004)` in double precision while the first vertex of the first emitted triangle
is `(-0.05999999865889549, -0.004000000189989805)`. -/
theorem C13_createTriangle_changes_coordinates :
    (MouseGraphic.createTriangleRounded roundFloat
        (⟨roundDouble (1 / 10), 123456789⟩ : Coordinate ℚ) ⟨0, 0⟩ ⟨0, 0⟩ ⟨10, 20, 30⟩ 255).p1.x
      = 13421773 / 134217728
    ∧ (13421773 / 134217728 : ℚ) ≠ roundDouble (1 / 10)
    ∧ (MouseGraphic.createTriangleRounded roundFloat
        (⟨roundDouble (1 / 10), 123456789⟩ : Coordinate ℚ) ⟨0, 0⟩ ⟨0, 0⟩ ⟨10, 20, 30⟩ 255).p1.y
      = 123456792
    ∧ roundDouble 123456789 = 123456789
    ∧ qAlpha (oddMouseGraphic.m_image.pixel 0 0) ≠ 0
    ∧ (fun c : Coordinate ℚ => (c.x, c.y))
        (cornerAt (MouseGraphic.worldCornersRounded roundDouble cosAtZero sinAtZero 0 0 0
          (MouseGraphic.pixelCornersRounded roundDouble oddMouseGraphic (roundDouble 0.008)
            (roundDouble 0.008) 0 0)) 0)
      = (-1080863910568919 / 18014398509481984, -1152921504606847 / 288230376151711744)
    ∧ ((MouseGraphic.drawAllPixelsRounded roundDouble roundFloat cosAtZero sinAtZero
          oddMouseGraphic [] 0 0 (roundDouble 0.008) (roundDouble 0.008) 0).head?.map
        fun t => (t.p1.x, t.p1.y))
      = some (-16106127 / 268435456, -8589935 / 2147483648)
    ∧ (-16106127 / 268435456 : ℚ) ≠ -1080863910568919 / 18014398509481984
    ∧ (-8589935 / 2147483648 : ℚ) ≠ -1152921504606847 / 288230376151711744 := by
  refine ⟨?_, ?_, ?_, ?_, ?_, ?_, ?_, ?_, ?_⟩ <;> decide!

/-- C13, amended: per-pixel mode appends, for every pixel with alpha other than `0` in scan
order and for no other pixel, exactly the two triangles `(c0, c1, c2)` and `(c0, c2, c3)`,
in that order, on the world corners `c0 = TL`, `c1 = TR`, `c2 = BR`, `c3 = BL` of the pixel;
each of the six vertices carries the coordinate of its corner narrowed to single precision
together with the color and the alpha of the sample of the pixel; `createTriangle` copies
the color and the alpha unchanged into the three vertices and narrows the three
coordinates, so that a vertex has the coordinate of its corner unchanged exactly when the
narrowing does not round it. -/
theorem C13_two_flat_triangles_per_pixel {K : Type} [Field K] (toDouble toFloat : K → K)
    (cos sin : K → K) (gm : MouseGraphic K) (gc : CheeseGraphic K)
    (buffer : List (TriangleGraphic K))
    (centerX centerY pixelWidth pixelHeight rotationRad : K) :
    MouseGraphic.drawAllPixelsRounded toDouble toFloat cos sin gm buffer centerX centerY
        pixelWidth pixelHeight rotationRad
      = buffer ++ ((List.range gm.m_imageHeight).flatMap fun y =>
          (List.range gm.m_imageWidth).flatMap fun x =>
            if qAlpha (gm.m_image.pixel x y) = 0 then []
            else
              [{ p1 := narrowedVertex toFloat (cornerAt (MouseGraphic.worldCornersRounded
                    toDouble cos sin rotationRad centerX centerY
                    (MouseGraphic.pixelCornersRounded toDouble gm pixelWidth pixelHeight x y)) 0)
                    (gm.m_image.pixel x y),
                 p2 := narrowedVertex toFloat (cornerAt (MouseGraphic.worldCornersRounded
                    toDouble cos sin rotationRad centerX centerY
                    (MouseGraphic.pixelCornersRounded toDouble gm pixelWidth pixelHeight x y)) 1)
                    (gm.m_image.pixel x y),
                 p3 := narrowedVertex toFloat (cornerAt (MouseGraphic.worldCornersRounded
                    toDouble cos sin rotationRad centerX centerY
                    (MouseGraphic.pixelCornersRounded toDouble gm pixelWidth pixelHeight x y)) 2)
                    (gm.m_image.pixel x y) },
               { p1 := narrowedVertex toFloat (cornerAt (MouseGraphic.worldCornersRounded
                    toDouble cos sin rotationRad centerX centerY
                    (MouseGraphic.pixelCornersRounded toDouble gm pixelWidth pixelHeight x y)) 0)
                    (gm.m_image.pixel x y),
                 p2 := narrowedVertex toFloat (cornerAt (MouseGraphic.worldCornersRounded
                    toDouble cos sin rotationRad centerX centerY
                    (MouseGraphic.pixelCornersRounded toDouble gm pixelWidth pixelHeight x y)) 2)
                    (gm.m_image.pixel x y),
                 p3 := narrowedVertex toFloat (cornerAt (MouseGraphic.worldCornersRounded
                    toDouble cos sin rotationRad centerX centerY
                    (MouseGraphic.pixelCornersRounded toDouble gm pixelWidth pixelHeight x y)) 3)
                    (gm.m_image.pixel x y) }])
    ∧ CheeseGraphic.drawAllPixelsRounded toDouble toFloat gc buffer centerX centerY pixelWidth
        pixelHeight
      = buffer ++ ((List.range gc.m_imageHeight).flatMap fun y =>
          (List.range gc.m_imageWidth).flatMap fun x =>
            if qAlpha (gc.m_image.pixel x y) = 0 then []
            else
              [{ p1 := narrowedVertex toFloat (cornerAt (CheeseGraphic.worldCornersRounded
                    toDouble centerX centerY
                    (CheeseGraphic.pixelCornersRounded toDouble gc pixelWidth pixelHeight x y)) 0)
                    (gc.m_image.pixel x y),
                 p2 := narrowedVertex toFloat (cornerAt (CheeseGraphic.worldCornersRounded
                    toDouble centerX centerY
                    (CheeseGraphic.pixelCornersRounded toDouble gc pixelWidth pixelHeight x y)) 1)
                    (gc.m_image.pixel x y),
                 p3 := narrowedVertex toFloat (cornerAt (CheeseGraphic.worldCornersRounded
                    toDouble centerX centerY
                    (CheeseGraphic.pixelCornersRounded toDouble gc pixelWidth pixelHeight x y)) 2)
                    (gc.m_image.pixel x y) },
               { p1 := narrowedVertex toFloat (cornerAt (CheeseGraphic.worldCornersRounded
                    toDouble centerX centerY
                    (CheeseGraphic.pixelCornersRounded toDouble gc pixelWidth pixelHeight x y)) 0)
                    (gc.m_image.pixel x y),
                 p2 := narrowedVertex toFloat (cornerAt (CheeseGraphic.worldCornersRounded
                    toDouble centerX centerY
                    (CheeseGraphic.pixelCornersRounded toDouble gc pixelWidth pixelHeight x y)) 2)
                    (gc.m_image.pixel x y),
                 p3 := narrowedVertex toFloat (cornerAt (CheeseGraphic.worldCornersRounded
                    toDouble centerX centerY
                    (CheeseGraphic.pixelCornersRounded toDouble gc pixelWidth pixelHeight x y)) 3)
                    (gc.m_image.pixel x y) }])
    ∧ (∀ (v1 v2 v3 : Coordinate K) (color : RGB) (alpha : Int),
        MouseGraphic.createTriangleRounded toFloat v1 v2 v3 color alpha
          = { p1 := { x := toFloat v1.x, y := toFloat v1.y, rgb := color, a := alpha },
              p2 := { x := toFloat v2.x, y := toFloat v2.y, rgb := color, a := alpha },
              p3 := { x := toFloat v3.x, y := toFloat v3.y, rgb := color, a := alpha } })
    ∧ (∀ (v1 v2 v3 : Coordinate K) (color : RGB) (alpha : Int),
        CheeseGraphic.createTriangleRounded toFloat v1 v2 v3 color alpha
          = { p1 := { x := toFloat v1.x, y := toFloat v1.y, rgb := color, a := alpha },
              p2 := { x := toFloat v2.x, y := toFloat v2.y, rgb := color, a := alpha },
              p3 := { x := toFloat v3.x, y := toFloat v3.y, rgb := color, a := alpha } })
    ∧ (∀ (c : Coordinate K) (p : QRgb),
        (narrowedVertex toFloat c p).rgb = ⟨qRed p, qGreen p, qBlue p⟩
        ∧ (narrowedVertex toFloat c p).a = qAlpha p
        ∧ (narrowedVertex toFloat c p = flatVertex c p
            ↔ toFloat c.x = c.x ∧ toFloat c.y = c.y)) := by
  refine ⟨?_, ?_, fun _ _ _ _ _ => rfl, fun _ _ _ _ _ => rfl, fun c p => ⟨rfl, rfl, ?_⟩⟩
  · rw [mouse_drawAllPixelsRounded_eq]
    refine congrArg _ (congrArg _ (funext fun y => congrArg _ (funext fun x => ?_)))
    unfold MouseGraphic.drawPixelRounded
    by_cases h : qAlpha (gm.m_image.pixel x y) = 0
    · simp only [h, if_true]
    · simp only [h, if_false, List.nil_append, List.cons_append]
      rfl
  · rw [cheese_drawAllPixelsRounded_eq]
    refine congrArg _ (congrArg _ (funext fun y => congrArg _ (funext fun x => ?_)))
    unfold CheeseGraphic.drawPixelRounded
    by_cases h : qAlpha (gc.m_image.pixel x y) = 0
    · simp only [h, if_true]
    · simp only [h, if_false, List.nil_append, List.cons_append]
      rfl
  · simp [narrowedVertex, flatVertex]

/-! ## Clipping of the boundary blocks, with and without rounding -/

/-- Counterexample to C14: in double precision the right edge of a last block can overshoot
the right edge of the image.  For the `15 × 1` image with pixel size `0.008` (as double) and
the last block of the row, at `blockX = 12`, the routine computes the left edge
`0.036000000000000004` and the width `0.024`, hence the right edge `0.060000000000000005`,
which is larger than `W/2 * pw`, both as an exact product and as the double `0.06`: the
corner lies outside the image rectangle and the edges do not coincide. -/
theorem C14_rounded_last_block_overshoots :
    (12 < oddMouseGraphic.m_imageWidth ∧ oddMouseGraphic.m_imageWidth ≤ 12 + 4
      ∧ 0 < oddMouseGraphic.m_imageHeight ∧ 0 ≤ roundDouble 0.008)
    ∧ (MouseGraphic.blockCornersRounded roundDouble oddMouseGraphic (roundDouble 0.008)
          (roundDouble 0.008) 12 0).map (fun c => (c.x, c.y))
        = [(1297036692682703 / 36028797018963968, -1152921504606847 / 288230376151711744),
           (8646911284551353 / 144115188075855872, -1152921504606847 / 288230376151711744),
           (8646911284551353 / 144115188075855872, 1152921504606847 / 288230376151711744),
           (1297036692682703 / 36028797018963968, 1152921504606847 / 288230376151711744)]
    ∧ (oddMouseGraphic.m_imageWidth : ℚ) / 2 * roundDouble 0.008
        < 8646911284551353 / 144115188075855872
    ∧ roundDouble (roundDouble ((oddMouseGraphic.m_imageWidth : ℚ) / 2) * roundDouble 0.008)
        < 8646911284551353 / 144115188075855872
    ∧ ¬ ((pointAt (MouseGraphic.blockCornersRounded roundDouble oddMouseGraphic
            (roundDouble 0.008) (roundDouble 0.008) 12 0) 1).x
          ≤ (oddMouseGraphic.m_imageWidth : ℚ) / 2 * roundDouble 0.008) := by
  refine ⟨⟨by decide, by decide, by decide, ?_⟩, ?_, ?_, ?_, ?_⟩ <;> decide!

/-- C14, amended: block-averaging mode clips boundary blocks to the image.  For every block
origin `(blockX, blockY)` inside a `W × H` image the local quad is built from the top-left
corner `((blockX - W/2) * pw, (blockY - H/2) * ph)`, the width `min 4 (W - blockX) * pw` and
the height `min 4 (H - blockY) * ph`, each operation being rounded to double precision, and
this is the quad a visible block emits.  When no operation rounds (exact arithmetic), each
corner of the local quad lies in the image rectangle spanned by `± W/2 * pw` and
`± H/2 * ph` (the interval `[-W/2 * pw, W/2 * pw]` when the pixel size is not negative), the
right edge of a last block of a row is the right edge of the image and the bottom edge of a
last block of a column is the bottom edge of the image, whether or not `W` and `H` are
multiples of `4`. -/
theorem C14_boundary_blocks_clipped {K : Type} [LinearOrderedField K]
    (toDouble toFloat : K → K) (cos sin : K → K)
    (g : MouseGraphic K) (buffer : List (TriangleGraphic K))
    (centerX centerY pixelWidth pixelHeight rotationRad : K) (blockX blockY : Nat)
    (hbx : blockX < g.m_imageWidth) (hby : blockY < g.m_imageHeight) :
    (∃ localX localY blockWidth blockHeight : K,
      localX = toDouble (toDouble ((blockX : K) - toDouble ((g.m_imageWidth : K) / 2))
        * pixelWidth)
      ∧ localY = toDouble (toDouble ((blockY : K) - toDouble ((g.m_imageHeight : K) / 2))
        * pixelHeight)
      ∧ blockWidth = toDouble
        (((min (4 : Int) ((g.m_imageWidth : Int) - (blockX : Int)) : Int) : K) * pixelWidth)
      ∧ blockHeight = toDouble
        (((min (4 : Int) ((g.m_imageHeight : Int) - (blockY : Int)) : Int) : K) * pixelHeight)
      ∧ MouseGraphic.blockCornersRounded toDouble g pixelWidth pixelHeight blockX blockY
          = [⟨localX, localY⟩,
             ⟨toDouble (localX + blockWidth), localY⟩,
             ⟨toDouble (localX + blockWidth), toDouble (localY + blockHeight)⟩,
             ⟨localX, toDouble (localY + blockHeight)⟩])
    ∧ (blockX % 4 = 0 → blockY % 4 = 0 →
        (∃ x y, blockX ≤ x ∧ x < blockX + 4 ∧ x < g.m_imageWidth
          ∧ blockY ≤ y ∧ y < blockY + 4 ∧ y < g.m_imageHeight
          ∧ 0 < qAlpha (g.m_image.pixel x y)) →
        blockQuadRounded toDouble toFloat cos sin g centerX centerY pixelWidth pixelHeight
            rotationRad blockX blockY (visibleSamples g blockX blockY)
          <:+: MouseGraphic.drawOptimizedRounded toDouble toFloat cos sin g buffer centerX
            centerY pixelWidth pixelHeight rotationRad)
    ∧ ((∀ v, toDouble v = v) →
        MouseGraphic.blockCornersRounded toDouble g pixelWidth pixelHeight blockX blockY
          = [⟨((blockX : K) - (g.m_imageWidth : K) / 2) * pixelWidth,
              ((blockY : K) - (g.m_imageHeight : K) / 2) * pixelHeight⟩,
             ⟨((blockX : K) - (g.m_imageWidth : K) / 2) * pixelWidth
                + ((min (4 : Int) ((g.m_imageWidth : Int) - (blockX : Int)) : Int) : K)
                  * pixelWidth,
              ((blockY : K) - (g.m_imageHeight : K) / 2) * pixelHeight⟩,
             ⟨((blockX : K) - (g.m_imageWidth : K) / 2) * pixelWidth
                + ((min (4 : Int) ((g.m_imageWidth : Int) - (blockX : Int)) : Int) : K)
                  * pixelWidth,
              ((blockY : K) - (g.m_imageHeight : K) / 2) * pixelHeight
                + ((min (4 : Int) ((g.m_imageHeight : Int) - (blockY : Int)) : Int) : K)
                  * pixelHeight⟩,
             ⟨((blockX : K) - (g.m_imageWidth : K) / 2) * pixelWidth,
              ((blockY : K) - (g.m_imageHeight : K) / 2) * pixelHeight
                + ((min (4 : Int) ((g.m_imageHeight : Int) - (blockY : Int)) : Int) : K)
                  * pixelHeight⟩]
        ∧ (∀ c ∈ MouseGraphic.blockCornersRounded toDouble g pixelWidth pixelHeight blockX
              blockY,
            c.x ∈ Set.uIcc (-((g.m_imageWidth : K) / 2) * pixelWidth)
                ((g.m_imageWidth : K) / 2 * pixelWidth)
            ∧ c.y ∈ Set.uIcc (-((g.m_imageHeight : K) / 2) * pixelHeight)
                ((g.m_imageHeight : K) / 2 * pixelHeight))
        ∧ (0 ≤ pixelWidth → 0 ≤ pixelHeight →
            ∀ c ∈ MouseGraphic.blockCornersRounded toDouble g pixelWidth pixelHeight blockX
                blockY,
              c.x ∈ Set.Icc (-((g.m_imageWidth : K) / 2) * pixelWidth)
                  ((g.m_imageWidth : K) / 2 * pixelWidth)
              ∧ c.y ∈ Set.Icc (-((g.m_imageHeight : K) / 2) * pixelHeight)
                  ((g.m_imageHeight : K) / 2 * pixelHeight))
        ∧ (g.m_imageWidth ≤ blockX + 4 →
            (pointAt (MouseGraphic.blockCornersRounded toDouble g pixelWidth pixelHeight blockX
                blockY) 1).x = (g.m_imageWidth : K) / 2 * pixelWidth
            ∧ (pointAt (MouseGraphic.blockCornersRounded toDouble g pixelWidth pixelHeight
                blockX blockY) 2).x = (g.m_imageWidth : K) / 2 * pixelWidth)
        ∧ (g.m_imageHeight ≤ blockY + 4 →
            (pointAt (MouseGraphic.blockCornersRounded toDouble g pixelWidth pixelHeight blockX
                blockY) 2).y = (g.m_imageHeight : K) / 2 * pixelHeight
            ∧ (pointAt (MouseGraphic.blockCornersRounded toDouble g pixelWidth pixelHeight
                blockX blockY) 3).y = (g.m_imageHeight : K) / 2 * pixelHeight)) := by
  refine ⟨⟨_, _, _, _, rfl, rfl, rfl, rfl, ?_⟩, ?_, ?_⟩
  · simp [MouseGraphic.blockCornersRounded, BLOCK_SIZE]
  · rintro hx4 hy4 ⟨x, y, hx1, hx2, hx3, hy1, hy2, hy3, ha⟩
    exact mouse_blockQuadRounded_emitted toDouble toFloat cos sin g buffer centerX centerY
      pixelWidth pixelHeight rotationRad blockX blockY hbx hx4 hby hy4
      (visibleSamples_ne_nil g blockX blockY x y hx1 hx2 hx3 hy1 hy2 hy3 ha)
  · intro hexact
    rw [mouse_blockCornersRounded_exact toDouble hexact]
    obtain ⟨h1, h2, h3, h4, h5, -⟩ := mouse_blockCorners_clipped cos sin g buffer centerX
      centerY pixelWidth pixelHeight rotationRad blockX blockY hbx hby
    exact ⟨h1, h2, h3, h4, h5⟩

/-- Witness of C14, amended: the block at `(4, 4)` of the uniform `5 × 6` example image is
one pixel wide and two pixels high; it is visible and its quad is emitted in the program's
arithmetic; without rounding its right edge is the right edge of the image, its bottom edge
the bottom edge of the image, and its corners lie in the image rectangle. -/
theorem C14_boundary_blocks_clipped_witness :
    (4 < uniformMouseGraphic.m_imageWidth ∧ 4 < uniformMouseGraphic.m_imageHeight)
    ∧ (blockQuadRounded roundDouble roundFloat cosAtZero sinAtZero uniformMouseGraphic 0 0
          (roundDouble 0.008) (roundDouble 0.008) 0 4 4 (visibleSamples uniformMouseGraphic 4 4)
        <:+: MouseGraphic.drawOptimizedRounded roundDouble roundFloat cosAtZero sinAtZero
          uniformMouseGraphic [] 0 0 (roundDouble 0.008) (roundDouble 0.008) 0)
    ∧ ((pointAt (MouseGraphic.blockCornersRounded (fun v => v) uniformMouseGraphic (1 / 2)
            (1 / 2) 4 4) 1).x = (uniformMouseGraphic.m_imageWidth : ℚ) / 2 * (1 / 2)
        ∧ (pointAt (MouseGraphic.blockCornersRounded (fun v => v) uniformMouseGraphic (1 / 2)
            (1 / 2) 4 4) 2).x = (uniformMouseGraphic.m_imageWidth : ℚ) / 2 * (1 / 2))
    ∧ ((pointAt (MouseGraphic.blockCornersRounded (fun v => v) uniformMouseGraphic (1 / 2)
            (1 / 2) 4 4) 2).y = (uniformMouseGraphic.m_imageHeight : ℚ) / 2 * (1 / 2)
        ∧ (pointAt (MouseGraphic.blockCornersRounded (fun v => v) uniformMouseGraphic (1 / 2)
            (1 / 2) 4 4) 3).y = (uniformMouseGraphic.m_imageHeight : ℚ) / 2 * (1 / 2))
    ∧ (∀ c ∈ MouseGraphic.blockCornersRounded (fun v => v) uniformMouseGraphic (1 / 2) (1 / 2)
          4 4,
        c.x ∈ Set.uIcc (-((uniformMouseGraphic.m_imageWidth : ℚ) / 2) * (1 / 2))
            ((uniformMouseGraphic.m_imageWidth : ℚ) / 2 * (1 / 2))
        ∧ c.y ∈ Set.uIcc (-((uniformMouseGraphic.m_imageHeight : ℚ) / 2) * (1 / 2))
            ((uniformMouseGraphic.m_imageHeight : ℚ) / 2 * (1 / 2))) :=
  ⟨⟨by decide, by decide⟩,
    (C14_boundary_blocks_clipped roundDouble roundFloat cosAtZero sinAtZero uniformMouseGraphic
      [] 0 0 (roundDouble 0.008) (roundDouble 0.008) 0 4 4 (by decide) (by decide)).2.1
      (by decide) (by decide) ⟨4, 4, by decide, by decide, by decide, by decide, by decide,
        by decide, by decide⟩,
    ((C14_boundary_blocks_clipped (fun v => v) (fun v => v) cosAtZero sinAtZero
      uniformMouseGraphic [] 0 0 (1 / 2) (1 / 2) 0 4 4 (by decide) (by decide)).2.2
      (fun _ => rfl)).2.2.2.1 (by decide),
    ((C14_boundary_blocks_clipped (fun v => v) (fun v => v) cosAtZero sinAtZero
      uniformMouseGraphic [] 0 0 (1 / 2) (1 / 2) 0 4 4 (by decide) (by decide)).2.2
      (fun _ => rfl)).2.2.2.2 (by decide),
    ((C14_boundary_blocks_clipped (fun v => v) (fun v => v) cosAtZero sinAtZero
      uniformMouseGraphic [] 0 0 (1 / 2) (1 / 2) 0 4 4 (by decide) (by decide)).2.2
      (fun _ => rfl)).2.1⟩

end mms
